import Mathlib

/-!
Verification of the Cube language implementation (scanner, keyword
recognizer, symbol table, bytecode compiler and stack VM) against its
natural-language specification.  Each C module is embedded shallowly:
pure functions become Lean functions, the mutually recursive parser is
given explicit fuel, and machine pointers become list indices.  All
definitions are executable so that concrete programs can be evaluated
inside theorems.
-/

set_option maxRecDepth 4000

namespace Cube

/-! ## Token kinds (token.h)

The `TokenType` enumeration from `token.h`, in declaration order.  The
keyword table in `keywords.c` additionally references `TOKEN_IMPORT`,
which belongs to a revision of the token enumeration that is not in the
tree; it is modelled as the extra constructor `tImport` (only its
distinctness from the other kinds matters). -/

inductive TokenType where
  | tLeftParen
  | tRightParen
  | tLeftBrace
  | tRightBrace
  | tLeftBracket
  | tRightBracket
  | tPercent
  | tComma
  | tCaret
  | tDot
  | tMinus
  | tPlus
  | tSemicolon
  | tSlash
  | tStar
  | tAnd
  | tOr
  | tBang
  | tBangEqual
  | tEqual
  | tEqualEqual
  | tGreater
  | tGreaterEqual
  | tLess
  | tLessEqual
  | tIdentifier
  | tString
  | tInteger
  | tReal
  | tBegin
  | tBreak
  | tCase
  | tClass
  | tDef
  | tDo
  | tElse
  | tEnd
  | tEnsure
  | tFalse
  | tIf
  | tNext
  | tNil
  | tPrint
  | tRescue
  | tReturn
  | tSuper
  | tSwitch
  | tThis
  | tTrue
  | tUnless
  | tUntil
  | tVar
  | tWhile
  | tError
  | tEof
  | tImport
  deriving DecidableEq

/-! ## Keyword recognizer (keywords.c) -/

/-- `HASH_MAX` from keywords.h. -/
def HASH_MAX : Nat := 7919

/-- `NUM_KEYWORDS` from keywords.h (the table below has this many rows). -/
def NUM_KEYWORDS : Nat := 23

/-- Modelled from the spec: `LEXEME_LEN` is used by `keywords.c` via
`strnlen(word, LEXEME_LEN)` but the `common.h` revision defining it is not
under `src/`.  The spec's fast-path description ("length greater than the
longest keyword" is rejected) requires any value larger than 6; the exact
value is irrelevant to every theorem below. -/
def LEXEME_LEN : Nat := 256

/-- The `keywords` array from keywords.c: token type, precomputed hash,
spelling. -/
def keywords : List (TokenType × Nat × String) :=
  [ (.tBegin,  2504, "begin"),
    (.tBreak,  3748, "break"),
    (.tCase,   3481, "case"),
    (.tClass,  1018, "class"),
    (.tDef,    4235, "def"),
    (.tDo,     2081, "do"),
    (.tElse,   1128, "else"),
    (.tEnd,    7082, "end"),
    (.tEnsure, 7205, "ensure"),
    (.tFalse,  2595, "false"),
    (.tIf,     6130, "if"),
    (.tImport, 3869, "import"),
    (.tNext,   1643, "next"),
    (.tNil,    4493, "nil"),
    (.tRescue, 7137, "rescue"),
    (.tReturn, 2618, "return"),
    (.tSuper,  4786, "super"),
    (.tSwitch, 5077, "switch"),
    (.tThis,   5937, "this"),
    (.tTrue,   749,  "true"),
    (.tUnless, 7846, "unless"),
    (.tUntil,  1255, "until"),
    (.tWhile,  6530, "while") ]

/-- The universal string hash of keywords.c (`hash`): fold
`h := (a*h + c) mod HASH_MAX` over the characters, updating
`a := a*b mod (HASH_MAX - 1)` between characters, with `a = 31415`,
`b = 27183`.  Characters are ASCII byte values. -/
def kw_hash (w : String) : Nat :=
  (w.toList.foldl
    (fun (p : Nat × Nat) c => ((p.2 * p.1 + c.toNat) % HASH_MAX, p.2 * 27183 % (HASH_MAX - 1)))
    (0, 31415)).1

/-- `verify_keyword` from keywords.c: `memcmp` of the input word against the
first `strnlen(keyword, LEXEME_LEN)` bytes of the candidate keyword — i.e.
only a keyword-length prefix of the input word is compared. -/
def verify_keyword (w : String) (e : TokenType × Nat × String) : Option TokenType :=
  if w.toList.take (min e.2.2.length LEXEME_LEN) = e.2.2.toList then some e.1 else none

/-- `find_keyword` from keywords.c.  The C function returns an `int` token
type, with `0` meaning "not a keyword"; the model returns `Option TokenType`
with `none` for `0`.  The `none` input models a `NULL` word pointer. -/
def find_keyword : Option String → Option TokenType
  | none => none
  | some w =>
    let length := min w.length LEXEME_LEN
    if length < 1 ∨ 6 < length then none
    else
      match keywords.find? (fun e => e.2.1 = kw_hash w) with
      | some e => verify_keyword w e
      | none => none

/-! ## Source buffer (source.c)

The source buffer's character pointers become indices into an immutable
character list.  `peek` past the end of the buffer reads the terminating
NUL of the C string, modelled as the default character `'\x00'`. -/

structure Source where
  buffer : List Char
  start : Nat
  current : Nat
  line : Int
  col : Int
  deriving DecidableEq

/-- `source_create` from source.c (REPL/inline buffers; the file origin is
out of scope). -/
def source_create (text : String) : Source :=
  { buffer := text.toList, start := 0, current := 0, line := 1, col := 1 }

/-- `peek` from source.c: the character at `current` (the NUL terminator
when the buffer is exhausted). -/
def peek (s : Source) : Char :=
  s.buffer.getD s.current '\x00'

/-- `is_at_end` from source.c: `*current == '\0'`. -/
def is_at_end (s : Source) : Bool :=
  peek s = '\x00'

/-- `advance` from source.c: step `current`, returning the character that
was current. -/
def advance (s : Source) : Char × Source :=
  (peek s, { s with current := s.current + 1, col := s.col + 1 })

/-- `peek_next` from source.c. -/
def peek_next (s : Source) : Char :=
  if is_at_end s then '\x00' else s.buffer.getD (s.current + 1) '\x00'

/-- `match` from source.c (named `match_char` here; `match` is reserved in
Lean). -/
def match_char (s : Source) (expected : Char) : Bool × Source :=
  if is_at_end s then (false, s)
  else if peek s ≠ expected then (false, s)
  else (true, { s with current := s.current + 1, col := s.col + 1 })

/-- `increment_line` from source.c. -/
def increment_line (s : Source) : Source :=
  { s with line := s.line + 1, col := 1 }

/-- `start_token` from source.c. -/
def start_token (s : Source) : Source :=
  { s with start := s.current }

/-- `token_length` from source.c. -/
def token_length (s : Source) : Nat :=
  s.current - s.start

theorem advance_buffer (s : Source) : (advance s).2.buffer = s.buffer := rfl

theorem advance_current (s : Source) : (advance s).2.current = s.current + 1 := rfl

theorem increment_line_buffer (s : Source) : (increment_line s).buffer = s.buffer := rfl

theorem increment_line_current (s : Source) : (increment_line s).current = s.current := rfl

theorem current_lt_of_not_at_end (s : Source) (h : ¬ is_at_end s = true) :
    s.current < s.buffer.length := by
  by_contra hlt
  apply h
  simp [is_at_end, peek, List.getD, List.getElem?_eq_none (Nat.le_of_not_lt hlt)]

/-- The `#`-comment inner loop of `skip_whitespace` in source.c: advance
while the current character is neither a newline nor the end of buffer. -/
def skip_comment (s : Source) : Source :=
  if h : peek s ≠ '\n' ∧ ¬ is_at_end s = true then skip_comment (advance s).2
  else s
termination_by s.buffer.length - s.current
decreasing_by
  have := current_lt_of_not_at_end s h.2
  simp only [advance_buffer, advance_current]
  omega

theorem skip_comment_spec : ∀ (n : Nat) (s : Source), s.buffer.length - s.current ≤ n →
    (skip_comment s).buffer = s.buffer ∧ s.current ≤ (skip_comment s).current := by
  intro n
  induction n with
  | zero =>
    intro s hle
    rw [skip_comment]
    by_cases h : peek s ≠ '\n' ∧ ¬ is_at_end s = true
    · exact absurd (current_lt_of_not_at_end s h.2) (by omega)
    · rw [dif_neg h]
      exact ⟨rfl, Nat.le_refl _⟩
  | succ n ih =>
    intro s hle
    rw [skip_comment]
    by_cases h : peek s ≠ '\n' ∧ ¬ is_at_end s = true
    · rw [dif_pos h]
      have hlt := current_lt_of_not_at_end s h.2
      have hrec := ih (advance s).2 (by simp only [advance_buffer, advance_current]; omega)
      refine ⟨by rw [hrec.1]; rfl, ?_⟩
      have := hrec.2
      simp only [advance_current] at this
      omega
    · rw [dif_neg h]
      exact ⟨rfl, Nat.le_refl _⟩

theorem skip_comment_buffer (s : Source) : (skip_comment s).buffer = s.buffer :=
  (skip_comment_spec (s.buffer.length - s.current) s (Nat.le_refl _)).1

theorem skip_comment_current_le (s : Source) : s.current ≤ (skip_comment s).current :=
  (skip_comment_spec (s.buffer.length - s.current) s (Nat.le_refl _)).2

/-- `skip_whitespace` from source.c: skip spaces, `\r`, tabs, form feeds,
vertical tabs; newlines also bump the line counter; `#` starts a comment
running to the next newline. -/
def skip_whitespace (s : Source) : Source :=
  if h1 : peek s = ' ' ∨ peek s = '\r' ∨ peek s = '\t' ∨ peek s = '\x0c' ∨ peek s = '\x0b' then
    skip_whitespace (advance s).2
  else if h2 : peek s = '\n' then
    skip_whitespace (advance (increment_line s)).2
  else if h3 : peek s = '#' then
    skip_whitespace (skip_comment s)
  else s
termination_by s.buffer.length - s.current
decreasing_by
  · have hne : ¬ is_at_end s = true := by
      simp only [is_at_end, decide_eq_true_eq]
      rcases h1 with h | h | h | h | h <;> simp [h]
    have := current_lt_of_not_at_end s hne
    simp only [advance_buffer, advance_current]
    omega
  · have hne : ¬ is_at_end s = true := by
      simp only [is_at_end, decide_eq_true_eq]
      simp [h2]
    have := current_lt_of_not_at_end s hne
    simp only [advance_buffer, advance_current, increment_line_buffer, increment_line_current]
    omega
  · have hne : ¬ is_at_end s = true := by
      simp only [is_at_end, decide_eq_true_eq]
      simp [h3]
    have hlt := current_lt_of_not_at_end s hne
    have hstep : skip_comment s = skip_comment (advance s).2 := by
      rw [skip_comment]
      rw [dif_pos ⟨by simp [h3], hne⟩]
    have h1 : s.current < (skip_comment s).current := by
      calc s.current < s.current + 1 := Nat.lt_succ_self _
        _ ≤ (skip_comment (advance s).2).current := by
            have := skip_comment_current_le (advance s).2
            simpa [advance_current] using this
        _ = (skip_comment s).current := by rw [hstep]
    rw [skip_comment_buffer]
    omega

/-! ## Tokens (token.c) and the scanner (scanner.c) -/

structure Token where
  type : TokenType
  lexeme : Option String
  line : Int
  col : Int
  deriving DecidableEq

/-- `token_create` from token.c. -/
def token_create (type : TokenType) (lexeme : Option String) (line col : Int) : Token :=
  ⟨type, lexeme, line, col⟩

/-- The lexeme `string_copy(start_position(scanner), token_length(scanner))`
used by `make_token` in scanner.c. -/
def lexeme_text (s : Source) : String :=
  String.mk ((s.buffer.drop s.start).take (token_length s))

/-- `make_token` from scanner.c: identifier and number tokens own the
scanned text, a string token owns the text without the surrounding quotes,
all other kinds carry no lexeme. -/
def make_token (type : TokenType) (s : Source) : Token :=
  match type with
  | .tIdentifier => token_create type (some (lexeme_text s)) s.line s.col
  | .tInteger => token_create type (some (lexeme_text s)) s.line s.col
  | .tReal => token_create type (some (lexeme_text s)) s.line s.col
  | .tString =>
    token_create type (some (String.mk ((s.buffer.drop (s.start + 1)).take (token_length s - 2))))
      s.line s.col
  | _ => token_create type none s.line s.col

/-- `error_token` from scanner.c. -/
def error_token (message : String) (s : Source) : Token :=
  token_create .tError (some message) s.line s.col

/-- `is_digit` from scanner.c. -/
def is_digit (c : Char) : Bool :=
  '0' ≤ c ∧ c ≤ '9'

/-- `is_alpha` from scanner.c. -/
def is_alpha (c : Char) : Bool :=
  ('a' ≤ c ∧ c ≤ 'z') ∨ ('A' ≤ c ∧ c ≤ 'Z') ∨ c = '_'

/-- The scanning loop of `string()` in scanner.c. -/
def scan_string (s : Source) : Token × Source :=
  if h : peek s ≠ '"' ∧ ¬ is_at_end s = true then
    scan_string (advance (if peek s = '\n' then increment_line s else s)).2
  else if is_at_end s then (error_token "Unterminated string." s, s)
  else
    let s2 := (advance s).2
    (make_token .tString s2, s2)
termination_by s.buffer.length - s.current
decreasing_by
  have := current_lt_of_not_at_end s h.2
  by_cases hnl : peek s = '\n'
  · rw [dif_pos hnl]
    simp only [advance_buffer, advance_current, increment_line_buffer, increment_line_current]
    omega
  · rw [dif_neg hnl]
    simp only [advance_buffer, advance_current]
    omega

/-- The digit-consuming loop of `number()` in scanner.c. -/
def skip_digits (s : Source) : Source :=
  if h : is_digit (peek s) = true then skip_digits (advance s).2 else s
termination_by s.buffer.length - s.current
decreasing_by
  have hne : ¬ is_at_end s = true := by
    simp only [is_at_end, decide_eq_true_eq]
    intro hc
    rw [hc] at h
    exact absurd h (by decide)
  have := current_lt_of_not_at_end s hne
  simp only [advance_buffer, advance_current]
  omega

/-- `number()` from scanner.c: digits, then an optional fraction made of a
dot followed by at least one digit. -/
def scan_number (s0 : Source) : Token × Source :=
  let s := skip_digits s0
  if peek s = '.' ∧ is_digit (peek_next s) = true then
    let s2 := skip_digits (advance s).2
    (make_token .tReal s2, s2)
  else (make_token .tInteger s, s)

/-- The identifier-consuming loop of `identifier()` in scanner.c. -/
def skip_ident_chars (s : Source) : Source :=
  if h : is_alpha (peek s) = true ∨ is_digit (peek s) = true then
    skip_ident_chars (advance s).2
  else s
termination_by s.buffer.length - s.current
decreasing_by
  have hne : ¬ is_at_end s = true := by
    simp only [is_at_end, decide_eq_true_eq]
    intro hc
    rw [hc] at h
    rcases h with h | h <;> exact absurd h (by decide)
  have := current_lt_of_not_at_end s hne
  simp only [advance_buffer, advance_current]
  omega

/-- `identifier_type` from scanner.c: consult the keyword recognizer, fall
back to `TOKEN_IDENTIFIER`. -/
def identifier_type (s : Source) : TokenType :=
  match find_keyword (some (lexeme_text s)) with
  | some t => t
  | none => .tIdentifier

/-- `identifier()` from scanner.c. -/
def scan_identifier (s0 : Source) : Token × Source :=
  let s := skip_ident_chars s0
  (make_token (identifier_type s) s, s)

/-- `next_token` from scanner.c: skip whitespace, then dispatch on the
first character of the token. -/
def next_token (s0 : Source) : Token × Source :=
  let s1 := start_token (skip_whitespace s0)
  if is_at_end s1 then (make_token .tEof s1, s1)
  else
    let (c, s) := advance s1
    if is_alpha c then scan_identifier s
    else if is_digit c then scan_number s
    else if c = '(' then (make_token .tLeftParen s, s)
    else if c = ')' then (make_token .tRightParen s, s)
    else if c = '{' then (make_token .tLeftBrace s, s)
    else if c = '}' then (make_token .tRightBrace s, s)
    else if c = '[' then (make_token .tLeftBracket s, s)
    else if c = ']' then (make_token .tRightBracket s, s)
    else if c = '%' then (make_token .tPercent s, s)
    else if c = ',' then (make_token .tComma s, s)
    else if c = '^' then (make_token .tCaret s, s)
    else if c = '.' then (make_token .tDot s, s)
    else if c = '-' then (make_token .tMinus s, s)
    else if c = '+' then (make_token .tPlus s, s)
    else if c = ';' then (make_token .tSemicolon s, s)
    else if c = '/' then (make_token .tSlash s, s)
    else if c = '*' then (make_token .tStar s, s)
    else if c = '&' then (make_token .tAnd s, s)
    else if c = '|' then (make_token .tOr s, s)
    else if c = '!' then
      let (m, s2) := match_char s '='
      (make_token (if m then .tBangEqual else .tBang) s2, s2)
    else if c = '=' then
      let (m, s2) := match_char s '='
      (make_token (if m then .tEqualEqual else .tEqual) s2, s2)
    else if c = '>' then
      let (m, s2) := match_char s '='
      (make_token (if m then .tGreaterEqual else .tGreater) s2, s2)
    else if c = '<' then
      let (m, s2) := match_char s '='
      (make_token (if m then .tLessEqual else .tLess) s2, s2)
    else if c = '"' then scan_string s
    else (error_token "Unexpected character." s, s)

/-! ## Objects and values (object.c)

C `long` is modelled as `Int` (no theorem below exercises 64-bit
overflow) and C `double` as `ℚ`; every theorem that evaluates a Real
does so only at values where the C double computation is exact. -/

inductive Obj where
  | boolean (value : Bool)
  | nil
  | integer (value : Int)
  | real (value : ℚ)
  | string (chars : String)
  deriving DecidableEq

/-- `IS_NUMBER` from object.h. -/
def is_number : Obj → Bool
  | .integer _ => true
  | .real _ => true
  | _ => false

/-- `objects_equal` from object.c: unequal kinds are unequal, equal kinds
compare the payload (strings compare length, then content). -/
def objects_equal : Obj → Obj → Bool
  | .boolean a, .boolean b => a = b
  | .nil, .nil => true
  | .integer a, .integer b => a = b
  | .real a, .real b => a = b
  | .string a, .string b => a.length = b.length ∧ a = b
  | _, _ => false

/-- `string_hash` from object.c: the same universal hash as the keyword
recognizer, but with the table size as the modulus. -/
def string_hash (s : String) (table_size : Nat) : Nat :=
  (s.toList.foldl
    (fun (p : Nat × Nat) c =>
      ((p.2 * p.1 + c.toNat) % table_size, p.2 * 27183 % (table_size - 1)))
    (0, 31415)).1

/-- The truncation toward zero used by a C cast of a floating value to
`int`. -/
def trunc_q (q : ℚ) : Int :=
  if 0 ≤ q then ⌊q⌋ else -⌊-q⌋

/-- The Real case of `object_hash`:
`(int)(.616161 * (float)r->value) % table_size`.  Float rounding is not
reproduced (no theorem hashes a Real key) and a negative C remainder,
which the C code would use as an out-of-bounds bucket index, is clamped
by `Int.toNat`. -/
def real_hash (r : ℚ) (table_size : Nat) : Nat :=
  ((trunc_q (616161 / 1000000 * r)).tmod (table_size : Int)).toNat

/-- `object_hash` from object.c.  The Integer case converts the `long`
value to `unsigned int` (reduction mod `2^32`) and multiplies in unsigned
arithmetic. -/
def object_hash (o : Obj) (table_size : Nat) : Nat :=
  match o with
  | .boolean b => string_hash (if b then "true" else "false") table_size
  | .nil => string_hash "nil" table_size
  | .integer i => 16161 * (i % (2 ^ 32 : Int)).toNat % 2 ^ 32 % table_size
  | .real r => real_hash r table_size
  | .string s => string_hash s table_size

/-- Stand-in for the C library's `%g` formatting of a double in
`print_object`.  Shortest-round-trip float formatting is not modelled; no
theorem below evaluates this function, it only keeps `print_object`
total. -/
def real_g (r : ℚ) : String :=
  toString r

/-- `print_object` from object.c: what one `print_object(o)` call writes
to stdout.  Note the Real and String cases: `%g` formatting, and a string
printed inside double quotes. -/
def print_object : Obj → String
  | .boolean b => if b then "true" else "false"
  | .nil => "nil"
  | .integer i => toString i
  | .real r => real_g r
  | .string s => "\"" ++ s ++ "\""

/-- The spec's §6 value rendering, written from the spec's words for
comparison with `print_object`: "Booleans as `true`/`false`; Nil as
`nil`; Int as decimal; Real as shortest-round-trip (`%g`-style); String
as the raw characters (no quotes in user output)".  The Real case shares
`real_g` with the code (both sides are `%g`; the difference under test is
the quoting and the prefix, not float formatting). -/
def spec_render : Obj → String
  | .boolean b => if b then "true" else "false"
  | .nil => "nil"
  | .integer i => toString i
  | .real r => real_g r
  | .string s => s

/-- The spec's expected `PRINT` output for one value: its rendering
followed by a newline and nothing else. -/
def spec_print_output (o : Obj) : String :=
  spec_render o ++ "\n"

/-! ## Symbol table (table.c)

An `Entry` chain becomes a list of key/value pairs; the `entries` bucket
array becomes a list of chains (`[]` models a `NULL` `entries` pointer,
which `table_init` leaves behind and `table_search` checks for).  The
`parent` pointer for nested scopes is kept as an optional nested table. -/

structure TEntry where
  key : Obj
  value : Obj
  deriving DecidableEq

inductive CTable where
  | mk (count : Nat) (capacity : Nat) (buckets : List (List TEntry)) (parent : Option CTable)

def CTable.count : CTable → Nat
  | .mk c _ _ _ => c

def CTable.capacity : CTable → Nat
  | .mk _ c _ _ => c

def CTable.buckets : CTable → List (List TEntry)
  | .mk _ _ b _ => b

def CTable.parent : CTable → Option CTable
  | .mk _ _ _ p => p

/-- `GROW_CAPACITY` from memory.h. -/
def grow_capacity (c : Nat) : Nat :=
  if c < 8 then 8 else c * 2

/-- `table_init` from table.c. -/
def table_init : CTable :=
  .mk 0 0 [] none

/-- `entries[i]`: reading a bucket head pointer. -/
def bucket_get (bs : List (List TEntry)) (i : Nat) : List TEntry :=
  bs.getD i []

/-- `table_find_entry` from table.c: hash the key with the current
capacity and walk that bucket's chain with `objects_equal`. -/
def table_find_entry (capacity : Nat) (buckets : List (List TEntry)) (key : Obj) :
    Option TEntry :=
  (bucket_get buckets (object_hash key capacity)).find? (fun e => objects_equal e.key key)

/-- One node-insertion step of `table_resize`'s rehash loop: hash the
node, then either start the new bucket with it, or splice it in as the
new head with `e->next = entries[hash]->next` — which drops the old head
from the chain. -/
def resize_insert (cap : Nat) (bs : List (List TEntry)) (e : TEntry) : List (List TEntry) :=
  let h := object_hash e.key cap
  match bucket_get bs h with
  | [] => bs.set h [e]
  | _ :: tl => bs.set h (e :: tl)

/-- `table_resize` from table.c.  The C loop rethreads the existing entry
nodes into a fresh bucket array by pointer surgery while still traversing
those same `next` pointers, so on a non-empty table the traversal follows
the freshly spliced chains; the model reproduces the per-node insertion
steps (including the dropped-head splice and the count that ends up equal
to the old bucket count rather than the entry count) without the pointer
aliasing.  In this development resize is only ever evaluated on a table of
capacity 0, where the rehash loop body never runs. -/
def table_resize : CTable → CTable
  | .mk _count capacity buckets parent =>
    let cap2 := grow_capacity capacity
    let fresh : List (List TEntry) := List.replicate cap2 []
    let bs2 := buckets.foldl (fun acc chain => chain.foldl (resize_insert cap2) acc) fresh
    .mk capacity cap2 bs2 parent

/-- The body of `table_insert` after the load-factor check: return
unchanged if `table_find_entry` finds the key — the stored value is NOT
updated — else prepend a new entry to its bucket, splicing out the old
bucket head if there is one (`new_entry->next = entries[hash]->next`). -/
def table_insert_post (t : CTable) (key value : Obj) : CTable :=
  match table_find_entry t.capacity t.buckets key with
  | some _ => .mk t.count t.capacity t.buckets t.parent
  | none =>
    let h := object_hash key t.capacity
    let bs2 :=
      match bucket_get t.buckets h with
      | [] => t.buckets.set h [⟨key, value⟩]
      | _ :: tl => t.buckets.set h (⟨key, value⟩ :: tl)
    .mk (t.count + 1) t.capacity bs2 t.parent

/-- `table_insert` from table.c: grow past the 0.75 load factor (the C
comparison `count + 1 > capacity * 0.75` is exact on these integers),
then insert via `table_insert_post`. -/
def table_insert (t : CTable) (key value : Obj) : CTable :=
  table_insert_post (if 4 * (t.count + 1) > 3 * t.capacity then table_resize t else t) key value

/-- `table_search` from table.c: a `NULL` entries array or a miss falls
back to the parent scope. -/
def table_search : CTable → Obj → Option Obj
  | .mk _ capacity buckets parent, key =>
    if buckets = [] then
      match parent with
      | some p => table_search p key
      | none => none
    else
      match table_find_entry capacity buckets key with
      | some e => some e.value
      | none =>
        match parent with
        | some p => table_search p key
        | none => none

/-! ## Opcodes (chunk.h)

The first nineteen values follow the `OpCode` enumeration in
include/chunk.h.  Modelled from the spec: `OP_GET_LOCAL`, `OP_SET_LOCAL`,
`OP_JUMP`, `OP_JUMP_IF_FALSE` and `OP_LOOP` are used by vm.c and
compiler.c but belong to a chunk.h revision that is not under src/; they
are given fresh distinct byte values (spec §4.7 fixes their operands and
meaning, and no behavior depends on the numeric choice). -/

def OP_CONSTANT : Nat := 0
def OP_POP : Nat := 1
def OP_NIL : Nat := 2
def OP_GET_GLOBAL : Nat := 3
def OP_DEFINE_GLOBAL : Nat := 4
def OP_SET_GLOBAL : Nat := 5
def OP_EQUAL : Nat := 6
def OP_GREATER : Nat := 7
def OP_LESS : Nat := 8
def OP_ADD : Nat := 9
def OP_SUBTRACT : Nat := 10
def OP_MULTIPLY : Nat := 11
def OP_DIVIDE : Nat := 12
def OP_MODULUS : Nat := 13
def OP_POWER : Nat := 14
def OP_NOT : Nat := 15
def OP_NEGATE : Nat := 16
def OP_PRINT : Nat := 17
def OP_RETURN : Nat := 18
def OP_GET_LOCAL : Nat := 19
def OP_SET_LOCAL : Nat := 20
def OP_JUMP : Nat := 21
def OP_JUMP_IF_FALSE : Nat := 22
def OP_LOOP : Nat := 23

/-! ## Virtual machine (vm.c)

The VM state carries the borrowed chunk, the instruction pointer as a
byte offset (`vm.ip - vm.chunk->code`), the operand stack as a list whose
head is the top of stack, the globals table, and what has been written to
stdout and stderr.  The intern table only canonicalizes string object
identity, never a value, so it is not part of the state. -/

structure Chunk where
  code : List Nat
  lines : List Int
  constants : List Obj
  deriving DecidableEq

structure VMState where
  chunk : Chunk
  ip : Nat
  stack : List Obj
  globals : CTable
  output : String
  errout : String

inductive InterpretResult where
  | iOk
  | iCompileError
  | iRuntimeError
  deriving DecidableEq

inductive StepOut where
  | next (s : VMState)
  | halt (r : InterpretResult) (s : VMState)

/-- The state a step ends in, whether it continued or halted. -/
def stepout_state : StepOut → VMState
  | .next s => s
  | .halt _ s => s

/-- Did the step halt the run loop? -/
def stepout_halts : StepOut → Bool
  | .next _ => false
  | .halt _ _ => true

/-- The interpret result a halting step returns. -/
def stepout_result : StepOut → Option InterpretResult
  | .next _ => none
  | .halt r _ => some r

/-- `peek(distance)` from vm.c (reading below the stack bottom is
undefined in C; the model returns Nil there). -/
def stack_peek (stack : List Obj) (distance : Nat) : Obj :=
  stack.getD distance Obj.nil

/-- `is_falsey` from vm.c: Nil and false are falsey, all else truthy. -/
def is_falsey : Obj → Bool
  | .nil => true
  | .boolean b => !b
  | _ => false

/-- `IS_STRING`. -/
def is_string_obj : Obj → Bool
  | .string _ => true
  | _ => false

/-- `IS_INTEGER`. -/
def is_integer_obj : Obj → Bool
  | .integer _ => true
  | _ => false

/-- `IS_REAL(o) && AS_REAL(o)->value == 0`, the Real half of the
divide-by-zero test. -/
def real_is_zero : Obj → Bool
  | .real r => r = 0
  | _ => false

/-- `AS_CSTRING`: the unchecked C cast to a string object; flows below
apply it only to values that are strings. -/
def as_string_chars : Obj → String
  | .string s => s
  | _ => ""

/-- Models `(long)pow((double)a, (double)b)` in `do_power`'s
integer/integer case: exact integer exponentiation for nonnegative
exponents, truncated-toward-zero reciprocal power for negative ones.
This agrees with the C double computation whenever that computation is
exact, in particular at every input a theorem below evaluates. -/
def pow_long (a b : Int) : Int :=
  if 0 ≤ b then a ^ b.toNat else Int.tdiv 1 (a ^ (-b).toNat)

/-- Stand-in for C `pow` on doubles in `do_power`'s Real cases: exact for
integral exponents; fractional exponents are not modelled (no theorem
evaluates them). -/
def q_pow (a b : ℚ) : ℚ :=
  if b.den = 1 then (if 0 ≤ b.num then a ^ b.num.toNat else (a ^ (-b.num).toNat)⁻¹) else 0

/-- `do_greater` from vm.c: the four-way integer/real cascade.  The
argument order is the C pop order reversed: `a` is the deeper operand,
`b` the top.  `none` models the fall-through case in which the C function
pops two values and pushes nothing (unreachable behind the numeric
validation). -/
def do_greater : Obj → Obj → Option Obj
  | .integer a, .integer b => some (.boolean (decide (a > b)))
  | .real a, .real b => some (.boolean (decide (a > b)))
  | .real a, .integer b => some (.boolean (decide (a > (b : ℚ))))
  | .integer a, .real b => some (.boolean (decide ((a : ℚ) > b)))
  | _, _ => none

/-- `do_less` from vm.c. -/
def do_less : Obj → Obj → Option Obj
  | .integer a, .integer b => some (.boolean (decide (a < b)))
  | .real a, .real b => some (.boolean (decide (a < b)))
  | .real a, .integer b => some (.boolean (decide (a < (b : ℚ))))
  | .integer a, .real b => some (.boolean (decide ((a : ℚ) < b)))
  | _, _ => none

/-- `do_addition` from vm.c: (Int, Int) stays Int, any Real promotes. -/
def do_addition : Obj → Obj → Option Obj
  | .integer a, .integer b => some (.integer (a + b))
  | .real a, .real b => some (.real (a + b))
  | .real a, .integer b => some (.real (a + (b : ℚ)))
  | .integer a, .real b => some (.real ((a : ℚ) + b))
  | _, _ => none

/-- `do_subtraction` from vm.c. -/
def do_subtraction : Obj → Obj → Option Obj
  | .integer a, .integer b => some (.integer (a - b))
  | .real a, .real b => some (.real (a - b))
  | .real a, .integer b => some (.real (a - (b : ℚ)))
  | .integer a, .real b => some (.real ((a : ℚ) - b))
  | _, _ => none

/-- `do_multiplication` from vm.c. -/
def do_multiplication : Obj → Obj → Option Obj
  | .integer a, .integer b => some (.integer (a * b))
  | .real a, .real b => some (.real (a * b))
  | .real a, .integer b => some (.real (a * (b : ℚ)))
  | .integer a, .real b => some (.real ((a : ℚ) * b))
  | _, _ => none

/-- `do_division` from vm.c: C `long` division truncates toward zero
(`Int.tdiv`); the Real cases are exact field division (C double division
rounds, but no theorem below evaluates an inexact quotient). -/
def do_division : Obj → Obj → Option Obj
  | .integer a, .integer b => some (.integer (Int.tdiv a b))
  | .real a, .real b => some (.real (a / b))
  | .real a, .integer b => some (.real (a / (b : ℚ)))
  | .integer a, .real b => some (.real ((a : ℚ) / b))
  | _, _ => none

/-- `do_modulo` from vm.c: C `%` on `long` truncates toward zero
(`Int.tmod`); the operands were validated as integers. -/
def do_modulo : Obj → Obj → Option Obj
  | .integer a, .integer b => some (.integer (Int.tmod a b))
  | _, _ => none

/-- `do_power` from vm.c: note the integer/integer case builds an
Integer object (`create_integer(pow(a, b))`), not a Real. -/
def do_power : Obj → Obj → Option Obj
  | .integer a, .integer b => some (.integer (pow_long a b))
  | .real a, .real b => some (.real (q_pow a b))
  | .real a, .integer b => some (.real (q_pow a (b : ℚ)))
  | .integer a, .real b => some (.real (q_pow (a : ℚ) b))
  | _, _ => none

/-- `do_negate` from vm.c (`none`: the default case pops without
pushing, unreachable behind the numeric validation). -/
def do_negate : Obj → Option Obj
  | .integer a => some (.integer (-a))
  | .real a => some (.real (-a))
  | _ => none

/-- `runtime_error` from vm.c: write the message, then
`[line N] in script` where `N = chunk.lines[vm.ip - vm.chunk->code]` at
the moment of the call, then reset the stack.  (Note: the index used is
the current `ip`, with no `- 1`.) -/
def runtime_error (s : VMState) (message : String) : VMState :=
  { s with
    errout := s.errout ++ message ++ "\n" ++
      "[line " ++ toString (s.chunk.lines.getD s.ip 0) ++ "] in script" ++ "\n",
    stack := [] }

/-- `code[i]` (an out-of-range fetch is undefined in C; the model reads
byte 0). -/
def code_at (s : VMState) (i : Nat) : Nat :=
  s.chunk.code.getD i 0

/-- `READ_CONSTANT()`: the constant indexed by the operand byte at `ip`,
also advancing `ip`. -/
def read_constant (s : VMState) : Obj × VMState :=
  (s.chunk.constants.getD (code_at s s.ip) Obj.nil, { s with ip := s.ip + 1 })

/-- Push the value a binary `do_` helper produces over the two popped
operands (`none`: the helper's fall-through pops both and pushes
nothing). -/
def push_binary (s : VMState) (f : Obj → Obj → Option Obj) : StepOut :=
  match f (stack_peek s.stack 1) (stack_peek s.stack 0) with
  | some r => .next { s with stack := r :: s.stack.drop 2 }
  | none => .next { s with stack := s.stack.drop 2 }

/-- One iteration of the `run()` dispatch loop in vm.c: fetch the byte at
`ip`, advance, and execute.  A byte that matches no opcode falls through
the C switch and the loop continues, which `.next` with only the `ip`
advance reproduces. -/
def step (s0 : VMState) : StepOut :=
  let instr := code_at s0 s0.ip
  let s : VMState := { s0 with ip := s0.ip + 1 }
  if instr = OP_CONSTANT then
    let (c, s) := read_constant s
    .next { s with stack := c :: s.stack }
  else if instr = OP_POP then
    .next { s with stack := s.stack.tail }
  else if instr = OP_GET_LOCAL then
    let slot := code_at s s.ip
    let s : VMState := { s with ip := s.ip + 1 }
    .next { s with stack := s.stack.getD (s.stack.length - 1 - slot) Obj.nil :: s.stack }
  else if instr = OP_SET_LOCAL then
    let slot := code_at s s.ip
    let s : VMState := { s with ip := s.ip + 1 }
    .next { s with stack := s.stack.set (s.stack.length - 1 - slot) (stack_peek s.stack 0) }
  else if instr = OP_GET_GLOBAL then
    let (c, s) := read_constant s
    let name := as_string_chars c
    match table_search s.globals (.string name) with
    | none => .halt .iRuntimeError (runtime_error s ("Undefined variable '" ++ name ++ "'."))
    | some v => .next { s with stack := v :: s.stack }
  else if instr = OP_DEFINE_GLOBAL then
    let (c, s) := read_constant s
    let name := as_string_chars c
    .next { s with
      globals := table_insert s.globals (.string name) (stack_peek s.stack 0),
      stack := s.stack.tail }
  else if instr = OP_SET_GLOBAL then
    let (c, s) := read_constant s
    let name := as_string_chars c
    .next { s with globals := table_insert s.globals (.string name) (stack_peek s.stack 0) }
  else if instr = OP_EQUAL then
    .next { s with
      stack := .boolean (objects_equal (stack_peek s.stack 1) (stack_peek s.stack 0)) ::
        s.stack.drop 2 }
  else if instr = OP_GREATER then
    if !(is_number (stack_peek s.stack 0) && is_number (stack_peek s.stack 1)) then
      .halt .iRuntimeError (runtime_error s "Operands must be numeric.")
    else push_binary s do_greater
  else if instr = OP_LESS then
    if !(is_number (stack_peek s.stack 0) && is_number (stack_peek s.stack 1)) then
      .halt .iRuntimeError (runtime_error s "Operands must be numberic.")
    else push_binary s do_less
  else if instr = OP_ADD then
    if is_string_obj (stack_peek s.stack 0) && is_string_obj (stack_peek s.stack 1) then
      .next { s with
        stack := .string (as_string_chars (stack_peek s.stack 1) ++
          as_string_chars (stack_peek s.stack 0)) :: s.stack.drop 2 }
    else if is_number (stack_peek s.stack 0) && is_number (stack_peek s.stack 1) then
      push_binary s do_addition
    else .halt .iRuntimeError (runtime_error s "Operands must be two numbers or two strings.")
  else if instr = OP_SUBTRACT then
    if !(is_number (stack_peek s.stack 0) && is_number (stack_peek s.stack 1)) then
      .halt .iRuntimeError (runtime_error s "Operands must be numeric.")
    else push_binary s do_subtraction
  else if instr = OP_MULTIPLY then
    if !(is_number (stack_peek s.stack 0) && is_number (stack_peek s.stack 1)) then
      .halt .iRuntimeError (runtime_error s "Operands must be numeric.")
    else push_binary s do_multiplication
  else if instr = OP_DIVIDE then
    if !(is_number (stack_peek s.stack 0) && is_number (stack_peek s.stack 1)) then
      .halt .iRuntimeError (runtime_error s "Operands must be numeric.")
    else if stack_peek s.stack 0 = .integer 0 then
      .halt .iRuntimeError (runtime_error s "Attempt to divide by zero.")
    else if real_is_zero (stack_peek s.stack 0) then
      .halt .iRuntimeError (runtime_error s "Attempt to divide by zero.")
    else push_binary s do_division
  else if instr = OP_MODULUS then
    if !(is_integer_obj (stack_peek s.stack 0) && is_integer_obj (stack_peek s.stack 1)) then
      .halt .iRuntimeError
        (runtime_error s "Modulo operation can only be performed on integer values.")
    else push_binary s do_modulo
  else if instr = OP_POWER then
    if !(is_number (stack_peek s.stack 0) && is_number (stack_peek s.stack 1)) then
      .halt .iRuntimeError (runtime_error s "Operands must be numeric.")
    else push_binary s do_power
  else if instr = OP_NOT then
    .next { s with stack := .boolean (is_falsey (stack_peek s.stack 0)) :: s.stack.tail }
  else if instr = OP_NEGATE then
    if !(is_number (stack_peek s.stack 0)) then
      .halt .iRuntimeError (runtime_error s "Operand must be numeric.")
    else
      match do_negate (stack_peek s.stack 0) with
      | some r => .next { s with stack := r :: s.stack.tail }
      | none => .next { s with stack := s.stack.tail }
  else if instr = OP_PRINT then
    .next { s with
      output := s.output ++ "-> " ++ print_object (stack_peek s.stack 0) ++ "\n",
      stack := s.stack.tail }
  else if instr = OP_JUMP then
    let offset := 256 * code_at s s.ip + code_at s (s.ip + 1)
    .next { s with ip := s.ip + 2 + offset }
  else if instr = OP_JUMP_IF_FALSE then
    let offset := 256 * code_at s s.ip + code_at s (s.ip + 1)
    let s : VMState := { s with ip := s.ip + 2 }
    if is_falsey (stack_peek s.stack 0) then .next { s with ip := s.ip + offset }
    else .next s
  else if instr = OP_LOOP then
    let offset := 256 * code_at s s.ip + code_at s (s.ip + 1)
    .next { s with ip := s.ip + 2 - offset }
  else if instr = OP_RETURN then
    .halt .iOk s
  else .next s

/-- The `run()` loop: iterate `step` until it halts (or the fuel runs
out, which the C loop has no analogue of: `none` just bounds the model's
view of an execution). -/
def vm_run : Nat → VMState → Option (InterpretResult × VMState)
  | 0, _ => none
  | fuel + 1, s =>
    match step s with
    | .next s2 => vm_run fuel s2
    | .halt r s2 => some (r, s2)

/-! ## Compiler (compiler.c)

The compiler's global `Parser`, `Compiler` and `compiling_chunk` become
one state record.  The token stream that the C compiler pulls from the
scanner one token at a time is modelled as a list the state consumes
(`tokens`); an exhausted list yields `TOKEN_EOF`, matching the scanner's
EOF-stability.  The mutually recursive parse functions take explicit
fuel; `none` means the fuel ran out (or the C code called a `NULL`
function pointer, which crashes), and every theorem about them is
conditioned on a `some` result. -/

structure LocalVar where
  name : Token
  depth : Int
  deriving DecidableEq

/-- Modelled from the spec: `LOCALS_MAX = 256` is used by compiler.c but
defined in a common.h revision that is not under src/; spec §3 fixes the
value 256. -/
def LOCALS_MAX : Nat := 256

structure CState where
  tokens : List Token
  current : Token
  previous : Token
  had_error : Bool
  panic_mode : Bool
  code : List Nat
  lines : List Int
  constants : List Obj
  locals : List LocalVar
  scope_depth : Int
  errs : List String
  deriving DecidableEq

/-- The token the scanner keeps returning once the stream is exhausted. -/
def eof_token : Token :=
  ⟨.tEof, none, 0, 0⟩

/-- `error` from compiler.c: suppressed while in panic mode, otherwise
sets `panic_mode` and `had_error` and reports via `parse_error` (the
model records the message text). -/
def errorC (msg : String) (st : CState) : CState :=
  if st.panic_mode then st
  else { st with panic_mode := true, had_error := true, errs := st.errs ++ [msg] }

theorem errorC_tokens (msg : String) (st : CState) : (errorC msg st).tokens = st.tokens := by
  unfold errorC
  split <;> rfl

/-- The `for(;;)` loop inside `advance` in compiler.c: pull tokens,
reporting and skipping error tokens, stopping at the first ordinary token
or at EOF.  The loop re-reads the stream the state carries; `errorC`
leaves `tokens` untouched, so recursing structurally on the remaining
list is the same iteration. -/
def advance_loop_aux : List Token → CState → CState
  | [], st => { st with current := eof_token }
  | t :: rest, st =>
    if t.type = .tEof then { st with current := t, tokens := rest }
    else if t.type = .tError then
      advance_loop_aux rest (errorC (t.lexeme.getD "") { st with current := t, tokens := rest })
    else { st with current := t, tokens := rest }

def advance_loop (st : CState) : CState :=
  advance_loop_aux st.tokens st

/-- `advance` from compiler.c. -/
def advanceC (st : CState) : CState :=
  advance_loop { st with previous := st.current }

/-- `check` from compiler.c. -/
def checkC (type : TokenType) (st : CState) : Bool :=
  st.current.type = type

/-- `match` from compiler.c (named `matchC`; `match` is reserved). -/
def matchC (type : TokenType) (st : CState) : Bool × CState :=
  if checkC type st then (true, advanceC st) else (false, st)

/-- `consume` from compiler.c. -/
def consume (type : TokenType) (msg : String) (st : CState) : CState :=
  if st.current.type = type then advanceC st else errorC msg st

/-- `emit_byte` from compiler.c → `write_chunk`: append the byte and the
previous token's line in lockstep. -/
def emit_byte (b : Nat) (st : CState) : CState :=
  { st with code := st.code ++ [b], lines := st.lines ++ [st.previous.line] }

/-- `emit_bytes` from compiler.c. -/
def emit_bytes (b1 b2 : Nat) (st : CState) : CState :=
  emit_byte b2 (emit_byte b1 st)

/-- `emit_return` from compiler.c. -/
def emit_return (st : CState) : CState :=
  emit_byte OP_RETURN st

/-- `emit_jump` from compiler.c: the opcode plus a two-byte `0xff`
placeholder; returns the offset of the placeholder (`count - 2`). -/
def emit_jump (instruction : Nat) (st : CState) : Nat × CState :=
  let st := emit_byte 0xff (emit_byte 0xff (emit_byte instruction st))
  (st.code.length - 2, st)

/-- `patch_jump` from compiler.c: write `count - offset - 2` big-endian
into the placeholder (reporting an error when it exceeds 16 bits, but
writing the bytes regardless, as the C code does). -/
def patch_jump (offset : Nat) (st : CState) : CState :=
  let jump := st.code.length - offset - 2
  let st := if jump > 65535 then errorC "Too much code to jump over." st else st
  { st with code := (st.code.set offset (jump / 256 % 256)).set (offset + 1) (jump % 256) }

/-- `emit_loop` from compiler.c. -/
def emit_loop (loop_start : Nat) (st : CState) : CState :=
  let st := emit_byte OP_LOOP st
  let offset := st.code.length - loop_start + 2
  let st := if offset > 65535 then errorC "Loop body too large" st else st
  emit_byte (offset % 256) (emit_byte (offset / 256 % 256) st)

/-- `add_constant` from chunk.c: append to the pool, return the new
index. -/
def add_constant (o : Obj) (st : CState) : Nat × CState :=
  (st.constants.length, { st with constants := st.constants ++ [o] })

/-- `make_constant` from compiler.c: a new index above `UINT8_MAX` is the
"Too many constants in one chunk." compile error, and `0` is returned in
its place (the pool keeps the appended constant either way). -/
def make_constant (o : Obj) (st : CState) : Nat × CState :=
  let (index, st) := add_constant o st
  if index > 255 then (0, errorC "Too many constants in one chunk." st)
  else (index, st)

/-- `emit_constant` from compiler.c. -/
def emit_constant (o : Obj) (st : CState) : CState :=
  let (b, st) := make_constant o st
  emit_bytes OP_CONSTANT b st

/-- `identifiers_equal` from compiler.c: same kind, same lexeme text. -/
def identifiers_equal (a b : Token) : Bool :=
  a.type = b.type && a.lexeme == b.lexeme

/-- `identifier_constant` from compiler.c. -/
def identifier_constant (tok : Token) (st : CState) : Nat × CState :=
  make_constant (.string (tok.lexeme.getD "")) st

/-- A default `Local` for out-of-range reads (the C array holds garbage
there; no guarded flow reads it). -/
def no_local : LocalVar :=
  ⟨eof_token, 0⟩

/-- `resolve_local` from compiler.c: scan `locals` from the top down for
the first name match; reading a local whose depth is still `-1` (its own
initializer) is a compile error.  Returns the C index or `-1`. -/
def resolve_local (name : Token) (in_function : Bool) (st : CState) : Int × CState :=
  match (List.range st.locals.length).reverse.find?
      (fun i => identifiers_equal name (st.locals.getD i no_local).name) with
  | some i =>
    let st :=
      if !in_function && (st.locals.getD i no_local).depth == -1 then
        errorC "Connot read local variable in its own initializer." st
      else st
    ((i : Int), st)
  | none => (-1, st)

/-- `add_local` from compiler.c. -/
def add_local (name : Token) (st : CState) : CState :=
  if st.locals.length = LOCALS_MAX then
    errorC "Too many local variables in function." st
  else { st with locals := st.locals ++ [⟨name, -1⟩] }

/-- The duplicate-declaration scan inside `declare_variable`: walk the
locals from the top down, stopping at an initialized local of an
enclosing scope, reporting every name clash seen on the way. -/
def declare_check (name : Token) (st : CState) : List Nat → CState
  | [] => st
  | i :: rest =>
    let l := st.locals.getD i no_local
    if l.depth ≠ -1 ∧ l.depth < st.scope_depth then st
    else
      let st :=
        if identifiers_equal name l.name then
          errorC "Variable with this name already declared in this scope." st
        else st
      declare_check name st rest

/-- `declare_variable` from compiler.c: a no-op at global scope. -/
def declare_variable (st : CState) : CState :=
  if st.scope_depth = 0 then st
  else
    let name := st.previous
    add_local name (declare_check name st (List.range st.locals.length).reverse)

/-- `begin_scope` from compiler.c. -/
def begin_scope (st : CState) : CState :=
  { st with scope_depth := st.scope_depth + 1 }

theorem emit_byte_locals (b : Nat) (st : CState) : (emit_byte b st).locals = st.locals := rfl

/-- The pop loop of `end_scope`: one `OP_POP` per local deeper than the
(already decremented) scope depth. -/
def end_scope_pops (st : CState) : CState :=
  match h : st.locals.getLast? with
  | some l =>
    if l.depth > st.scope_depth then
      end_scope_pops { emit_byte OP_POP st with locals := st.locals.dropLast }
    else st
  | none => st
termination_by st.locals.length
decreasing_by
  have hne : st.locals ≠ [] := by
    intro hnil
    rw [hnil] at h
    simp at h
  simp only [emit_byte_locals, List.length_dropLast]
  have := List.length_pos.mpr hne
  omega

/-- `end_scope` from compiler.c. -/
def end_scope (st : CState) : CState :=
  end_scope_pops { st with scope_depth := st.scope_depth - 1 }

/-- `mark_initialized`: the `define_variable` local case
(`locals[local_count - 1].depth = scope_depth`). -/
def mark_initialized (st : CState) : CState :=
  { st with
    locals := st.locals.set (st.locals.length - 1)
      { st.locals.getD (st.locals.length - 1) no_local with depth := st.scope_depth } }

/-! The Pratt rule table.  In C, `rules` is an array indexed by
`TokenType` holding `{prefix_fn, infix_fn, precedence}` rows of function
pointers; here the function pointers become enumerated actions, and the
catch-all arm covers the remaining keyword rows, which are all
`{NULL, NULL, PREC_NONE}` (`tImport` is not a row of the C table at
all — rule lookup never sees it because the table's token.h revision has
no such kind). -/

def PREC_NONE : Nat := 0
def PREC_ASSIGNMENT : Nat := 1
def PREC_OR : Nat := 2
def PREC_AND : Nat := 3
def PREC_EQUALITY : Nat := 4
def PREC_COMPARISON : Nat := 5
def PREC_TERM : Nat := 6
def PREC_FACTOR : Nat := 7
def PREC_POWER : Nat := 8
def PREC_UNARY : Nat := 9
def PREC_CALL : Nat := 10
def PREC_PRIMARY : Nat := 11

inductive PrefixFn where
  | pGrouping
  | pUnary
  | pVariable
  | pString
  | pInteger
  | pReal
  | pLiteral
  deriving DecidableEq

inductive InfixFn where
  | iBinary
  | iAnd
  | iOr
  deriving DecidableEq

structure ParseRule where
  pfx : Option PrefixFn
  ifx : Option InfixFn
  prec : Nat
  deriving DecidableEq

/-- `get_rule` / the `rules` table from compiler.c. -/
def get_rule : TokenType → ParseRule
  | .tLeftParen => ⟨some .pGrouping, none, PREC_CALL⟩
  | .tPercent => ⟨none, some .iBinary, PREC_FACTOR⟩
  | .tCaret => ⟨none, some .iBinary, PREC_POWER⟩
  | .tDot => ⟨none, none, PREC_CALL⟩
  | .tMinus => ⟨some .pUnary, some .iBinary, PREC_TERM⟩
  | .tPlus => ⟨none, some .iBinary, PREC_TERM⟩
  | .tSlash => ⟨none, some .iBinary, PREC_FACTOR⟩
  | .tStar => ⟨none, some .iBinary, PREC_FACTOR⟩
  | .tAnd => ⟨none, some .iAnd, PREC_AND⟩
  | .tOr => ⟨none, some .iOr, PREC_OR⟩
  | .tBang => ⟨some .pUnary, none, PREC_NONE⟩
  | .tBangEqual => ⟨none, some .iBinary, PREC_EQUALITY⟩
  | .tEqualEqual => ⟨none, some .iBinary, PREC_EQUALITY⟩
  | .tGreater => ⟨none, some .iBinary, PREC_COMPARISON⟩
  | .tGreaterEqual => ⟨none, some .iBinary, PREC_COMPARISON⟩
  | .tLess => ⟨none, some .iBinary, PREC_COMPARISON⟩
  | .tLessEqual => ⟨none, some .iBinary, PREC_COMPARISON⟩
  | .tIdentifier => ⟨some .pVariable, none, PREC_NONE⟩
  | .tString => ⟨some .pString, none, PREC_NONE⟩
  | .tInteger => ⟨some .pInteger, none, PREC_NONE⟩
  | .tReal => ⟨some .pReal, none, PREC_NONE⟩
  | .tFalse => ⟨some .pLiteral, none, PREC_NONE⟩
  | .tNil => ⟨some .pLiteral, none, PREC_NONE⟩
  | .tTrue => ⟨some .pLiteral, none, PREC_NONE⟩
  | _ => ⟨none, none, PREC_NONE⟩

/-- `strtol(lexeme, NULL, 10)` on the digit-only lexemes that the scanner
produces for `TOKEN_INTEGER`. -/
def strtol10 (s : String) : Int :=
  (s.toList.takeWhile (fun c => is_digit c)).foldl
    (fun acc c => 10 * acc + ((c.toNat : Int) - 48)) 0

/-- `strtod` on the scanner's `TOKEN_REAL` lexemes (`digits.digits`),
read exactly into `ℚ` (C rounds to the nearest double; no theorem below
depends on a rounded value). -/
def strtod10 (s : String) : ℚ :=
  let ds := s.toList.takeWhile (fun c => is_digit c)
  let rest := s.toList.drop ds.length
  let fs :=
    match rest with
    | '.' :: r => r.takeWhile (fun c => is_digit c)
    | _ => []
  let dv : Int := ds.foldl (fun acc c => 10 * acc + ((c.toNat : Int) - 48)) 0
  let fv : Int := fs.foldl (fun acc c => 10 * acc + ((c.toNat : Int) - 48)) 0
  (dv : ℚ) + (fv : ℚ) / ((10 : ℚ) ^ fs.length)

/-- `synchronize`'s scan loop from compiler.c. -/
def sync_loop : Nat → CState → Option CState
  | 0, _ => none
  | fuel + 1, st =>
    if st.current.type ≠ .tEof then
      if st.previous.type = .tSemicolon then some st
      else if st.current.type = .tClass ∨ st.current.type = .tDef ∨ st.current.type = .tIf ∨
          st.current.type = .tWhile ∨ st.current.type = .tReturn then some st
      else sync_loop fuel (advanceC st)
    else some st

/-- `synchronize` from compiler.c: leave panic mode, then skip to a
statement boundary. -/
def synchronize (fuel : Nat) (st : CState) : Option CState :=
  sync_loop fuel { st with panic_mode := false }

mutual

/-- `parse_precedence` from compiler.c. -/
def parse_precedence : Nat → Nat → CState → Option CState
  | 0, _, _ => none
  | fuel + 1, precedence, st =>
    let st := advanceC st
    match (get_rule st.previous.type).pfx with
    | none => some (errorC "Expect expression." st)
    | some pf =>
      let can_assign := precedence ≤ PREC_ASSIGNMENT
      match run_prefix fuel pf can_assign st with
      | none => none
      | some st =>
        match infix_loop fuel precedence can_assign st with
        | none => none
        | some st =>
          if can_assign then
            let (m, st) := matchC .tEqual st
            if m then expression fuel (errorC "Invalid assignment target." st)
            else some st
          else some st

/-- The `while(precedence <= get_rule(current)->precedence)` loop of
`parse_precedence`.  A token whose rule has `PREC_CALL` but no infix
function (`(`, `.`) makes the C code call a `NULL` pointer; the model
returns `none` (stuck) there. -/
def infix_loop : Nat → Nat → Bool → CState → Option CState
  | 0, _, _, _ => none
  | fuel + 1, precedence, can_assign, st =>
    if precedence ≤ (get_rule st.current.type).prec then
      let st := advanceC st
      match (get_rule st.previous.type).ifx with
      | none => none
      | some inf =>
        match run_infix fuel inf st with
        | none => none
        | some st => infix_loop fuel precedence can_assign st
    else some st

/-- Dispatch on a prefix rule: `grouping`, `unary`, `variable`,
`string`, `integer`, `real`, `literal` from compiler.c. -/
def run_prefix : Nat → PrefixFn → Bool → CState → Option CState
  | 0, _, _, _ => none
  | fuel + 1, pf, can_assign, st =>
    match pf with
    | .pGrouping =>
      match expression fuel st with
      | none => none
      | some st => some (consume .tRightParen "Expect ')' after grouped expression." st)
    | .pUnary =>
      let type := st.previous.type
      match parse_precedence fuel PREC_UNARY st with
      | none => none
      | some st =>
        if type = .tBang then some (emit_byte OP_NOT st)
        else if type = .tMinus then some (emit_byte OP_NEGATE st)
        else some st
    | .pVariable => named_variable fuel st.previous can_assign st
    | .pString => some (emit_constant (.string (st.previous.lexeme.getD "")) st)
    | .pInteger => some (emit_constant (.integer (strtol10 (st.previous.lexeme.getD ""))) st)
    | .pReal => some (emit_constant (.real (strtod10 (st.previous.lexeme.getD ""))) st)
    | .pLiteral =>
      if st.previous.type = .tFalse then some (emit_constant (.boolean false) st)
      else if st.previous.type = .tNil then some (emit_constant .nil st)
      else if st.previous.type = .tTrue then some (emit_constant (.boolean true) st)
      else some st

/-- Dispatch on an infix rule: `binary`, `and_`, `or_` from
compiler.c. -/
def run_infix : Nat → InfixFn → CState → Option CState
  | 0, _, _ => none
  | fuel + 1, inf, st =>
    match inf with
    | .iBinary =>
      let type := st.previous.type
      match parse_precedence fuel ((get_rule type).prec + 1) st with
      | none => none
      | some st =>
        if type = .tBangEqual then some (emit_bytes OP_EQUAL OP_NOT st)
        else if type = .tEqualEqual then some (emit_byte OP_EQUAL st)
        else if type = .tGreater then some (emit_byte OP_GREATER st)
        else if type = .tGreaterEqual then some (emit_bytes OP_LESS OP_NOT st)
        else if type = .tLess then some (emit_byte OP_LESS st)
        else if type = .tLessEqual then some (emit_bytes OP_GREATER OP_NOT st)
        else if type = .tPlus then some (emit_byte OP_ADD st)
        else if type = .tMinus then some (emit_byte OP_SUBTRACT st)
        else if type = .tStar then some (emit_byte OP_MULTIPLY st)
        else if type = .tSlash then some (emit_byte OP_DIVIDE st)
        else if type = .tPercent then some (emit_byte OP_MODULUS st)
        else if type = .tCaret then some (emit_byte OP_POWER st)
        else some st
    | .iAnd =>
      let (end_jump, st) := emit_jump OP_JUMP_IF_FALSE st
      let st := emit_byte OP_POP st
      match parse_precedence fuel PREC_AND st with
      | none => none
      | some st => some (patch_jump end_jump st)
    | .iOr =>
      let (else_jump, st) := emit_jump OP_JUMP_IF_FALSE st
      let (end_jump, st) := emit_jump OP_JUMP st
      let st := patch_jump else_jump st
      let st := emit_byte OP_POP st
      match parse_precedence fuel PREC_OR st with
      | none => none
      | some st => some (patch_jump end_jump st)

/-- `expression` from compiler.c. -/
def expression : Nat → CState → Option CState
  | 0, _ => none
  | fuel + 1, st => parse_precedence fuel PREC_ASSIGNMENT st

/-- `named_variable` from compiler.c. -/
def named_variable : Nat → Token → Bool → CState → Option CState
  | 0, _, _, _ => none
  | fuel + 1, name, can_assign, st =>
    let (arg0, st) := resolve_local name false st
    let (ops, st) :=
      if arg0 = -1 then
        let (a, st) := identifier_constant name st
        ((OP_GET_GLOBAL, OP_SET_GLOBAL, a), st)
      else ((OP_GET_LOCAL, OP_SET_LOCAL, arg0.toNat), st)
    let (m, st) := if can_assign then matchC .tEqual st else (false, st)
    if m then
      match expression fuel st with
      | none => none
      | some st => some (emit_bytes ops.2.1 ops.2.2 st)
    else some (emit_bytes ops.1 ops.2.2 st)

/-- `statement` from compiler.c. -/
def statement : Nat → CState → Option CState
  | 0, _ => none
  | fuel + 1, st =>
    let (m, st) := matchC .tIf st
    if m then if_statement fuel st
    else
      let (m, st) := matchC .tPrint st
      if m then print_statement fuel st
      else
        let (m, st) := matchC .tWhile st
        if m then while_statement fuel st
        else
          let (m, st) := matchC .tLeftBrace st
          if m then
            match brace_block fuel (begin_scope st) with
            | none => none
            | some st => some (end_scope st)
          else
            let (m, st) := matchC .tDo st
            if m then
              match do_block fuel (begin_scope st) with
              | none => none
              | some st => some (end_scope st)
            else expression_statement fuel st

/-- `declaration` from compiler.c. -/
def declaration : Nat → CState → Option CState
  | 0, _ => none
  | fuel + 1, st =>
    let (m, st) := matchC .tVar st
    match (if m then var_declaration fuel st else statement fuel st) with
    | none => none
    | some st => if st.panic_mode then synchronize fuel st else some st

/-- `brace_block` from compiler.c. -/
def brace_block : Nat → CState → Option CState
  | 0, _ => none
  | fuel + 1, st =>
    if ¬ checkC .tRightBrace st = true ∧ ¬ checkC .tEof st = true then
      match declaration fuel st with
      | none => none
      | some st => brace_block fuel st
    else some (consume .tRightBrace "Expect '\x7d' after block." st)

/-- `do_block` from compiler.c. -/
def do_block : Nat → CState → Option CState
  | 0, _ => none
  | fuel + 1, st =>
    if ¬ checkC .tEnd st = true ∧ ¬ checkC .tEof st = true then
      match declaration fuel st with
      | none => none
      | some st => do_block fuel st
    else some (consume .tEnd "Expect 'end' after do block." st)

/-- `var_declaration` from compiler.c, with `parse_variable` and
`define_variable` inlined at their single call sites. -/
def var_declaration : Nat → CState → Option CState
  | 0, _ => none
  | fuel + 1, st =>
    let st := consume .tIdentifier "Expect variable name." st
    let (global, st) :=
      if st.scope_depth = 0 then identifier_constant st.previous st
      else (0, declare_variable st)
    let (m, st) := matchC .tEqual st
    match (if m then expression fuel st else some (emit_byte OP_NIL st)) with
    | none => none
    | some st =>
      let st := consume .tSemicolon "Expect ';' after variable declaration." st
      if st.scope_depth = 0 then some (emit_bytes OP_DEFINE_GLOBAL global st)
      else some (mark_initialized st)

/-- `expression_statement` from compiler.c. -/
def expression_statement : Nat → CState → Option CState
  | 0, _ => none
  | fuel + 1, st =>
    match expression fuel st with
    | none => none
    | some st => some (consume .tSemicolon "Expect ';' after expression." (emit_byte OP_POP st))

/-- `if_statement` from compiler.c. -/
def if_statement : Nat → CState → Option CState
  | 0, _ => none
  | fuel + 1, st =>
    let st := consume .tLeftParen "Expect '(' after 'if'." st
    match expression fuel st with
    | none => none
    | some st =>
      let st := consume .tRightParen "Expect ')' after condition." st
      let (else_jump, st) := emit_jump OP_JUMP_IF_FALSE st
      let st := emit_byte OP_POP st
      match statement fuel st with
      | none => none
      | some st =>
        let (end_jump, st) := emit_jump OP_JUMP st
        let st := patch_jump else_jump st
        let st := emit_byte OP_POP st
        let (m, st) := matchC .tElse st
        match (if m then statement fuel st else some st) with
        | none => none
        | some st => some (patch_jump end_jump st)

/-- `while_statement` from compiler.c. -/
def while_statement : Nat → CState → Option CState
  | 0, _ => none
  | fuel + 1, st =>
    let loop_start := st.code.length
    let st := consume .tLeftParen "Expect '(' after 'while'." st
    match expression fuel st with
    | none => none
    | some st =>
      let st := consume .tRightParen "Expect ')' after condition." st
      let (exit_jump, st) := emit_jump OP_JUMP_IF_FALSE st
      let st := emit_byte OP_POP st
      match statement fuel st with
      | none => none
      | some st =>
        let st := emit_loop loop_start st
        let st := patch_jump exit_jump st
        some (emit_byte OP_POP st)

/-- `print_statement` from compiler.c. -/
def print_statement : Nat → CState → Option CState
  | 0, _ => none
  | fuel + 1, st =>
    match expression fuel st with
    | none => none
    | some st => some (emit_byte OP_PRINT (consume .tSemicolon "Expect ';' after value." st))

end

/-- The initial compiler state for `compile(chunk)`: fresh parser flags,
empty chunk, no locals, global scope. -/
def init_cstate (tokens : List Token) : CState :=
  { tokens := tokens, current := eof_token, previous := eof_token,
    had_error := false, panic_mode := false, code := [], lines := [],
    constants := [], locals := [], scope_depth := 0, errs := [] }

/-- The `do { declaration(); } while(!check(TOKEN_EOF))` loop of
`compile`. -/
def decls_loop : Nat → CState → Option CState
  | 0, _ => none
  | fuel + 1, st =>
    match declaration fuel st with
    | none => none
    | some st => if checkC .tEof st then some st else decls_loop fuel st

/-- `compile` from compiler.c, driven by a pre-scanned token stream:
prime the parser, parse declarations to EOF, emit the final `OP_RETURN`,
and return `!had_error` along with the final state (whose `code`,
`lines` and `constants` are the compiled chunk). -/
def compile (fuel : Nat) (tokens : List Token) : Option (Bool × CState) :=
  let st := advanceC (init_cstate tokens)
  let (m, st) := matchC .tEof st
  match (if m then some st else decls_loop fuel st) with
  | none => none
  | some st => some (!(emit_return st).had_error, emit_return st)

/-! ## Supporting lemmas -/

theorem getD_replicate {α : Type} (n i : Nat) (a : α) : (List.replicate n a).getD i a = a := by
  rcases Nat.lt_or_ge i n with h | h
  · rw [List.getD_eq_getElem _ _ (by simpa using h)]
    simp
  · rw [List.getD_eq_default _ _ (by simpa using h)]

theorem getD_set_self {α : Type} (l : List α) (i : Nat) (x d : α) (h : i < l.length) :
    (l.set i x).getD i d = x := by
  rw [List.getD_eq_getElem _ _ (by simpa using h)]
  simp [List.getElem_set_self]

theorem objects_equal_refl (o : Obj) : objects_equal o o = true := by
  cases o <;> simp [objects_equal]

theorem hash_fold_lt (n : Nat) (hn : 0 < n) :
    ∀ (l : List Char) (p : Nat × Nat), p.1 < n →
      (l.foldl (fun (p : Nat × Nat) c =>
        ((p.2 * p.1 + c.toNat) % n, p.2 * 27183 % (n - 1))) p).1 < n := by
  intro l
  induction l with
  | nil => intro p hp; simpa using hp
  | cons c rest ih =>
    intro p hp
    simp only [List.foldl_cons]
    exact ih _ (Nat.mod_lt _ hn)

theorem string_hash_lt (s : String) (n : Nat) (hn : 0 < n) : string_hash s n < n :=
  hash_fold_lt n hn s.toList (0, 31415) hn

theorem object_hash_lt (o : Obj) (n : Nat) (hn : 0 < n) : object_hash o n < n := by
  cases o with
  | boolean b => exact string_hash_lt _ n hn
  | nil => exact string_hash_lt _ n hn
  | integer i =>
    unfold object_hash
    exact Nat.mod_lt _ hn
  | real r =>
    show ((trunc_q (616161 / 1000000 * r)).tmod (n : Int)).toNat < n
    rcases le_or_lt 0 ((trunc_q (616161 / 1000000 * r)).tmod (Nat.cast n)) with h | h
    · have := Int.tmod_lt_of_pos (trunc_q (616161 / 1000000 * r))
        (show 0 < (n : Int) by exact_mod_cast hn)
      omega
    · omega
  | string s => exact string_hash_lt s n hn

/-- No entry of any bucket of `bs` has key `k` (the pre-state of a fresh
binding). -/
def key_absent (k : Obj) (bs : List (List TEntry)) : Prop :=
  ∀ chain ∈ bs, ∀ e ∈ chain, objects_equal e.key k = false

theorem bucket_get_sub (bs : List (List TEntry)) (i : Nat) :
    bucket_get bs i ∈ bs ∨ bucket_get bs i = [] := by
  rcases Nat.lt_or_ge i bs.length with h | h
  · left
    unfold bucket_get
    rw [List.getD_eq_getElem _ _ (by simpa using h)]
    exact List.getElem_mem _
  · right
    unfold bucket_get
    rw [List.getD_eq_default _ _ (by simpa using h)]

theorem key_absent_bucket (k : Obj) (bs : List (List TEntry)) (i : Nat)
    (habs : key_absent k bs) : ∀ e ∈ bucket_get bs i, objects_equal e.key k = false := by
  rcases bucket_get_sub bs i with h | h
  · exact habs _ h
  · rw [h]
    intro e he
    simp at he

theorem find_entry_none (cap : Nat) (bs : List (List TEntry)) (k : Obj)
    (habs : key_absent k bs) : table_find_entry cap bs k = none := by
  unfold table_find_entry
  rw [List.find?_eq_none]
  intro e he
  simp [key_absent_bucket k bs _ habs e he]

theorem key_absent_set (k : Obj) (bs : List (List TEntry)) (i : Nat) (x : List TEntry)
    (habs : key_absent k bs) (hx : ∀ e ∈ x, objects_equal e.key k = false) :
    key_absent k (bs.set i x) := by
  intro chain hc
  rcases List.mem_or_eq_of_mem_set hc with h | h
  · exact habs _ h
  · rw [h]
    exact hx

theorem key_absent_resize_insert (k : Obj) (cap : Nat) (bs : List (List TEntry)) (e : TEntry)
    (habs : key_absent k bs) (he : objects_equal e.key k = false) :
    key_absent k (resize_insert cap bs e) := by
  unfold resize_insert
  have htl := key_absent_bucket k bs (object_hash e.key cap) habs
  cases hbk : bucket_get bs (object_hash e.key cap) with
  | nil =>
    simp only [hbk]
    apply key_absent_set _ _ _ _ habs
    intro e2 he2
    simp at he2
    rw [he2]
    exact he
  | cons hd tl =>
    simp only [hbk]
    apply key_absent_set _ _ _ _ habs
    intro e2 he2
    rcases List.mem_cons.mp he2 with h | h
    · rw [h]; exact he
    · exact htl e2 (by rw [hbk]; exact List.mem_cons_of_mem _ h)

theorem resize_insert_length (cap : Nat) (bs : List (List TEntry)) (e : TEntry) :
    (resize_insert cap bs e).length = bs.length := by
  unfold resize_insert
  cases hbk : bucket_get bs (object_hash e.key cap) <;> simp [hbk]

theorem key_absent_chain_fold (k : Obj) (cap : Nat) :
    ∀ (chain : List TEntry) (acc : List (List TEntry)),
      key_absent k acc → (∀ e ∈ chain, objects_equal e.key k = false) →
      key_absent k (chain.foldl (resize_insert cap) acc) ∧
        (chain.foldl (resize_insert cap) acc).length = acc.length := by
  intro chain
  induction chain with
  | nil => intro acc hacc _; exact ⟨hacc, rfl⟩
  | cons e rest ih =>
    intro acc hacc hch
    simp only [List.foldl_cons]
    have h1 := key_absent_resize_insert k cap acc e hacc (hch e (List.mem_cons_self _ _))
    have := ih (resize_insert cap acc e) h1 (fun e2 he2 => hch e2 (List.mem_cons_of_mem _ he2))
    exact ⟨this.1, by rw [this.2, resize_insert_length]⟩

theorem key_absent_buckets_fold (k : Obj) (cap : Nat) :
    ∀ (bks : List (List TEntry)) (acc : List (List TEntry)),
      key_absent k acc → key_absent k bks →
      key_absent k (bks.foldl (fun a chain => chain.foldl (resize_insert cap) a) acc) ∧
        (bks.foldl (fun a chain => chain.foldl (resize_insert cap) a) acc).length =
          acc.length := by
  intro bks
  induction bks with
  | nil => intro acc hacc _; exact ⟨hacc, rfl⟩
  | cons chain rest ih =>
    intro acc hacc hbks
    simp only [List.foldl_cons]
    have h1 := key_absent_chain_fold k cap chain acc hacc (hbks chain (List.mem_cons_self _ _))
    have := ih _ h1.1 (fun c hc => hbks c (List.mem_cons_of_mem _ hc))
    exact ⟨this.1, by rw [this.2, h1.2]⟩

theorem key_absent_replicate (k : Obj) (n : Nat) :
    key_absent k (List.replicate n []) := by
  intro chain hc
  rw [List.eq_of_mem_replicate hc]
  intro e he
  simp at he

theorem grow_capacity_pos (c : Nat) : 0 < grow_capacity c := by
  unfold grow_capacity
  split <;> omega

theorem table_resize_spec (c cap : Nat) (bs : List (List TEntry)) (par : Option CTable)
    (k : Obj) (habs : key_absent k bs) :
    ∃ bs2, table_resize (.mk c cap bs par) = .mk cap (grow_capacity cap) bs2 par ∧
      key_absent k bs2 ∧ bs2.length = grow_capacity cap := by
  unfold table_resize
  refine ⟨_, rfl, ?_⟩
  have := key_absent_buckets_fold k (grow_capacity cap) bs
    (List.replicate (grow_capacity cap) []) (key_absent_replicate _ _) habs
  simpa using this

/-- Inserting a key that occurs in no bucket of a well-formed table makes
it searchable: in every branch of `table_insert` (resize or not, empty or
occupied bucket) the new entry ends as the head of its bucket's chain. -/
theorem table_insert_search_absent (t : CTable) (k v : Obj)
    (hwf : t.buckets.length = t.capacity) (habs : key_absent k t.buckets) :
    table_search (table_insert t k v) k = some v := by
  obtain ⟨c, cap, bs, par⟩ := t
  simp only [CTable.buckets, CTable.capacity] at hwf habs
  have key : ∀ (c1 cap1 : Nat) (bs1 : List (List TEntry)),
      bs1.length = cap1 → 0 < cap1 → key_absent k bs1 →
      table_search (table_insert_post (.mk c1 cap1 bs1 par) k v) k = some v := by
    intro c1 cap1 bs1 hlen hpos habs1
    unfold table_insert_post
    rw [show (CTable.mk c1 cap1 bs1 par).capacity = cap1 from rfl,
      show (CTable.mk c1 cap1 bs1 par).buckets = bs1 from rfl,
      show (CTable.mk c1 cap1 bs1 par).count = c1 from rfl]
    rw [find_entry_none cap1 bs1 k habs1]
    have hh : object_hash k cap1 < bs1.length := by
      rw [hlen]; exact object_hash_lt k cap1 hpos
    cases hbk : bucket_get bs1 (object_hash k cap1) with
    | nil =>
      simp only [hbk]
      have hget2 : bucket_get (bs1.set (object_hash k cap1) [⟨k, v⟩])
          (object_hash k cap1) = [⟨k, v⟩] := getD_set_self _ _ _ _ hh
      have hfind2 : table_find_entry cap1 (bs1.set (object_hash k cap1) [⟨k, v⟩]) k =
          some ⟨k, v⟩ := by
        unfold table_find_entry
        rw [hget2]
        simp [List.find?, objects_equal_refl]
      unfold table_search
      rw [if_neg (by
        intro hnil
        have := congrArg List.length hnil
        simp [hlen] at this
        omega), hfind2]
    | cons hd tl =>
      simp only [hbk]
      have hget2 : bucket_get (bs1.set (object_hash k cap1) (⟨k, v⟩ :: tl))
          (object_hash k cap1) = ⟨k, v⟩ :: tl := getD_set_self _ _ _ _ hh
      have hfind2 : table_find_entry cap1 (bs1.set (object_hash k cap1) (⟨k, v⟩ :: tl)) k =
          some ⟨k, v⟩ := by
        unfold table_find_entry
        rw [hget2]
        simp [List.find?, objects_equal_refl]
      unfold table_search
      rw [if_neg (by
        intro hnil
        have := congrArg List.length hnil
        simp [hlen] at this
        omega), hfind2]
  unfold table_insert
  by_cases hload : 4 * ((CTable.mk c cap bs par).count + 1) >
      3 * (CTable.mk c cap bs par).capacity
  · rw [if_pos hload]
    obtain ⟨bs2, heq, habs2, hlen2⟩ := table_resize_spec c cap bs par k habs
    rw [heq]
    exact key cap (grow_capacity cap) bs2 hlen2 (grow_capacity_pos cap) habs2
  · rw [if_neg hload]
    simp only [CTable.count, CTable.capacity] at hload
    exact key c cap bs hwf (by omega) habs

theorem table_search_absent_none (t : CTable) (k : Obj)
    (habs : key_absent k t.buckets) (hpar : t.parent = none) :
    table_search t k = none := by
  obtain ⟨c, cap, bs, par⟩ := t
  simp only [CTable.buckets, CTable.parent] at habs hpar
  subst hpar
  unfold table_search
  by_cases hb : bs = []
  · rw [if_pos (by simpa using hb)]
  · rw [if_neg (by simpa using hb), find_entry_none cap bs k habs]

/-- Executing `OP_SET_GLOBAL`: read the name constant, insert into the
globals, leave the stack alone, continue (no error path exists in the C
case). -/
theorem step_set_global (s : VMState) (name : String)
    (hc : code_at s s.ip = OP_SET_GLOBAL)
    (hname : s.chunk.constants.getD (s.chunk.code.getD (s.ip + 1) 0) Obj.nil = .string name) :
    step s = .next { s with
      ip := s.ip + 2,
      globals := table_insert s.globals (.string name) (stack_peek s.stack 0) } := by
  unfold step
  rw [hc]
  norm_num [OP_CONSTANT, OP_POP, OP_GET_LOCAL, OP_SET_LOCAL, OP_GET_GLOBAL,
    OP_DEFINE_GLOBAL, OP_SET_GLOBAL, OP_EQUAL, OP_GREATER, OP_LESS, OP_ADD,
    OP_SUBTRACT, OP_MULTIPLY, OP_DIVIDE, OP_MODULUS, OP_POWER, OP_NOT,
    OP_NEGATE, OP_PRINT, OP_RETURN, OP_JUMP, OP_JUMP_IF_FALSE, OP_LOOP]
  simp only [read_constant, code_at] at *
  rw [hname]
  simp [as_string_chars, show s.ip + 1 + 1 = s.ip + 2 from rfl]

/-- Executing `OP_GET_GLOBAL` on an unbound name: runtime error with the
`Undefined variable` message, the line of the byte at the advanced `ip`,
and a reset stack. -/
theorem step_get_global_undefined (s : VMState) (name : String)
    (hc : code_at s s.ip = OP_GET_GLOBAL)
    (hname : s.chunk.constants.getD (s.chunk.code.getD (s.ip + 1) 0) Obj.nil = .string name)
    (habs : table_search s.globals (.string name) = none) :
    step s = .halt .iRuntimeError { s with
      ip := s.ip + 2,
      stack := [],
      errout := s.errout ++ "Undefined variable '" ++ name ++ "'." ++ "\n" ++
        "[line " ++ toString (s.chunk.lines.getD (s.ip + 2) 0) ++ "] in script" ++ "\n" } := by
  unfold step
  rw [hc]
  norm_num [OP_CONSTANT, OP_POP, OP_GET_LOCAL, OP_SET_LOCAL, OP_GET_GLOBAL,
    OP_DEFINE_GLOBAL, OP_SET_GLOBAL, OP_EQUAL, OP_GREATER, OP_LESS, OP_ADD,
    OP_SUBTRACT, OP_MULTIPLY, OP_DIVIDE, OP_MODULUS, OP_POWER, OP_NOT,
    OP_NEGATE, OP_PRINT, OP_RETURN, OP_JUMP, OP_JUMP_IF_FALSE, OP_LOOP]
  simp only [read_constant, code_at] at *
  rw [hname]
  simp only [as_string_chars, habs]
  simp [runtime_error, String.append_assoc, show s.ip + 1 + 1 = s.ip + 2 from rfl]

/-- Executing `OP_DIVIDE` with right operand `Int 0`: the divide-by-zero
runtime error. -/
theorem step_divide_int_zero (s : VMState) (a : Obj) (rest : List Obj)
    (hc : code_at s s.ip = OP_DIVIDE)
    (hs : s.stack = .integer 0 :: a :: rest)
    (ha : is_number a = true) :
    step s = .halt .iRuntimeError
      (runtime_error { s with ip := s.ip + 1 } "Attempt to divide by zero.") := by
  unfold step
  rw [hc]
  norm_num [OP_CONSTANT, OP_POP, OP_GET_LOCAL, OP_SET_LOCAL, OP_GET_GLOBAL,
    OP_DEFINE_GLOBAL, OP_SET_GLOBAL, OP_EQUAL, OP_GREATER, OP_LESS, OP_ADD,
    OP_SUBTRACT, OP_MULTIPLY, OP_DIVIDE, OP_MODULUS, OP_POWER, OP_NOT,
    OP_NEGATE, OP_PRINT, OP_RETURN, OP_JUMP, OP_JUMP_IF_FALSE, OP_LOOP]
  cases a with
  | integer n => simp [hs, stack_peek, is_number]
  | real r => simp [hs, stack_peek, is_number]
  | boolean b => simp [is_number] at ha
  | nil => simp [is_number] at ha
  | string str => simp [is_number] at ha

/-- Executing `OP_DIVIDE` with right operand `Real 0.0`: the same
divide-by-zero runtime error. -/
theorem step_divide_real_zero (s : VMState) (a : Obj) (rest : List Obj)
    (hc : code_at s s.ip = OP_DIVIDE)
    (hs : s.stack = .real 0 :: a :: rest)
    (ha : is_number a = true) :
    step s = .halt .iRuntimeError
      (runtime_error { s with ip := s.ip + 1 } "Attempt to divide by zero.") := by
  unfold step
  rw [hc]
  norm_num [OP_CONSTANT, OP_POP, OP_GET_LOCAL, OP_SET_LOCAL, OP_GET_GLOBAL,
    OP_DEFINE_GLOBAL, OP_SET_GLOBAL, OP_EQUAL, OP_GREATER, OP_LESS, OP_ADD,
    OP_SUBTRACT, OP_MULTIPLY, OP_DIVIDE, OP_MODULUS, OP_POWER, OP_NOT,
    OP_NEGATE, OP_PRINT, OP_RETURN, OP_JUMP, OP_JUMP_IF_FALSE, OP_LOOP]
  cases a with
  | integer n => simp [hs, stack_peek, is_number, real_is_zero]
  | real r => simp [hs, stack_peek, is_number, real_is_zero]
  | boolean b => simp [is_number] at ha
  | nil => simp [is_number] at ha
  | string str => simp [is_number] at ha

/-- `OP_DIVIDE` on (Int, nonzero Int): truncated integer division. -/
theorem step_divide_ii (s : VMState) (x y : Int) (rest : List Obj)
    (hc : code_at s s.ip = OP_DIVIDE)
    (hs : s.stack = .integer y :: .integer x :: rest)
    (hy : y ≠ 0) :
    step s = .next { s with ip := s.ip + 1, stack := .integer (Int.tdiv x y) :: rest } := by
  unfold step
  rw [hc]
  norm_num [OP_CONSTANT, OP_POP, OP_GET_LOCAL, OP_SET_LOCAL, OP_GET_GLOBAL,
    OP_DEFINE_GLOBAL, OP_SET_GLOBAL, OP_EQUAL, OP_GREATER, OP_LESS, OP_ADD,
    OP_SUBTRACT, OP_MULTIPLY, OP_DIVIDE, OP_MODULUS, OP_POWER, OP_NOT,
    OP_NEGATE, OP_PRINT, OP_RETURN, OP_JUMP, OP_JUMP_IF_FALSE, OP_LOOP]
  simp [hs, stack_peek, is_number, is_string_obj, real_is_zero, push_binary,
    do_division, hy]

/-- `OP_DIVIDE` on (Real, nonzero Real). -/
theorem step_divide_rr (s : VMState) (x y : ℚ) (rest : List Obj)
    (hc : code_at s s.ip = OP_DIVIDE)
    (hs : s.stack = .real y :: .real x :: rest)
    (hy : y ≠ 0) :
    step s = .next { s with ip := s.ip + 1, stack := .real (x / y) :: rest } := by
  unfold step
  rw [hc]
  norm_num [OP_CONSTANT, OP_POP, OP_GET_LOCAL, OP_SET_LOCAL, OP_GET_GLOBAL,
    OP_DEFINE_GLOBAL, OP_SET_GLOBAL, OP_EQUAL, OP_GREATER, OP_LESS, OP_ADD,
    OP_SUBTRACT, OP_MULTIPLY, OP_DIVIDE, OP_MODULUS, OP_POWER, OP_NOT,
    OP_NEGATE, OP_PRINT, OP_RETURN, OP_JUMP, OP_JUMP_IF_FALSE, OP_LOOP]
  simp [hs, stack_peek, is_number, is_string_obj, real_is_zero, push_binary,
    do_division, hy]

/-- `OP_DIVIDE` on (Int, nonzero Real): promoted to Real. -/
theorem step_divide_ir (s : VMState) (x : Int) (y : ℚ) (rest : List Obj)
    (hc : code_at s s.ip = OP_DIVIDE)
    (hs : s.stack = .real y :: .integer x :: rest)
    (hy : y ≠ 0) :
    step s = .next { s with ip := s.ip + 1, stack := .real ((x : ℚ) / y) :: rest } := by
  unfold step
  rw [hc]
  norm_num [OP_CONSTANT, OP_POP, OP_GET_LOCAL, OP_SET_LOCAL, OP_GET_GLOBAL,
    OP_DEFINE_GLOBAL, OP_SET_GLOBAL, OP_EQUAL, OP_GREATER, OP_LESS, OP_ADD,
    OP_SUBTRACT, OP_MULTIPLY, OP_DIVIDE, OP_MODULUS, OP_POWER, OP_NOT,
    OP_NEGATE, OP_PRINT, OP_RETURN, OP_JUMP, OP_JUMP_IF_FALSE, OP_LOOP]
  simp [hs, stack_peek, is_number, is_string_obj, real_is_zero, push_binary,
    do_division, hy]

/-- `OP_DIVIDE` on (Real, nonzero Int): promoted to Real. -/
theorem step_divide_ri (s : VMState) (x : ℚ) (y : Int) (rest : List Obj)
    (hc : code_at s s.ip = OP_DIVIDE)
    (hs : s.stack = .integer y :: .real x :: rest)
    (hy : y ≠ 0) :
    step s = .next { s with ip := s.ip + 1, stack := .real (x / (y : ℚ)) :: rest } := by
  unfold step
  rw [hc]
  norm_num [OP_CONSTANT, OP_POP, OP_GET_LOCAL, OP_SET_LOCAL, OP_GET_GLOBAL,
    OP_DEFINE_GLOBAL, OP_SET_GLOBAL, OP_EQUAL, OP_GREATER, OP_LESS, OP_ADD,
    OP_SUBTRACT, OP_MULTIPLY, OP_DIVIDE, OP_MODULUS, OP_POWER, OP_NOT,
    OP_NEGATE, OP_PRINT, OP_RETURN, OP_JUMP, OP_JUMP_IF_FALSE, OP_LOOP]
  simp [hs, stack_peek, is_number, is_string_obj, real_is_zero, push_binary,
    do_division, hy]

/-! ## The claims -/

/-- C1 counterexample: the claim says `insert` has update-if-present
semantics, so that after `insert("key", 1)` then `insert("key", 2)` a
search returns `2`; on the code, `table_insert` returns early when
`table_find_entry` finds the key and the second value is discarded —
the search returns `1`. -/
theorem c1_counterexample :
    table_search
      (table_insert (table_insert table_init (.string "key") (.integer 1))
        (.string "key") (.integer 2))
      (.string "key") = some (.integer 1) ∧
    some (Obj.integer 1) ≠ some (Obj.integer 2) := by
  refine ⟨by rfl, by simp⟩

/-- C1 (amended): `table_insert` has insert-if-absent semantics: an
insert whose key is already present returns without updating the stored
value, so for every string key and values `v1`, `v2`, after
`insert(key, v1)` then `insert(key, v2)` on an initially empty table,
`search(key)` returns `v1`, not `v2`. -/
theorem c1_amended (k : String) (v1 v2 : Obj) :
    table_search (table_insert (table_insert table_init (.string k) v1) (.string k) v2)
      (.string k) = some v1 := by
  have h8 : object_hash (Obj.string k) 8 < 8 := string_hash_lt k 8 (by norm_num)
  have e1 : table_insert table_init (.string k) v1 =
      CTable.mk 1 8 ((List.replicate 8 []).set (object_hash (.string k) 8)
        [⟨.string k, v1⟩]) none := by
    unfold table_insert
    rw [if_pos (by norm_num [table_init, CTable.count, CTable.capacity])]
    show table_insert_post (CTable.mk 0 8 (List.replicate 8 []) none) _ _ = _
    unfold table_insert_post
    have hfind : table_find_entry (CTable.mk 0 8 (List.replicate 8 []) none).capacity
        (CTable.mk 0 8 (List.replicate 8 []) none).buckets (Obj.string k) = none := by
      show table_find_entry 8 (List.replicate 8 []) (Obj.string k) = none
      unfold table_find_entry bucket_get
      rw [getD_replicate]
      rfl
    rw [hfind]
    show CTable.mk 1 8 _ none = _
    have hbk : bucket_get (List.replicate 8 []) (object_hash (Obj.string k) 8) =
        ([] : List TEntry) := by
      unfold bucket_get
      rw [getD_replicate]
    simp only [CTable.buckets, CTable.capacity, hbk]
  set bs : List (List TEntry) := (List.replicate 8 []).set (object_hash (.string k) 8)
      [⟨.string k, v1⟩] with hbs
  have hget : bucket_get bs (object_hash (.string k) 8) = [⟨.string k, v1⟩] := by
    apply getD_set_self
    simpa using h8
  have hfind2 : table_find_entry 8 bs (Obj.string k) = some ⟨.string k, v1⟩ := by
    unfold table_find_entry
    rw [hget]
    simp [List.find?, objects_equal_refl]
  have e2 : table_insert (CTable.mk 1 8 bs none) (.string k) v2 = CTable.mk 1 8 bs none := by
    unfold table_insert
    rw [if_neg (by norm_num [CTable.count, CTable.capacity])]
    unfold table_insert_post
    show (match table_find_entry 8 bs (Obj.string k) with
      | some _ => CTable.mk 1 8 bs none
      | none => _) = CTable.mk 1 8 bs none
    rw [hfind2]
  rw [e1, e2]
  have hne : bs ≠ [] := by
    intro hnil
    have := congrArg List.length hnil
    simp [hbs] at this
  unfold table_search
  rw [if_neg (by simpa using hne), hfind2]

/-- VM state about to execute `OP_SET_GLOBAL` naming `x`, with Int `5` on
top of the stack and an empty globals table. -/
def st_set_x : VMState :=
  { chunk := ⟨[OP_SET_GLOBAL, 0], [1, 1], [.string "x"]⟩, ip := 0,
    stack := [.integer 5], globals := table_init, output := "", errout := "" }

/-- VM state about to execute `OP_SET_GLOBAL` naming `g`, with Int `7` on
top of the stack and an empty globals table. -/
def st_set_g : VMState :=
  { chunk := ⟨[OP_SET_GLOBAL, 0], [1, 1], [.string "g"]⟩, ip := 0,
    stack := [.integer 7], globals := table_init, output := "", errout := "" }

/-- VM state about to execute `OP_GET_GLOBAL` of the unbound name `g` on
source line 9 (`lines` indexed with the advanced `ip = 2`). -/
def st_get_g : VMState :=
  { chunk := ⟨[OP_GET_GLOBAL, 0], [4, 4, 9], [.string "g"]⟩, ip := 0,
    stack := [], globals := table_init, output := "", errout := "" }

/-- VM state about to execute `OP_GET_GLOBAL` of the unbound name `u` on
source line 9. -/
def st_get_u : VMState :=
  { chunk := ⟨[OP_GET_GLOBAL, 0], [4, 4, 9], [.string "u"]⟩, ip := 0,
    stack := [], globals := table_init, output := "", errout := "" }

/-- VM state about to execute `OP_POWER` on Int operands `2 ^ 10`. -/
def st_pow : VMState :=
  { chunk := ⟨[OP_POWER], [1], []⟩, ip := 0, stack := [.integer 10, .integer 2],
    globals := table_init, output := "", errout := "" }

/-- VM state about to execute `OP_PRINT` on the string `abc`. -/
def st_print_s : VMState :=
  { chunk := ⟨[OP_PRINT], [1], []⟩, ip := 0, stack := [.string "abc"],
    globals := table_init, output := "", errout := "" }

/-- VM state about to execute `OP_PRINT` on the Boolean `true`. -/
def st_print_b : VMState :=
  { chunk := ⟨[OP_PRINT], [1], []⟩, ip := 0, stack := [.boolean true],
    globals := table_init, output := "", errout := "" }

/-- VM state about to execute `OP_DIVIDE` on `1 / 0`. -/
def st_div_zero : VMState :=
  { chunk := ⟨[OP_DIVIDE], [6], []⟩, ip := 0, stack := [.integer 0, .integer 1],
    globals := table_init, output := "", errout := "" }

/-- VM state about to execute `OP_DIVIDE` on `7 / 2`. -/
def st_div_72 : VMState :=
  { chunk := ⟨[OP_DIVIDE], [6], []⟩, ip := 0, stack := [.integer 2, .integer 7],
    globals := table_init, output := "", errout := "" }

/-- VM state about to divide by zero at offset `0` of a chunk whose
`lines` array is `[5, 7]`: the faulting instruction was recorded on line
5, the following byte on line 7. -/
def st_div_lines : VMState :=
  { chunk := ⟨[OP_DIVIDE, OP_RETURN], [5, 7], []⟩, ip := 0,
    stack := [.integer 0, .integer 1], globals := table_init, output := "", errout := "" }

/-- C2 counterexample: the claim says executing `OP_SET_GLOBAL` on a name
not bound in the globals table raises a runtime error and does not
create the binding.  On the code, the `OP_SET_GLOBAL` case simply calls
`table_insert`: the step continues (no halt), writes nothing to stderr,
and the binding exists afterwards. -/
theorem c2_counterexample :
    stepout_halts (step st_set_x) = false ∧
    (stepout_state (step st_set_x)).errout = "" ∧
    table_search (stepout_state (step st_set_x)).globals (.string "x") =
      some (.integer 5) := by
  refine ⟨rfl, rfl, rfl⟩

/-- C2 (amended): executing `OP_SET_GLOBAL` never raises a runtime error
and does not pop: it inserts the binding into the globals table, so
assignment does implicitly create a global; when the name was absent
from a well-formed globals table, a subsequent `table_search` finds the
assigned value.  The `OP_GET_GLOBAL` half of the claim holds as stated:
an unbound name raises the runtime error `Undefined variable '<name>'.`
and `interpret` returns `INTERPRET_RUNTIME_ERROR`. -/
theorem c2_amended :
    (∀ (s : VMState) (name : String),
      code_at s s.ip = OP_SET_GLOBAL →
      s.chunk.constants.getD (s.chunk.code.getD (s.ip + 1) 0) Obj.nil = .string name →
      step s = .next { s with
        ip := s.ip + 2,
        globals := table_insert s.globals (.string name) (stack_peek s.stack 0) }) ∧
    (∀ (t : CTable) (name : String) (v : Obj),
      t.buckets.length = t.capacity →
      key_absent (.string name) t.buckets →
      table_search (table_insert t (.string name) v) (.string name) = some v) ∧
    (∀ (s : VMState) (name : String),
      code_at s s.ip = OP_GET_GLOBAL →
      s.chunk.constants.getD (s.chunk.code.getD (s.ip + 1) 0) Obj.nil = .string name →
      table_search s.globals (.string name) = none →
      step s = .halt .iRuntimeError { s with
        ip := s.ip + 2,
        stack := [],
        errout := s.errout ++ "Undefined variable '" ++ name ++ "'." ++ "\n" ++
          "[line " ++ toString (s.chunk.lines.getD (s.ip + 2) 0) ++ "] in script" ++ "\n" }) :=
  ⟨step_set_global, fun t name v hwf habs => table_insert_search_absent t _ v hwf habs,
    step_get_global_undefined⟩

/-- C2 witness: the amended statement applied at a concrete
`OP_SET_GLOBAL` step on empty globals, at the empty table, and at a
concrete undefined `OP_GET_GLOBAL`. -/
theorem c2_witness :
    step st_set_g = .next { st_set_g with
      ip := st_set_g.ip + 2,
      globals := table_insert st_set_g.globals (.string "g") (stack_peek st_set_g.stack 0) } ∧
    table_search (table_insert table_init (.string "g") (.integer 7)) (.string "g") =
      some (.integer 7) ∧
    step st_get_g = .halt .iRuntimeError { st_get_g with
      ip := st_get_g.ip + 2,
      stack := [],
      errout := st_get_g.errout ++ "Undefined variable '" ++ "g" ++ "'." ++ "\n" ++
        "[line " ++ toString (st_get_g.chunk.lines.getD (st_get_g.ip + 2) 0) ++ "] in script" ++ "\n" } := by
  refine ⟨c2_amended.1 st_set_g "g" rfl rfl,
    c2_amended.2.1 table_init "g" (.integer 7) rfl ?_,
    c2_amended.2.2 st_get_g "g" rfl rfl (by rfl)⟩
  intro chain hc
  simp [table_init, CTable.buckets] at hc

/-- C3 counterexample: the claim says every `OP_POWER` on two Int
operands pushes a Real, with `2 ^ 10` pushing Real `1024.0`; on the
code, `do_power`'s integer case pushes
`create_integer(pow(a, b))` — an Int, here Int `1024`. -/
theorem c3_counterexample :
    step st_pow = .next { st_pow with
      ip := 1,
      stack := [.integer 1024] } ∧
    Obj.integer 1024 ≠ Obj.real 1024 := by
  constructor
  · rfl
  · simp

/-- C3 (amended): `OP_POWER` on two Int operands pushes an Int whose
value is the C double `pow` truncated to `long`; any pair involving a
Real pushes a Real; in particular `2 ^ 10` pushes Int `1024`, not Real
`1024.0`. -/
theorem c3_amended :
    (∀ (s : VMState) (a b : Int) (rest : List Obj),
      code_at s s.ip = OP_POWER →
      s.stack = .integer b :: .integer a :: rest →
      step s = .next { s with ip := s.ip + 1, stack := .integer (pow_long a b) :: rest }) ∧
    (∀ (s : VMState) (a b : ℚ) (rest : List Obj),
      code_at s s.ip = OP_POWER →
      s.stack = .real b :: .real a :: rest →
      step s = .next { s with ip := s.ip + 1, stack := .real (q_pow a b) :: rest }) ∧
    (∀ (s : VMState) (a : Int) (b : ℚ) (rest : List Obj),
      code_at s s.ip = OP_POWER →
      s.stack = .real b :: .integer a :: rest →
      step s = .next { s with ip := s.ip + 1, stack := .real (q_pow (a : ℚ) b) :: rest }) ∧
    (∀ (s : VMState) (a : ℚ) (b : Int) (rest : List Obj),
      code_at s s.ip = OP_POWER →
      s.stack = .integer b :: .real a :: rest →
      step s = .next { s with ip := s.ip + 1, stack := .real (q_pow a (b : ℚ)) :: rest }) ∧
    pow_long 2 10 = 1024 := by
  refine ⟨?_, ?_, ?_, ?_, by unfold pow_long; norm_num; rfl⟩ <;>
  · intro s a b rest hc hs
    unfold step
    rw [hc]
    norm_num [OP_CONSTANT, OP_POP, OP_GET_LOCAL, OP_SET_LOCAL, OP_GET_GLOBAL,
      OP_DEFINE_GLOBAL, OP_SET_GLOBAL, OP_EQUAL, OP_GREATER, OP_LESS, OP_ADD,
      OP_SUBTRACT, OP_MULTIPLY, OP_DIVIDE, OP_MODULUS, OP_POWER, OP_NOT,
      OP_NEGATE, OP_PRINT, OP_RETURN, OP_JUMP, OP_JUMP_IF_FALSE, OP_LOOP]
    simp [hs, stack_peek, is_number, is_string_obj, push_binary, do_power]

/-- C3 witness: the amended theorem applied at `2 ^ 10`. -/
theorem c3_witness :
    step st_pow = .next { st_pow with
      ip := st_pow.ip + 1,
      stack := .integer (pow_long 2 10) :: [] } :=
  c3_amended.1 st_pow 2 10 [] rfl rfl

/-- C4 counterexample: the claim says `OP_PRINT` writes exactly the
spec's rendering of the value followed by a newline — strings as raw
characters with no quotes and no prefix.  On the code, printing the
string `abc` writes `-> "abc"` and a newline: a `-> ` prefix and
surrounding quotes. -/
theorem c4_counterexample :
    (stepout_state (step st_print_s)).output = "-> \"abc\"\n" ∧
    "-> \"abc\"\n" ≠ spec_print_output (.string "abc") := by
  constructor
  · rfl
  · decide

/-- C4 (amended): `OP_PRINT` pops the value and writes `-> `, then the
`print_object` rendering, then a newline.  The rendering agrees with the
spec's for Booleans, Nil, Int and Real, but a String is printed inside
double quotes (and every value gets the `-> ` prefix), unlike the
spec's raw-characters rule. -/
theorem c4_amended :
    (∀ (s : VMState) (v : Obj) (rest : List Obj),
      code_at s s.ip = OP_PRINT →
      s.stack = v :: rest →
      step s = .next { s with
        ip := s.ip + 1,
        stack := rest,
        output := s.output ++ "-> " ++ print_object v ++ "\n" }) ∧
    (∀ b, print_object (.boolean b) = spec_render (.boolean b)) ∧
    print_object .nil = spec_render .nil ∧
    (∀ i : Int, print_object (.integer i) = spec_render (.integer i)) ∧
    (∀ r : ℚ, print_object (.real r) = spec_render (.real r)) ∧
    (∀ str : String,
      print_object (.string str) = "\"" ++ spec_render (.string str) ++ "\"") := by
  refine ⟨?_, fun b => rfl, rfl, fun i => rfl, fun r => rfl, fun str => rfl⟩
  intro s v rest hc hs
  unfold step
  rw [hc]
  norm_num [OP_CONSTANT, OP_POP, OP_GET_LOCAL, OP_SET_LOCAL, OP_GET_GLOBAL,
    OP_DEFINE_GLOBAL, OP_SET_GLOBAL, OP_EQUAL, OP_GREATER, OP_LESS, OP_ADD,
    OP_SUBTRACT, OP_MULTIPLY, OP_DIVIDE, OP_MODULUS, OP_POWER, OP_NOT,
    OP_NEGATE, OP_PRINT, OP_RETURN, OP_JUMP, OP_JUMP_IF_FALSE, OP_LOOP]
  simp [hs, stack_peek]

/-- C4 witness: the amended print step at a concrete Boolean. -/
theorem c4_witness :
    step st_print_b = .next { st_print_b with
      ip := st_print_b.ip + 1,
      stack := [],
      output := st_print_b.output ++ "-> " ++ print_object (.boolean true) ++ "\n" } :=
  c4_amended.1 st_print_b (.boolean true) [] rfl rfl

/-- C7: `OP_DIVIDE` raises `Attempt to divide by zero.` (with
`INTERPRET_RUNTIME_ERROR`) exactly when the right operand is Int `0` or
Real `0.0`; for any other numeric pair the division is performed —
(Int, Int) truncated to an Int, any pair involving a Real as a Real —
and no error is raised. -/
theorem c7_theorem :
    (∀ (s : VMState) (a : Obj) (rest : List Obj),
      code_at s s.ip = OP_DIVIDE →
      s.stack = .integer 0 :: a :: rest →
      is_number a = true →
      step s = .halt .iRuntimeError
        (runtime_error { s with ip := s.ip + 1 } "Attempt to divide by zero.")) ∧
    (∀ (s : VMState) (a : Obj) (rest : List Obj),
      code_at s s.ip = OP_DIVIDE →
      s.stack = .real 0 :: a :: rest →
      is_number a = true →
      step s = .halt .iRuntimeError
        (runtime_error { s with ip := s.ip + 1 } "Attempt to divide by zero.")) ∧
    (∀ (s : VMState) (x y : Int) (rest : List Obj),
      code_at s s.ip = OP_DIVIDE →
      s.stack = .integer y :: .integer x :: rest →
      y ≠ 0 →
      step s = .next { s with ip := s.ip + 1, stack := .integer (Int.tdiv x y) :: rest }) ∧
    (∀ (s : VMState) (x y : ℚ) (rest : List Obj),
      code_at s s.ip = OP_DIVIDE →
      s.stack = .real y :: .real x :: rest →
      y ≠ 0 →
      step s = .next { s with ip := s.ip + 1, stack := .real (x / y) :: rest }) ∧
    (∀ (s : VMState) (x : Int) (y : ℚ) (rest : List Obj),
      code_at s s.ip = OP_DIVIDE →
      s.stack = .real y :: .integer x :: rest →
      y ≠ 0 →
      step s = .next { s with ip := s.ip + 1, stack := .real ((x : ℚ) / y) :: rest }) ∧
    (∀ (s : VMState) (x : ℚ) (y : Int) (rest : List Obj),
      code_at s s.ip = OP_DIVIDE →
      s.stack = .integer y :: .real x :: rest →
      y ≠ 0 →
      step s = .next { s with ip := s.ip + 1, stack := .real (x / (y : ℚ)) :: rest }) :=
  ⟨step_divide_int_zero, step_divide_real_zero, step_divide_ii, step_divide_rr,
    step_divide_ir, step_divide_ri⟩

/-- C7 witness: `1 / 0` errors; `7 / 2` yields Int `3`. -/
theorem c7_witness :
    step st_div_zero = .halt .iRuntimeError
      (runtime_error { st_div_zero with ip := st_div_zero.ip + 1 } "Attempt to divide by zero.") ∧
    step st_div_72 = .next { st_div_72 with
      ip := st_div_72.ip + 1,
      stack := .integer (Int.tdiv 7 2) :: [] } :=
  ⟨c7_theorem.1 st_div_zero (.integer 1) [] rfl rfl rfl,
    c7_theorem.2.2.1 st_div_72 7 2 [] rfl rfl (by decide)⟩

/-- C9 counterexample: the claim says the line printed with a runtime
error is `chunk.lines[ip - 1 - chunk.code]`.  A divide-by-zero at offset
0 of a chunk with `lines = [5, 7]` prints `[line 7]` (the code indexes
`lines` with the advanced `ip` itself, here `1`), while the claim's
index `1 - 1 = 0` holds line `5`. -/
theorem c9_counterexample :
    (stepout_state (step st_div_lines)).errout =
      "Attempt to divide by zero.\n[line 7] in script\n" ∧
    (stepout_state (step st_div_lines)).stack = [] ∧
    ([5, 7] : List Int).getD (1 - 1) 0 = 5 ∧
    (5 : Int) ≠ 7 := by
  refine ⟨rfl, rfl, rfl, by decide⟩

/-- C9 (amended): when a runtime error is raised, the line printed in
`[line N] in script` is `chunk.lines[ip - chunk.code]` at the moment of
the error — the `ip` has already advanced past the faulting
instruction's opcode and operands, with no `- 1` — and the operand stack
is then reset to empty.  Shown for the undefined-global and
divide-by-zero error families. -/
theorem c9_amended :
    (∀ (s : VMState) (name : String),
      code_at s s.ip = OP_GET_GLOBAL →
      s.chunk.constants.getD (s.chunk.code.getD (s.ip + 1) 0) Obj.nil = .string name →
      table_search s.globals (.string name) = none →
      step s = .halt .iRuntimeError { s with
        ip := s.ip + 2,
        stack := [],
        errout := s.errout ++ "Undefined variable '" ++ name ++ "'." ++ "\n" ++
          "[line " ++ toString (s.chunk.lines.getD (s.ip + 2) 0) ++ "] in script" ++ "\n" }) ∧
    (∀ (s : VMState) (a : Obj) (rest : List Obj),
      code_at s s.ip = OP_DIVIDE →
      s.stack = .integer 0 :: a :: rest →
      is_number a = true →
      step s = .halt .iRuntimeError { s with
        ip := s.ip + 1,
        stack := [],
        errout := s.errout ++ "Attempt to divide by zero." ++ "\n" ++
          "[line " ++ toString (s.chunk.lines.getD (s.ip + 1) 0) ++ "] in script" ++ "\n" }) := by
  constructor
  · exact step_get_global_undefined
  · intro s a rest hc hs ha
    rw [step_divide_int_zero s a rest hc hs ha]
    rfl

/-- C9 witness: the amended statement at the two concrete error
states. -/
theorem c9_witness :
    step st_get_u = .halt .iRuntimeError { st_get_u with
      ip := st_get_u.ip + 2,
      stack := [],
      errout := st_get_u.errout ++ "Undefined variable '" ++ "u" ++ "'." ++ "\n" ++
        "[line " ++ toString (st_get_u.chunk.lines.getD (st_get_u.ip + 2) 0) ++ "] in script" ++ "\n" } ∧
    step st_div_lines = .halt .iRuntimeError { st_div_lines with
      ip := st_div_lines.ip + 1,
      stack := [],
      errout := st_div_lines.errout ++ "Attempt to divide by zero." ++ "\n" ++
        "[line " ++ toString (st_div_lines.chunk.lines.getD (st_div_lines.ip + 1) 0) ++ "] in script" ++ "\n" } :=
  ⟨c9_amended.1 st_get_u "u" rfl rfl (by rfl),
    c9_amended.2 st_div_lines (.integer 1) [] rfl rfl rfl⟩

theorem find_keyword_length_none (w : String) (h : w.length < 1 ∨ 6 < w.length) :
    find_keyword (some w) = none := by
  have hcond : min w.length LEXEME_LEN < 1 ∨ 6 < min w.length LEXEME_LEN := by
    rcases h with h | h
    · exact Or.inl (lt_of_le_of_lt (Nat.min_le_left _ _) h)
    · exact Or.inr (lt_min h (by norm_num [LEXEME_LEN]))
  simp only [find_keyword]
  rw [if_pos hcond]

/-- C5 counterexample: the claim says `find_keyword` recognizes the 23
listed keywords plus `print` and `var`, and returns the zero result for
every other text.  On the code, `print` and `var` are missing from the
keyword table (both yield `0`), while the non-keyword text `caseq6`
collides with the stored hash of `case` and `verify_keyword` compares
only a keyword-length prefix of the word, so `find_keyword` reports it
as `TOKEN_CASE`. -/
theorem c5_counterexample :
    find_keyword (some "print") = none ∧
    find_keyword (some "var") = none ∧
    find_keyword (some "caseq6") = some .tCase ∧
    "caseq6" ∉ keywords.map (fun e => e.2.2) := by
  refine ⟨by decide, by decide, by decide, by decide⟩

/-- C5 (amended): `find_keyword` returns the matching token kind for each
of the 23 spellings in the keyword table and the zero/none result for a
null word, for any text of length `< 1` or `> 6`, and for `print` and
`var`, which are not in the table.  It is not zero for every remaining
text: a text of at most 6 characters extending a keyword whose hash
collides with that keyword's stored hash — such as `caseq6` — is also
reported as the keyword. -/
theorem c5_amended :
    (∀ e ∈ keywords, find_keyword (some e.2.2) = some e.1) ∧
    find_keyword none = none ∧
    (∀ w : String, w.length < 1 ∨ 6 < w.length → find_keyword (some w) = none) ∧
    find_keyword (some "print") = none ∧
    find_keyword (some "var") = none ∧
    find_keyword (some "caseq6") = some .tCase ∧
    "caseq6" ∉ keywords.map (fun e => e.2.2) := by
  refine ⟨by decide, rfl, find_keyword_length_none, by decide, by decide, by decide, by decide⟩

/-- C5 witness: the amended theorem applied at the table entry for
`while` and at the over-long text `abcdefg`. -/
theorem c5_witness :
    find_keyword (some "while") = some .tWhile ∧
    find_keyword (some "abcdefg") = none :=
  ⟨c5_amended.1 (.tWhile, 6530, "while") (by decide),
    c5_amended.2.2.1 "abcdefg" (by decide)⟩

theorem next_token_amp (s0 : Source)
    (hc : peek (start_token (skip_whitespace s0)) = '&') :
    (next_token s0).1.type = .tAnd := by
  have hend : ¬ is_at_end (start_token (skip_whitespace s0)) = true := by
    simp [is_at_end, hc]
  simp only [next_token, advance]
  rw [if_neg hend, hc]
  rw [if_neg (by decide), if_neg (by decide), if_neg (by decide), if_neg (by decide),
      if_neg (by decide), if_neg (by decide), if_neg (by decide), if_neg (by decide),
      if_neg (by decide), if_neg (by decide), if_neg (by decide), if_neg (by decide),
      if_neg (by decide), if_neg (by decide), if_neg (by decide), if_neg (by decide),
      if_neg (by decide), if_pos rfl]
  rfl

theorem next_token_pipe (s0 : Source)
    (hc : peek (start_token (skip_whitespace s0)) = '|') :
    (next_token s0).1.type = .tOr := by
  have hend : ¬ is_at_end (start_token (skip_whitespace s0)) = true := by
    simp [is_at_end, hc]
  simp only [next_token, advance]
  rw [if_neg hend, hc]
  rw [if_neg (by decide), if_neg (by decide), if_neg (by decide), if_neg (by decide),
      if_neg (by decide), if_neg (by decide), if_neg (by decide), if_neg (by decide),
      if_neg (by decide), if_neg (by decide), if_neg (by decide), if_neg (by decide),
      if_neg (by decide), if_neg (by decide), if_neg (by decide), if_neg (by decide),
      if_neg (by decide), if_neg (by decide), if_pos rfl]
  rfl

theorem skip_whitespace_nows (s : Source)
    (h1 : ¬ (peek s = ' ' ∨ peek s = '\r' ∨ peek s = '\t' ∨ peek s = '\x0c' ∨ peek s = '\x0b'))
    (h2 : ¬ peek s = '\n') (h3 : ¬ peek s = '#') :
    skip_whitespace s = s := by
  rw [skip_whitespace, dif_neg h1, dif_neg h2, dif_neg h3]

theorem skip_ident_and :
    skip_ident_chars ⟨"and".toList, 0, 1, 1, 2⟩ = ⟨"and".toList, 0, 3, 1, 4⟩ := by
  rw [skip_ident_chars, dif_pos (by decide)]
  rw [skip_ident_chars, dif_pos (by decide)]
  rw [skip_ident_chars, dif_neg (by decide)]
  rfl

theorem skip_ident_or :
    skip_ident_chars ⟨"or".toList, 0, 1, 1, 2⟩ = ⟨"or".toList, 0, 2, 1, 3⟩ := by
  rw [skip_ident_chars, dif_pos (by decide)]
  rw [skip_ident_chars, dif_neg (by decide)]
  rfl

theorem next_token_and_eval :
    (next_token (source_create "and")).1 = token_create .tIdentifier (some "and") 1 4 := by
  simp only [next_token]
  rw [skip_whitespace_nows _ (by decide) (by decide) (by decide)]
  show (scan_identifier ⟨"and".toList, 0, 1, 1, 2⟩).1 = token_create .tIdentifier (some "and") 1 4
  unfold scan_identifier
  rw [skip_ident_and]
  rfl

theorem next_token_or_eval :
    (next_token (source_create "or")).1 = token_create .tIdentifier (some "or") 1 3 := by
  simp only [next_token]
  rw [skip_whitespace_nows _ (by decide) (by decide) (by decide)]
  show (scan_identifier ⟨"or".toList, 0, 1, 1, 2⟩).1 = token_create .tIdentifier (some "or") 1 3
  unfold scan_identifier
  rw [skip_ident_or]
  rfl

/-- C10: after whitespace skipping, a `&` scans as `TOKEN_AND` and a `|`
scans as `TOKEN_OR`; the spellings `and` and `or` are not keywords —
both scan as plain identifiers and `find_keyword` rejects them — and in
the parser's rule table `TOKEN_AND` and `TOKEN_OR` carry the logical-and
and logical-or infix parsers at their precedences. -/
theorem c10_theorem :
    (∀ s0 : Source, peek (start_token (skip_whitespace s0)) = '&' →
      (next_token s0).1.type = .tAnd) ∧
    (∀ s0 : Source, peek (start_token (skip_whitespace s0)) = '|' →
      (next_token s0).1.type = .tOr) ∧
    (next_token (source_create "and")).1.type = .tIdentifier ∧
    (next_token (source_create "and")).1.lexeme = some "and" ∧
    (next_token (source_create "or")).1.type = .tIdentifier ∧
    (next_token (source_create "or")).1.lexeme = some "or" ∧
    find_keyword (some "and") = none ∧
    find_keyword (some "or") = none ∧
    get_rule .tAnd = ⟨none, some .iAnd, PREC_AND⟩ ∧
    get_rule .tOr = ⟨none, some .iOr, PREC_OR⟩ := by
  refine ⟨next_token_amp, next_token_pipe, ?_, ?_, ?_, ?_, by decide, by decide, rfl, rfl⟩
  · rw [next_token_and_eval]
    rfl
  · rw [next_token_and_eval]
    rfl
  · rw [next_token_or_eval]
    rfl
  · rw [next_token_or_eval]
    rfl

/-- C10 witness: the theorem applied at the one-character sources `&`
and `|`. -/
theorem c10_witness :
    (next_token (source_create "&")).1.type = .tAnd ∧
    (next_token (source_create "|")).1.type = .tOr :=
  ⟨c10_theorem.1 (source_create "&")
      (by simp only [skip_whitespace_nows (source_create "&") (by decide) (by decide) (by decide)]; rfl),
    c10_theorem.2.1 (source_create "|")
      (by simp only [skip_whitespace_nows (source_create "|") (by decide) (by decide) (by decide)]; rfl)⟩

/-- Modelled from the spec: the number of inline operand bytes each
opcode of the catalogue carries. -/
def op_operands (op : Nat) : Nat :=
  if op = OP_CONSTANT ∨ op = OP_GET_LOCAL ∨ op = OP_SET_LOCAL ∨ op = OP_GET_GLOBAL ∨
      op = OP_DEFINE_GLOBAL ∨ op = OP_SET_GLOBAL then 1
  else if op = OP_JUMP ∨ op = OP_JUMP_IF_FALSE ∨ op = OP_LOOP then 2
  else 0

/-- Modelled from the spec: the per-opcode stack-effect table (Δ = final −
initial top of stack). -/
def op_delta (op : Nat) : Int :=
  if op = OP_CONSTANT ∨ op = OP_NIL ∨ op = OP_GET_LOCAL ∨ op = OP_GET_GLOBAL then 1
  else if op = OP_POP ∨ op = OP_DEFINE_GLOBAL ∨ op = OP_PRINT then -1
  else if op = OP_EQUAL ∨ op = OP_GREATER ∨ op = OP_LESS ∨ op = OP_ADD ∨ op = OP_SUBTRACT ∨
      op = OP_MULTIPLY ∨ op = OP_DIVIDE ∨ op = OP_MODULUS ∨ op = OP_POWER then -1
  else 0

/-- The recursion of `seg_delta`, driven by a step counter that any bound
on the segment length satisfies. -/
def seg_delta_fuel : Nat → List Nat → Option Int
  | _, [] => some 0
  | 0, _ :: _ => none
  | n + 1, op :: rest =>
    if rest.length < op_operands op then none
    else
      match seg_delta_fuel n (rest.drop (op_operands op)) with
      | some d => some (op_delta op + d)
      | none => none

/-- Modelled from the spec: the net stack effect of an emitted bytecode
segment — the sum of the per-opcode Δ of the stack-effect table over the
segment's opcodes, skipping each opcode's inline operand bytes; `none`
when a trailing opcode's operands run past the end of the segment. -/
def seg_delta (l : List Nat) : Option Int :=
  seg_delta_fuel l.length l

theorem seg_delta_fuel_congr : ∀ (n m : Nat) (l : List Nat), l.length ≤ n → l.length ≤ m →
    seg_delta_fuel n l = seg_delta_fuel m l := by
  intro n
  induction n with
  | zero =>
    intro m l hn hm
    have : l = [] := List.length_eq_zero.mp (Nat.le_zero.mp hn)
    subst this
    cases m <;> rfl
  | succ n ih =>
    intro m l hn hm
    match l with
    | [] => cases m <;> rfl
    | op :: rest =>
      match m with
      | 0 => exact absurd hm (by simp)
      | m + 1 =>
        have hn' : rest.length ≤ n := by simp at hn; omega
        have hm' : rest.length ≤ m := by simp at hm; omega
        have hd : (rest.drop (op_operands op)).length ≤ rest.length := by
          rw [List.length_drop]
          omega
        simp only [seg_delta_fuel]
        rw [ih m (rest.drop (op_operands op)) (le_trans hd hn') (le_trans hd hm')]

theorem seg_delta_cons (op : Nat) (rest : List Nat) :
    seg_delta (op :: rest) =
      if rest.length < op_operands op then none
      else
        match seg_delta (rest.drop (op_operands op)) with
        | some d => some (op_delta op + d)
        | none => none := by
  show seg_delta_fuel (rest.length + 1) (op :: rest) = _
  simp only [seg_delta_fuel, seg_delta]
  rw [seg_delta_fuel_congr rest.length (rest.drop (op_operands op)).length
    (rest.drop (op_operands op)) (by rw [List.length_drop]; omega) (Nat.le_refl _)]

theorem seg_delta_append : ∀ (xs ys : List Nat) (d1 d2 : Int),
    seg_delta xs = some d1 → seg_delta ys = some d2 →
    seg_delta (xs ++ ys) = some (d1 + d2) := by
  suffices h : ∀ (n : Nat) (xs ys : List Nat) (d1 d2 : Int), xs.length ≤ n →
      seg_delta xs = some d1 → seg_delta ys = some d2 →
      seg_delta (xs ++ ys) = some (d1 + d2) by
    intro xs ys d1 d2 h1 h2
    exact h xs.length xs ys d1 d2 (Nat.le_refl _) h1 h2
  intro n
  induction n with
  | zero =>
    intro xs ys d1 d2 hlen h1 h2
    have hx : xs = [] := List.length_eq_zero.mp (Nat.le_zero.mp hlen)
    subst hx
    simp [seg_delta, seg_delta_fuel] at h1
    subst h1
    simpa using h2
  | succ n ih =>
    intro xs ys d1 d2 hlen h1 h2
    match xs with
    | [] =>
      simp [seg_delta, seg_delta_fuel] at h1
      subst h1
      simpa using h2
    | op :: rest =>
      rw [seg_delta_cons] at h1
      by_cases hop : rest.length < op_operands op
      · rw [if_pos hop] at h1
        simp at h1
      · rw [if_neg hop] at h1
        rcases hdr : seg_delta (rest.drop (op_operands op)) with _ | dr
        · rw [hdr] at h1
          simp at h1
        · rw [hdr] at h1
          simp at h1
          have hdlen : (rest.drop (op_operands op)).length ≤ n := by
            rw [List.length_drop]
            simp at hlen
            omega
          have hrec := ih (rest.drop (op_operands op)) ys dr d2 hdlen hdr h2
          have : (op :: rest) ++ ys = op :: (rest ++ ys) := rfl
          rw [this, seg_delta_cons]
          rw [if_neg (by simp; omega)]
          rw [List.drop_append_of_le_length (Nat.le_of_not_lt hop), hrec]
          rw [← h1]
          simp
          ring

theorem seg_delta_pops : ∀ (k : Nat), seg_delta (List.replicate k OP_POP) = some (-(k : Int)) := by
  intro k
  induction k with
  | zero => rfl
  | succ k ih =>
    rw [List.replicate_succ, seg_delta_cons]
    rw [if_neg (by simp [op_operands, OP_POP, OP_CONSTANT, OP_GET_LOCAL, OP_SET_LOCAL,
      OP_GET_GLOBAL, OP_DEFINE_GLOBAL, OP_SET_GLOBAL, OP_JUMP, OP_JUMP_IF_FALSE, OP_LOOP])]
    have hdrop : List.drop (op_operands OP_POP) (List.replicate k OP_POP) =
        List.replicate k OP_POP := by
      simp [op_operands, OP_POP, OP_CONSTANT, OP_GET_LOCAL, OP_SET_LOCAL,
        OP_GET_GLOBAL, OP_DEFINE_GLOBAL, OP_SET_GLOBAL, OP_JUMP, OP_JUMP_IF_FALSE, OP_LOOP]
    rw [hdrop, ih]
    simp [op_delta, OP_POP, OP_CONSTANT, OP_NIL, OP_GET_LOCAL, OP_GET_GLOBAL,
      OP_DEFINE_GLOBAL, OP_PRINT]

theorem set_append_len {α : Type} : ∀ (l1 l2 : List α) (k : Nat) (v : α),
    (l1 ++ l2).set (l1.length + k) v = l1 ++ l2.set k v := by
  intro l1
  induction l1 with
  | nil => intro l2 k v; simp
  | cons a l1 ih =>
    intro l2 k v
    have : (a :: l1).length + k = (l1.length + k) + 1 := by simp; omega
    rw [this]
    simp only [List.cons_append, List.set_cons_succ]
    rw [ih]

/-- `panic_mode` is only ever set together with `had_error`. -/
def pi_inv (st : CState) : Prop := st.panic_mode = true → st.had_error = true

/-- Every declared local sits at or below the current scope depth. -/
def locals_wf (st : CState) : Prop := ∀ l ∈ st.locals, l.depth ≤ st.scope_depth

theorem bool_mono_false {a b : Bool} (m : a = true → b = true) (hb : b = false) : a = false := by
  cases ha : a
  · rfl
  · rw [m ha] at hb
    cases hb

theorem errorC_code (m : String) (st : CState) : (errorC m st).code = st.code := by
  unfold errorC
  split <;> rfl

theorem errorC_locals (m : String) (st : CState) : (errorC m st).locals = st.locals := by
  unfold errorC
  split <;> rfl

theorem errorC_scope (m : String) (st : CState) :
    (errorC m st).scope_depth = st.scope_depth := by
  unfold errorC
  split <;> rfl

theorem errorC_he_mono (m : String) (st : CState) (h : st.had_error = true) :
    (errorC m st).had_error = true := by
  unfold errorC
  split
  · exact h
  · rfl

theorem errorC_pi (m : String) (st : CState) (h : pi_inv st) : pi_inv (errorC m st) := by
  unfold errorC
  split
  · exact h
  · intro _
    rfl

theorem errorC_he (m : String) (st : CState) (hpi : pi_inv st) :
    (errorC m st).had_error = true := by
  unfold errorC
  split
  · exact hpi (by assumption)
  · rfl
theorem advance_loop_aux_code : ∀ (l : List Token) (st : CState),
    (advance_loop_aux l st).code = st.code := by
  intro l
  induction l with
  | nil => intro st; rfl
  | cons t rest ih =>
    intro st
    simp only [advance_loop_aux]
    split
    · rfl
    · split
      · rw [ih, errorC_code]
      · rfl

theorem advance_loop_aux_locals : ∀ (l : List Token) (st : CState),
    (advance_loop_aux l st).locals = st.locals := by
  intro l
  induction l with
  | nil => intro st; rfl
  | cons t rest ih =>
    intro st
    simp only [advance_loop_aux]
    split
    · rfl
    · split
      · rw [ih, errorC_locals]
      · rfl

theorem advance_loop_aux_scope : ∀ (l : List Token) (st : CState),
    (advance_loop_aux l st).scope_depth = st.scope_depth := by
  intro l
  induction l with
  | nil => intro st; rfl
  | cons t rest ih =>
    intro st
    simp only [advance_loop_aux]
    split
    · rfl
    · split
      · rw [ih, errorC_scope]
      · rfl

theorem advance_loop_aux_he_mono : ∀ (l : List Token) (st : CState),
    st.had_error = true → (advance_loop_aux l st).had_error = true := by
  intro l
  induction l with
  | nil => intro st h; exact h
  | cons t rest ih =>
    intro st h
    simp only [advance_loop_aux]
    split
    · exact h
    · split
      · exact ih _ (errorC_he_mono _ _ h)
      · exact h

theorem advance_loop_aux_pi : ∀ (l : List Token) (st : CState),
    pi_inv st → pi_inv (advance_loop_aux l st) := by
  intro l
  induction l with
  | nil => intro st h; exact h
  | cons t rest ih =>
    intro st h
    simp only [advance_loop_aux]
    split
    · exact h
    · split
      · exact ih _ (errorC_pi _ _ h)
      · exact h

theorem advanceC_code (st : CState) : (advanceC st).code = st.code := by
  unfold advanceC advance_loop
  rw [advance_loop_aux_code]

theorem advanceC_locals (st : CState) : (advanceC st).locals = st.locals := by
  unfold advanceC advance_loop
  rw [advance_loop_aux_locals]

theorem advanceC_scope (st : CState) : (advanceC st).scope_depth = st.scope_depth := by
  unfold advanceC advance_loop
  rw [advance_loop_aux_scope]

theorem advanceC_he_mono (st : CState) (h : st.had_error = true) :
    (advanceC st).had_error = true := by
  unfold advanceC advance_loop
  exact advance_loop_aux_he_mono _ _ h

theorem advanceC_pi (st : CState) (h : pi_inv st) : pi_inv (advanceC st) := by
  unfold advanceC advance_loop
  exact advance_loop_aux_pi _ _ h

theorem matchC_code (t : TokenType) (st : CState) : (matchC t st).2.code = st.code := by
  unfold matchC
  split
  · exact advanceC_code st
  · rfl

theorem matchC_locals (t : TokenType) (st : CState) : (matchC t st).2.locals = st.locals := by
  unfold matchC
  split
  · exact advanceC_locals st
  · rfl

theorem matchC_scope (t : TokenType) (st : CState) :
    (matchC t st).2.scope_depth = st.scope_depth := by
  unfold matchC
  split
  · exact advanceC_scope st
  · rfl

theorem matchC_he_mono (t : TokenType) (st : CState) (h : st.had_error = true) :
    (matchC t st).2.had_error = true := by
  unfold matchC
  split
  · exact advanceC_he_mono st h
  · exact h

theorem matchC_pi (t : TokenType) (st : CState) (h : pi_inv st) : pi_inv (matchC t st).2 := by
  unfold matchC
  split
  · exact advanceC_pi st h
  · exact h

theorem consume_code (t : TokenType) (m : String) (st : CState) :
    (consume t m st).code = st.code := by
  unfold consume
  split
  · exact advanceC_code st
  · exact errorC_code m st

theorem consume_locals (t : TokenType) (m : String) (st : CState) :
    (consume t m st).locals = st.locals := by
  unfold consume
  split
  · exact advanceC_locals st
  · exact errorC_locals m st

theorem consume_scope (t : TokenType) (m : String) (st : CState) :
    (consume t m st).scope_depth = st.scope_depth := by
  unfold consume
  split
  · exact advanceC_scope st
  · exact errorC_scope m st

theorem consume_he_mono (t : TokenType) (m : String) (st : CState) (h : st.had_error = true) :
    (consume t m st).had_error = true := by
  unfold consume
  split
  · exact advanceC_he_mono st h
  · exact errorC_he_mono m st h

theorem consume_pi (t : TokenType) (m : String) (st : CState) (h : pi_inv st) :
    pi_inv (consume t m st) := by
  unfold consume
  split
  · exact advanceC_pi st h
  · exact errorC_pi m st h

theorem emit_byte_code (b : Nat) (st : CState) : (emit_byte b st).code = st.code ++ [b] := rfl

theorem emit_byte_he (b : Nat) (st : CState) : (emit_byte b st).had_error = st.had_error := rfl

theorem emit_byte_panic (b : Nat) (st : CState) :
    (emit_byte b st).panic_mode = st.panic_mode := rfl

theorem emit_byte_locals2 (b : Nat) (st : CState) : (emit_byte b st).locals = st.locals := rfl

theorem emit_byte_scope (b : Nat) (st : CState) :
    (emit_byte b st).scope_depth = st.scope_depth := rfl

theorem emit_byte_pi (b : Nat) (st : CState) (h : pi_inv st) : pi_inv (emit_byte b st) := h

theorem emit_bytes_code (b1 b2 : Nat) (st : CState) :
    (emit_bytes b1 b2 st).code = st.code ++ [b1, b2] := by
  unfold emit_bytes
  rw [emit_byte_code, emit_byte_code]
  simp

theorem emit_bytes_he (b1 b2 : Nat) (st : CState) :
    (emit_bytes b1 b2 st).had_error = st.had_error := rfl

theorem emit_bytes_panic (b1 b2 : Nat) (st : CState) :
    (emit_bytes b1 b2 st).panic_mode = st.panic_mode := rfl

theorem emit_bytes_locals (b1 b2 : Nat) (st : CState) :
    (emit_bytes b1 b2 st).locals = st.locals := rfl

theorem emit_bytes_scope (b1 b2 : Nat) (st : CState) :
    (emit_bytes b1 b2 st).scope_depth = st.scope_depth := rfl

theorem emit_bytes_pi (b1 b2 : Nat) (st : CState) (h : pi_inv st) :
    pi_inv (emit_bytes b1 b2 st) := h

theorem emit_jump_snd (i : Nat) (st : CState) :
    (emit_jump i st).2.code = st.code ++ [i, 255, 255] ∧
    (emit_jump i st).1 = st.code.length + 1 ∧
    (emit_jump i st).2.had_error = st.had_error ∧
    (emit_jump i st).2.panic_mode = st.panic_mode ∧
    (emit_jump i st).2.locals = st.locals ∧
    (emit_jump i st).2.scope_depth = st.scope_depth := by
  unfold emit_jump
  refine ⟨by simp [emit_byte_code], by simp [emit_byte_code], rfl, rfl, rfl, rfl⟩
theorem patch_jump_he_mono (o : Nat) (st : CState) (h : st.had_error = true) :
    (patch_jump o st).had_error = true := by
  simp only [patch_jump]
  split
  · exact errorC_he_mono _ _ h
  · exact h

theorem patch_jump_pi (o : Nat) (st : CState) (h : pi_inv st) : pi_inv (patch_jump o st) := by
  unfold pi_inv
  simp only [patch_jump]
  split
  · exact errorC_pi _ _ h
  · exact h

theorem patch_jump_locals (o : Nat) (st : CState) : (patch_jump o st).locals = st.locals := by
  simp only [patch_jump]
  split
  · exact errorC_locals _ _
  · rfl

theorem patch_jump_scope (o : Nat) (st : CState) :
    (patch_jump o st).scope_depth = st.scope_depth := by
  simp only [patch_jump]
  split
  · exact errorC_scope _ _
  · rfl

theorem patch_jump_code (o : Nat) (st : CState) (pre tail : List Nat) (op x y : Nat)
    (hc : st.code = pre ++ op :: x :: y :: tail) (ho : o = pre.length + 1) :
    ∃ a b, (patch_jump o st).code = pre ++ op :: a :: b :: tail := by
  have hbase : (patch_jump o st).code =
      (st.code.set o ((st.code.length - o - 2) / 256 % 256)).set (o + 1)
        ((st.code.length - o - 2) % 256) := by
    simp only [patch_jump]
    split
    · rw [errorC_code]
    · rfl
  refine ⟨(st.code.length - o - 2) / 256 % 256, (st.code.length - o - 2) % 256, ?_⟩
  rw [hbase]
  generalize (st.code.length - o - 2) / 256 % 256 = A
  generalize (st.code.length - o - 2) % 256 = B
  rw [hc, ho]
  have e1 : pre ++ op :: x :: y :: tail = (pre ++ [op]) ++ x :: y :: tail := by simp
  have l1 : pre.length + 1 = (pre ++ [op]).length + 0 := by simp
  rw [e1, l1, set_append_len, List.set_cons_zero]
  have e2 : (pre ++ [op]) ++ A :: y :: tail = (pre ++ [op, A]) ++ y :: tail := by simp
  have l2 : (pre ++ [op]).length + 0 + 1 = (pre ++ [op, A]).length + 0 := by simp
  rw [e2, l2, set_append_len, List.set_cons_zero]
  simp

theorem emit_loop_spec (ls : Nat) (st : CState) :
    (∃ a b, (emit_loop ls st).code = st.code ++ [OP_LOOP, a, b]) ∧
    (st.had_error = true → (emit_loop ls st).had_error = true) ∧
    (pi_inv st → pi_inv (emit_loop ls st)) ∧
    (emit_loop ls st).locals = st.locals ∧
    (emit_loop ls st).scope_depth = st.scope_depth := by
  simp only [emit_loop]
  split
  · refine ⟨⟨((emit_byte OP_LOOP st).code.length - ls + 2) / 256 % 256,
      ((emit_byte OP_LOOP st).code.length - ls + 2) % 256, ?_⟩, ?_, ?_, ?_, ?_⟩
    · rw [emit_byte_code, emit_byte_code, errorC_code, emit_byte_code]
      simp
    · intro h
      rw [emit_byte_he, emit_byte_he]
      exact errorC_he_mono _ _ h
    · intro h
      have h2 := errorC_pi "Loop body too large" (emit_byte OP_LOOP st) h
      intro hp
      rw [emit_byte_he, emit_byte_he]
      rw [emit_byte_panic, emit_byte_panic] at hp
      exact h2 hp
    · rw [emit_byte_locals2, emit_byte_locals2, errorC_locals, emit_byte_locals2]
    · rw [emit_byte_scope, emit_byte_scope, errorC_scope, emit_byte_scope]
  · refine ⟨⟨((emit_byte OP_LOOP st).code.length - ls + 2) / 256 % 256,
      ((emit_byte OP_LOOP st).code.length - ls + 2) % 256, ?_⟩, ?_, ?_, rfl, rfl⟩
    · rw [emit_byte_code, emit_byte_code, emit_byte_code]
      simp
    · intro h
      exact h
    · intro h
      exact h

theorem make_constant_spec (o : Obj) (st : CState) :
    (make_constant o st).2.code = st.code ∧
    (st.had_error = true → (make_constant o st).2.had_error = true) ∧
    (pi_inv st → pi_inv (make_constant o st).2) ∧
    (make_constant o st).2.locals = st.locals ∧
    (make_constant o st).2.scope_depth = st.scope_depth := by
  simp only [make_constant, add_constant]
  by_cases hgt : st.constants.length > 255
  · rw [if_pos hgt]
    exact ⟨errorC_code _ _, fun h => errorC_he_mono _ _ h, fun h => errorC_pi _ _ h,
      errorC_locals _ _, errorC_scope _ _⟩
  · rw [if_neg hgt]
    exact ⟨rfl, fun h => h, fun h => h, rfl, rfl⟩

theorem identifier_constant_spec (tok : Token) (st : CState) :
    (identifier_constant tok st).2.code = st.code ∧
    (st.had_error = true → (identifier_constant tok st).2.had_error = true) ∧
    (pi_inv st → pi_inv (identifier_constant tok st).2) ∧
    (identifier_constant tok st).2.locals = st.locals ∧
    (identifier_constant tok st).2.scope_depth = st.scope_depth := by
  unfold identifier_constant
  exact make_constant_spec _ _

theorem resolve_local_spec (name : Token) (b : Bool) (st : CState) :
    (resolve_local name b st).2.code = st.code ∧
    (st.had_error = true → (resolve_local name b st).2.had_error = true) ∧
    (pi_inv st → pi_inv (resolve_local name b st).2) ∧
    (resolve_local name b st).2.locals = st.locals ∧
    (resolve_local name b st).2.scope_depth = st.scope_depth := by
  unfold resolve_local
  split
  · split
    · exact ⟨errorC_code _ _, fun h => errorC_he_mono _ _ h, fun h => errorC_pi _ _ h,
        errorC_locals _ _, errorC_scope _ _⟩
    · exact ⟨rfl, fun h => h, fun h => h, rfl, rfl⟩
  · exact ⟨rfl, fun h => h, fun h => h, rfl, rfl⟩

theorem add_local_basic (n : Token) (st : CState) :
    (add_local n st).code = st.code ∧
    (st.had_error = true → (add_local n st).had_error = true) ∧
    (pi_inv st → pi_inv (add_local n st)) ∧
    (add_local n st).scope_depth = st.scope_depth := by
  unfold add_local
  split
  · exact ⟨errorC_code _ _, fun h => errorC_he_mono _ _ h, fun h => errorC_pi _ _ h,
      errorC_scope _ _⟩
  · exact ⟨rfl, fun h => h, fun h => h, rfl⟩

theorem add_local_ok (n : Token) (st : CState) (hpi : pi_inv st)
    (h : (add_local n st).had_error = false) :
    add_local n st = { st with locals := st.locals ++ [⟨n, -1⟩] } := by
  unfold add_local at h ⊢
  by_cases hc : st.locals.length = LOCALS_MAX
  · rw [if_pos hc] at h
    rw [errorC_he _ _ hpi] at h
    cases h
  · rw [if_neg hc]

theorem declare_check_spec (name : Token) : ∀ (l : List Nat) (st : CState),
    (declare_check name st l).code = st.code ∧
    (declare_check name st l).locals = st.locals ∧
    (declare_check name st l).scope_depth = st.scope_depth ∧
    (st.had_error = true → (declare_check name st l).had_error = true) ∧
    (pi_inv st → pi_inv (declare_check name st l)) := by
  intro l
  induction l with
  | nil => intro st; exact ⟨rfl, rfl, rfl, fun h => h, fun h => h⟩
  | cons i rest ih =>
    intro st
    simp only [declare_check]
    split
    · exact ⟨rfl, rfl, rfl, fun h => h, fun h => h⟩
    · split
      · refine ⟨?_, ?_, ?_, ?_, ?_⟩
        · rw [(ih _).1, errorC_code]
        · rw [(ih _).2.1, errorC_locals]
        · rw [(ih _).2.2.1, errorC_scope]
        · intro h
          exact (ih _).2.2.2.1 (errorC_he_mono _ _ h)
        · intro h
          exact (ih _).2.2.2.2 (errorC_pi _ _ h)
      · exact ih st

theorem declare_variable_basic (st : CState) :
    (declare_variable st).code = st.code ∧
    (declare_variable st).scope_depth = st.scope_depth ∧
    (st.had_error = true → (declare_variable st).had_error = true) ∧
    (pi_inv st → pi_inv (declare_variable st)) := by
  simp only [declare_variable]
  split
  · exact ⟨rfl, rfl, fun h => h, fun h => h⟩
  · refine ⟨?_, ?_, ?_, ?_⟩
    · rw [(add_local_basic _ _).1,
        (declare_check_spec st.previous (List.range st.locals.length).reverse st).1]
    · rw [(add_local_basic _ _).2.2.2,
        (declare_check_spec st.previous (List.range st.locals.length).reverse st).2.2.1]
    · intro h
      exact (add_local_basic _ _).2.1
        ((declare_check_spec st.previous (List.range st.locals.length).reverse st).2.2.2.1 h)
    · intro h
      exact (add_local_basic _ _).2.2.1
        ((declare_check_spec st.previous (List.range st.locals.length).reverse st).2.2.2.2 h)

theorem declare_variable_locals (st : CState) (hpi : pi_inv st)
    (h : (declare_variable st).had_error = false) (hs : ¬ st.scope_depth = 0) :
    (declare_variable st).locals = st.locals ++ [⟨st.previous, -1⟩] := by
  simp only [declare_variable] at h ⊢
  rw [if_neg hs] at h ⊢
  have hpi2 := (declare_check_spec st.previous (List.range st.locals.length).reverse st).2.2.2.2 hpi
  have hfin := add_local_ok st.previous _ hpi2 h
  rw [hfin]
  simp only [(declare_check_spec st.previous (List.range st.locals.length).reverse st).2.1]

theorem mark_initialized_fields (st : CState) :
    (mark_initialized st).code = st.code ∧ (mark_initialized st).had_error = st.had_error ∧
    (mark_initialized st).panic_mode = st.panic_mode ∧
    (mark_initialized st).scope_depth = st.scope_depth := ⟨rfl, rfl, rfl, rfl⟩

theorem mark_initialized_locals (st : CState) (old : List LocalVar) (x : LocalVar)
    (h : st.locals = old ++ [x]) :
    (mark_initialized st).locals = old ++ [{ x with depth := st.scope_depth }] := by
  unfold mark_initialized
  simp only [h]
  have hlen : (old ++ [x]).length - 1 = old.length + 0 := by simp
  have hget : (old ++ [x]).getD (old.length + 0) no_local = x := by
    simp [List.getD_append_right]
  rw [hlen, hget, set_append_len, List.set_cons_zero]

theorem sync_loop_spec : ∀ (fuel : Nat) (st st' : CState), sync_loop fuel st = some st' →
    st'.code = st.code ∧ st'.locals = st.locals ∧ st'.scope_depth = st.scope_depth ∧
    (st.had_error = true → st'.had_error = true) ∧ (pi_inv st → pi_inv st') := by
  intro fuel
  induction fuel with
  | zero =>
    intro st st' h
    cases h
  | succ fuel ih =>
    intro st st' h
    simp only [sync_loop] at h
    split at h
    · split at h
      · injection h with h
        subst h
        exact ⟨rfl, rfl, rfl, fun h => h, fun h => h⟩
      · split at h
        · injection h with h
          subst h
          exact ⟨rfl, rfl, rfl, fun h => h, fun h => h⟩
        · have hr := ih _ _ h
          refine ⟨?_, ?_, ?_, ?_, ?_⟩
          · rw [hr.1, advanceC_code]
          · rw [hr.2.1, advanceC_locals]
          · rw [hr.2.2.1, advanceC_scope]
          · intro hh
            exact hr.2.2.2.1 (advanceC_he_mono _ hh)
          · intro hh
            exact hr.2.2.2.2 (advanceC_pi _ hh)
    · injection h with h
      subst h
      exact ⟨rfl, rfl, rfl, fun h => h, fun h => h⟩

theorem synchronize_spec (fuel : Nat) (st st' : CState) (h : synchronize fuel st = some st') :
    st'.code = st.code ∧ st'.locals = st.locals ∧ st'.scope_depth = st.scope_depth ∧
    (st.had_error = true → st'.had_error = true) ∧ pi_inv st' := by
  unfold synchronize at h
  have hr := sync_loop_spec _ _ _ h
  refine ⟨hr.1, hr.2.1, hr.2.2.1, fun hh => hr.2.2.2.1 hh, ?_⟩
  refine hr.2.2.2.2 ?_
  intro hp
  cases hp

theorem seg_delta_op0 (op : Nat) (h : op_operands op = 0) :
    seg_delta [op] = some (op_delta op) := by
  rw [seg_delta_cons, h]
  simp [seg_delta, seg_delta_fuel]

theorem seg_delta_op1 (op a : Nat) (h : op_operands op = 1) :
    seg_delta [op, a] = some (op_delta op) := by
  rw [seg_delta_cons, h]
  simp [seg_delta, seg_delta_fuel]

theorem seg_delta_op2 (op a b : Nat) (h : op_operands op = 2) :
    seg_delta [op, a, b] = some (op_delta op) := by
  rw [seg_delta_cons, h]
  simp [seg_delta, seg_delta_fuel]

theorem pfx_unary_cases (t : TokenType) (h : (get_rule t).pfx = some .pUnary) :
    t = .tBang ∨ t = .tMinus := by
  cases t <;> simp_all [get_rule]

theorem pfx_literal_cases (t : TokenType) (h : (get_rule t).pfx = some .pLiteral) :
    t = .tFalse ∨ t = .tNil ∨ t = .tTrue := by
  cases t <;> simp_all [get_rule]

theorem ifx_binary_cases (t : TokenType) (h : (get_rule t).ifx = some .iBinary) :
    t = .tPercent ∨ t = .tCaret ∨ t = .tMinus ∨ t = .tPlus ∨ t = .tSlash ∨ t = .tStar ∨
    t = .tBangEqual ∨ t = .tEqualEqual ∨ t = .tGreater ∨ t = .tGreaterEqual ∨
    t = .tLess ∨ t = .tLessEqual := by
  cases t <;> simp_all [get_rule]

theorem end_scope_pops_spec : ∀ (added old : List LocalVar) (st : CState),
    st.locals = old ++ added →
    (∀ l ∈ added, st.scope_depth < l.depth) →
    (∀ l ∈ old, l.depth ≤ st.scope_depth) →
    (end_scope_pops st).locals = old ∧
    (end_scope_pops st).code = st.code ++ List.replicate added.length OP_POP ∧
    (end_scope_pops st).had_error = st.had_error ∧
    (end_scope_pops st).panic_mode = st.panic_mode ∧
    (end_scope_pops st).scope_depth = st.scope_depth := by
  intro added
  induction added using List.reverseRecOn with
  | nil =>
    intro old st hloc _ hold
    rw [end_scope_pops]
    split
    · rename_i l heq
      rw [if_neg]
      · exact ⟨by simpa using hloc, by simp, rfl, rfl, rfl⟩
      · have hmem : l ∈ old := by
          simp only [List.append_nil] at hloc
          rw [hloc] at heq
          have hin : l ∈ old.getLast? := by simp [Option.mem_def, heq]
          obtain ⟨hne, hx⟩ := List.mem_getLast?_eq_getLast hin
          rw [hx]
          exact List.getLast_mem hne
        have := hold l hmem
        omega
    · exact ⟨by simpa using hloc, by simp, rfl, rfl, rfl⟩
  | append_singleton as a ih =>
    intro old st hloc hadd hold
    have hconc : st.locals = (old ++ as) ++ [a] := by rw [hloc]; simp
    rw [end_scope_pops]
    split
    · rename_i l heq
      rw [hconc, List.getLast?_concat] at heq
      injection heq with heq
      subst heq
      rw [if_pos (hadd _ (by simp))]
      have hst2 : ({ emit_byte OP_POP st with locals := st.locals.dropLast } : CState).locals =
          old ++ as := by
        simp only [hconc]
        simp [List.dropLast_concat]
      have hr := ih old { emit_byte OP_POP st with locals := st.locals.dropLast }
        hst2
        (by intro x hx; exact hadd x (by simp [hx]))
        (by intro x hx; exact hold x hx)
      refine ⟨hr.1, ?_, hr.2.2.1, hr.2.2.2.1, hr.2.2.2.2⟩
      rw [hr.2.1]
      show (emit_byte OP_POP st).code ++ _ = _
      rw [emit_byte_code]
      simp [List.replicate_succ, List.append_assoc]
    · rename_i heq
      rw [hconc, List.getLast?_concat] at heq
      cases heq

theorem end_scope_spec (st : CState) (old added : List LocalVar)
    (hloc : st.locals = old ++ added)
    (hadd : ∀ l ∈ added, st.scope_depth - 1 < l.depth)
    (hold : ∀ l ∈ old, l.depth ≤ st.scope_depth - 1) :
    (end_scope st).locals = old ∧
    (end_scope st).code = st.code ++ List.replicate added.length OP_POP ∧
    (end_scope st).had_error = st.had_error ∧
    (end_scope st).panic_mode = st.panic_mode ∧
    (end_scope st).scope_depth = st.scope_depth - 1 := by
  unfold end_scope
  exact end_scope_pops_spec added old { st with scope_depth := st.scope_depth - 1 }
    hloc hadd hold

/-- The invariant every expression-level parse function maintains: errors
persist, panic implies a recorded error, locals and scope are untouched,
and on an error-free run the emitted segment's static stack effect is
`+1`. -/
def ExprInv (st : CState) (r : Option CState) : Prop :=
  ∀ st', r = some st' →
    (st.had_error = true → st'.had_error = true) ∧
    (pi_inv st → pi_inv st') ∧
    st'.locals = st.locals ∧
    st'.scope_depth = st.scope_depth ∧
    (pi_inv st → st'.had_error = false →
      ∃ new, st'.code = st.code ++ new ∧ seg_delta new = some 1)

/-- As `ExprInv`, with net effect `0` (the infix half of an expression). -/
def ZeroInv (st : CState) (r : Option CState) : Prop :=
  ∀ st', r = some st' →
    (st.had_error = true → st'.had_error = true) ∧
    (pi_inv st → pi_inv st') ∧
    st'.locals = st.locals ∧
    st'.scope_depth = st.scope_depth ∧
    (pi_inv st → st'.had_error = false →
      ∃ new, st'.code = st.code ++ new ∧ seg_delta new = some 0)

/-- The invariant of a statement: locals and scope are restored, and the
emitted segment's static stack effect is `-n` for some count `n` (zero
for statements with no `if`/`while` inside). -/
def StmtInv (st : CState) (r : Option CState) : Prop :=
  ∀ st', r = some st' →
    (st.had_error = true → st'.had_error = true) ∧
    (pi_inv st → pi_inv st') ∧
    st'.scope_depth = st.scope_depth ∧
    (pi_inv st → locals_wf st → st'.had_error = false →
      st'.locals = st.locals ∧
      ∃ (new : List Nat) (n : Nat), st'.code = st.code ++ new ∧
        seg_delta new = some (-(n : Int)))

/-- As `StmtInv`, but with the emitted segment's static stack effect
pinned to exactly `0`: the invariant of `expression_statement` and
`print_statement`, whose code is an expression (`+1`) closed by one
popping opcode (`-1`). -/
def StmtInv0 (st : CState) (r : Option CState) : Prop :=
  ∀ st', r = some st' →
    (st.had_error = true → st'.had_error = true) ∧
    (pi_inv st → pi_inv st') ∧
    st'.scope_depth = st.scope_depth ∧
    (pi_inv st → locals_wf st → st'.had_error = false →
      st'.locals = st.locals ∧
      ∃ (new : List Nat), st'.code = st.code ++ new ∧
        seg_delta new = some 0)

/-- As `StmtInv`, but with the emitted segment's static stack effect
pinned to `-1 - n`: the invariant of `if_statement` and
`while_statement`, whose own contribution is exactly `-1` (the `OP_POP`
in both branches of the `OP_JUMP_IF_FALSE` is counted statically though
only one executes), on top of a deficit `-n` from the substatements. -/
def StmtInv1 (st : CState) (r : Option CState) : Prop :=
  ∀ st', r = some st' →
    (st.had_error = true → st'.had_error = true) ∧
    (pi_inv st → pi_inv st') ∧
    st'.scope_depth = st.scope_depth ∧
    (pi_inv st → locals_wf st → st'.had_error = false →
      st'.locals = st.locals ∧
      ∃ (new : List Nat) (n : Nat), st'.code = st.code ++ new ∧
        seg_delta new = some (-1 - (n : Int)))

theorem StmtInv0_weaken {st : CState} {r : Option CState} (h : StmtInv0 st r) :
    StmtInv st r := by
  intro st' hr
  obtain ⟨h1, h2, h3, h4⟩ := h st' hr
  refine ⟨h1, h2, h3, fun hp hl hf => ?_⟩
  obtain ⟨hloc, new, hcode, hd⟩ := h4 hp hl hf
  exact ⟨hloc, new, 0, hcode, by simpa using hd⟩

theorem StmtInv1_weaken {st : CState} {r : Option CState} (h : StmtInv1 st r) :
    StmtInv st r := by
  intro st' hr
  obtain ⟨h1, h2, h3, h4⟩ := h st' hr
  refine ⟨h1, h2, h3, fun hp hl hf => ?_⟩
  obtain ⟨hloc, new, n, hcode, hd⟩ := h4 hp hl hf
  refine ⟨hloc, new, n + 1, hcode, ?_⟩
  rw [hd]
  congr 1
  push_cast
  ring

/-- The invariant of a declaration (or of a block's declaration run): it
may append initialized locals of the current depth, and the emitted
segment's static stack effect is the number of locals it added minus a
statement count `n`. -/
def DeclInv (st : CState) (r : Option CState) : Prop :=
  ∀ st', r = some st' →
    (st.had_error = true → st'.had_error = true) ∧
    (pi_inv st → pi_inv st') ∧
    st'.scope_depth = st.scope_depth ∧
    (pi_inv st → locals_wf st → st'.had_error = false →
      ∃ new added n, st'.code = st.code ++ new ∧
        st'.locals = st.locals ++ added ∧
        (∀ l ∈ added, l.depth = st.scope_depth) ∧
        seg_delta new = some ((added.length : Int) - (n : Nat)))

theorem expression_step (fuel : Nat)
    (ihPP : ∀ (prec : Nat) (st : CState), ExprInv st (parse_precedence fuel prec st)) :
    ∀ (st : CState), ExprInv st (expression (fuel + 1) st) := by
  intro st st' h
  exact ihPP PREC_ASSIGNMENT st st' h

theorem print_statement_step (fuel : Nat)
    (ihE : ∀ (st : CState), ExprInv st (expression fuel st)) :
    ∀ (st : CState), StmtInv0 st (print_statement (fuel + 1) st) := by
  intro st st' h
  simp only [print_statement] at h
  rcases hE : expression fuel st with _ | st1
  · rw [hE] at h
    cases h
  · rw [hE] at h
    injection h with h
    subst h
    have hIE := ihE st st1 hE
    refine ⟨?_, ?_, ?_, ?_⟩
    · intro hhe
      show (consume .tSemicolon "Expect ';' after value." st1).had_error = true
      exact consume_he_mono _ _ _ (hIE.1 hhe)
    · intro hpi
      show pi_inv (consume .tSemicolon "Expect ';' after value." st1)
      exact consume_pi _ _ _ (hIE.2.1 hpi)
    · show (consume .tSemicolon "Expect ';' after value." st1).scope_depth = st.scope_depth
      rw [consume_scope, hIE.2.2.2.1]
    · intro hpi hlwf hfin
      rw [emit_byte_he] at hfin
      refine ⟨?_, ?_⟩
      · show (consume .tSemicolon "Expect ';' after value." st1).locals = st.locals
        rw [consume_locals, hIE.2.2.1]
      · have h1f : st1.had_error = false :=
          bool_mono_false (fun hh => consume_he_mono _ _ st1 hh) hfin
        obtain ⟨new, hcode, hdelta⟩ := hIE.2.2.2.2 hpi h1f
        refine ⟨new ++ [OP_PRINT], ?_, ?_⟩
        · rw [emit_byte_code, consume_code, hcode]
          simp
        · have hop0 : op_operands OP_PRINT = 0 := by decide
          have hopd : op_delta OP_PRINT = -1 := by decide
          have := seg_delta_append new [OP_PRINT] 1 (op_delta OP_PRINT) hdelta
            (seg_delta_op0 _ hop0)
          rw [hopd] at this
          simpa using this

theorem expression_statement_step (fuel : Nat)
    (ihE : ∀ (st : CState), ExprInv st (expression fuel st)) :
    ∀ (st : CState), StmtInv0 st (expression_statement (fuel + 1) st) := by
  intro st st' h
  simp only [expression_statement] at h
  rcases hE : expression fuel st with _ | st1
  · rw [hE] at h
    cases h
  · rw [hE] at h
    injection h with h
    subst h
    have hIE := ihE st st1 hE
    refine ⟨?_, ?_, ?_, ?_⟩
    · intro hhe
      show (consume .tSemicolon "Expect ';' after expression." (emit_byte OP_POP st1)).had_error = true
      exact consume_he_mono _ _ _ (hIE.1 hhe)
    · intro hpi
      show pi_inv (consume .tSemicolon "Expect ';' after expression." (emit_byte OP_POP st1))
      exact consume_pi _ _ _ (hIE.2.1 hpi)
    · show (consume .tSemicolon "Expect ';' after expression." (emit_byte OP_POP st1)).scope_depth =
        st.scope_depth
      rw [consume_scope, emit_byte_scope, hIE.2.2.2.1]
    · intro hpi hlwf hfin
      have h1f : st1.had_error = false :=
        bool_mono_false (fun hh => consume_he_mono .tSemicolon
          "Expect ';' after expression." (emit_byte OP_POP st1) hh) hfin
      obtain ⟨new, hcode, hdelta⟩ := hIE.2.2.2.2 hpi h1f
      refine ⟨?_, new ++ [OP_POP], ?_, ?_⟩
      · show (consume .tSemicolon "Expect ';' after expression." (emit_byte OP_POP st1)).locals =
          st.locals
        rw [consume_locals, emit_byte_locals2, hIE.2.2.1]
      · rw [consume_code, emit_byte_code, hcode]
        simp
      · have hop0 : op_operands OP_POP = 0 := by decide
        have hopd : op_delta OP_POP = -1 := by decide
        have := seg_delta_append new [OP_POP] 1 (op_delta OP_POP) hdelta
          (seg_delta_op0 _ hop0)
        rw [hopd] at this
        simpa using this

/-- A parser step that emits no bytecode and does not touch the scope:
only the token cursor, flags and constant pool may move. -/
def NoEmit (st st2 : CState) : Prop :=
  st2.code = st.code ∧ st2.locals = st.locals ∧ st2.scope_depth = st.scope_depth ∧
  (st.had_error = true → st2.had_error = true) ∧ (pi_inv st → pi_inv st2)

theorem NoEmit_refl (st : CState) : NoEmit st st :=
  ⟨rfl, rfl, rfl, fun h => h, fun h => h⟩

theorem NoEmit_trans {st1 st2 st3 : CState} (h1 : NoEmit st1 st2) (h2 : NoEmit st2 st3) :
    NoEmit st1 st3 :=
  ⟨h2.1.trans h1.1, h2.2.1.trans h1.2.1, h2.2.2.1.trans h1.2.2.1,
    fun h => h2.2.2.2.1 (h1.2.2.2.1 h), fun h => h2.2.2.2.2 (h1.2.2.2.2 h)⟩

theorem resolve_local_noemit (name : Token) (b : Bool) (st : CState) :
    NoEmit st (resolve_local name b st).2 :=
  ⟨(resolve_local_spec name b st).1, (resolve_local_spec name b st).2.2.2.1,
    (resolve_local_spec name b st).2.2.2.2,
    (resolve_local_spec name b st).2.1, (resolve_local_spec name b st).2.2.1⟩

theorem identifier_constant_noemit (tok : Token) (st : CState) :
    NoEmit st (identifier_constant tok st).2 :=
  ⟨(identifier_constant_spec tok st).1, (identifier_constant_spec tok st).2.2.2.1,
    (identifier_constant_spec tok st).2.2.2.2,
    (identifier_constant_spec tok st).2.1, (identifier_constant_spec tok st).2.2.1⟩

theorem matchC_noemit (t : TokenType) (st : CState) : NoEmit st (matchC t st).2 :=
  ⟨matchC_code t st, matchC_locals t st, matchC_scope t st,
    fun h => matchC_he_mono t st h, fun h => matchC_pi t st h⟩

theorem consume_noemit (t : TokenType) (m : String) (st : CState) :
    NoEmit st (consume t m st) :=
  ⟨consume_code t m st, consume_locals t m st, consume_scope t m st,
    fun h => consume_he_mono t m st h, fun h => consume_pi t m st h⟩

theorem advanceC_noemit (st : CState) : NoEmit st (advanceC st) :=
  ⟨advanceC_code st, advanceC_locals st, advanceC_scope st,
    fun h => advanceC_he_mono st h, fun h => advanceC_pi st h⟩

theorem errorC_noemit (m : String) (st : CState) : NoEmit st (errorC m st) :=
  ⟨errorC_code m st, errorC_locals m st, errorC_scope m st,
    fun h => errorC_he_mono m st h, fun h => errorC_pi m st h⟩

theorem ExprInv_emit2 (st stX : CState) (g o : Nat) (hne : NoEmit st stX)
    (hop : op_operands g = 1) (hd : op_delta g = 1) :
    (st.had_error = true → (emit_bytes g o stX).had_error = true) ∧
    (pi_inv st → pi_inv (emit_bytes g o stX)) ∧
    (emit_bytes g o stX).locals = st.locals ∧
    (emit_bytes g o stX).scope_depth = st.scope_depth ∧
    (pi_inv st → (emit_bytes g o stX).had_error = false →
      ∃ new, (emit_bytes g o stX).code = st.code ++ new ∧ seg_delta new = some 1) := by
  refine ⟨?_, ?_, ?_, ?_, ?_⟩
  · intro hh
    rw [emit_bytes_he]
    exact hne.2.2.2.1 hh
  · intro hpi
    exact hne.2.2.2.2 hpi
  · rw [emit_bytes_locals, hne.2.1]
  · rw [emit_bytes_scope, hne.2.2.1]
  · intro hpi hfin
    refine ⟨[g, o], ?_, ?_⟩
    · rw [emit_bytes_code, hne.1]
    · rw [seg_delta_op1 g o hop, hd]

theorem ExprInv_set_final (st st3 st4 : CState) (s o : Nat)
    (hne : NoEmit st st3)
    (hmono : st3.had_error = true → st4.had_error = true)
    (hpi4 : pi_inv st3 → pi_inv st4)
    (hloc : st4.locals = st3.locals) (hsc : st4.scope_depth = st3.scope_depth)
    (hcond : pi_inv st3 → st4.had_error = false →
      ∃ new, st4.code = st3.code ++ new ∧ seg_delta new = some 1)
    (hop : op_operands s = 1) (hd : op_delta s = 0) :
    (st.had_error = true → (emit_bytes s o st4).had_error = true) ∧
    (pi_inv st → pi_inv (emit_bytes s o st4)) ∧
    (emit_bytes s o st4).locals = st.locals ∧
    (emit_bytes s o st4).scope_depth = st.scope_depth ∧
    (pi_inv st → (emit_bytes s o st4).had_error = false →
      ∃ new, (emit_bytes s o st4).code = st.code ++ new ∧ seg_delta new = some 1) := by
  refine ⟨?_, ?_, ?_, ?_, ?_⟩
  · intro hh
    rw [emit_bytes_he]
    exact hmono (hne.2.2.2.1 hh)
  · intro hpi
    exact hpi4 (hne.2.2.2.2 hpi)
  · rw [emit_bytes_locals, hloc, hne.2.1]
  · rw [emit_bytes_scope, hsc, hne.2.2.1]
  · intro hpi hfin
    rw [emit_bytes_he] at hfin
    obtain ⟨new, hcode, hdelta⟩ := hcond (hne.2.2.2.2 hpi) hfin
    refine ⟨new ++ [s, o], ?_, ?_⟩
    · rw [emit_bytes_code, hcode, hne.1]
      simp
    · have := seg_delta_append new [s, o] 1 (op_delta s) hdelta (seg_delta_op1 s o hop)
      rw [hd] at this
      simpa using this

theorem named_variable_step (fuel : Nat)
    (ihE : ∀ (st : CState), ExprInv st (expression fuel st)) :
    ∀ (name : Token) (ca : Bool) (st : CState),
      ExprInv st (named_variable (fuel + 1) name ca st) := by
  intro name ca st st' h
  simp only [named_variable] at h
  rcases hrl : resolve_local name false st with ⟨arg0, st1⟩
  rw [hrl] at h
  have hne1 : NoEmit st st1 := by
    have := resolve_local_noemit name false st
    rw [hrl] at this
    exact this
  by_cases harg : arg0 = -1
  · rw [if_pos harg] at h
    rcases hic : identifier_constant name st1 with ⟨a, st2⟩
    rw [hic] at h
    have hne2 : NoEmit st st2 := by
      have := identifier_constant_noemit name st1
      rw [hic] at this
      exact NoEmit_trans hne1 this
    cases ca with
    | false =>
      simp only [reduceIte] at h
      injection h with h
      subst h
      exact ExprInv_emit2 st st2 OP_GET_GLOBAL a hne2 (by decide) (by decide)
    | true =>
      simp only [reduceIte] at h
      rcases hm : matchC .tEqual st2 with ⟨m, st3⟩
      rw [hm] at h
      have hne3 : NoEmit st st3 := by
        have := matchC_noemit .tEqual st2
        rw [hm] at this
        exact NoEmit_trans hne2 this
      cases m with
      | false =>
        simp only [reduceIte] at h
        injection h with h
        subst h
        exact ExprInv_emit2 st st3 OP_GET_GLOBAL a hne3 (by decide) (by decide)
      | true =>
        simp only [reduceIte] at h
        rcases hE : expression fuel st3 with _ | st4
        · rw [hE] at h
          cases h
        · rw [hE] at h
          injection h with h
          subst h
          have hIE := ihE st3 st4 hE
          exact ExprInv_set_final st st3 st4 OP_SET_GLOBAL a hne3 hIE.1 hIE.2.1
            hIE.2.2.1 hIE.2.2.2.1 hIE.2.2.2.2 (by decide) (by decide)
  · rw [if_neg harg] at h
    cases ca with
    | false =>
      simp only [reduceIte] at h
      injection h with h
      subst h
      exact ExprInv_emit2 st st1 OP_GET_LOCAL arg0.toNat hne1 (by decide) (by decide)
    | true =>
      simp only [reduceIte] at h
      rcases hm : matchC .tEqual st1 with ⟨m, st3⟩
      rw [hm] at h
      have hne3 : NoEmit st st3 := by
        have := matchC_noemit .tEqual st1
        rw [hm] at this
        exact NoEmit_trans hne1 this
      cases m with
      | false =>
        simp only [reduceIte] at h
        injection h with h
        subst h
        exact ExprInv_emit2 st st3 OP_GET_LOCAL arg0.toNat hne3 (by decide) (by decide)
      | true =>
        simp only [reduceIte] at h
        rcases hE : expression fuel st3 with _ | st4
        · rw [hE] at h
          cases h
        · rw [hE] at h
          injection h with h
          subst h
          have hIE := ihE st3 st4 hE
          exact ExprInv_set_final st st3 st4 OP_SET_LOCAL arg0.toNat hne3 hIE.1 hIE.2.1
            hIE.2.2.1 hIE.2.2.2.1 hIE.2.2.2.2 (by decide) (by decide)

theorem emit_constant_spec (o : Obj) (st : CState) :
    (st.had_error = true → (emit_constant o st).had_error = true) ∧
    (pi_inv st → pi_inv (emit_constant o st)) ∧
    (emit_constant o st).locals = st.locals ∧
    (emit_constant o st).scope_depth = st.scope_depth ∧
    ∃ b, (emit_constant o st).code = st.code ++ [OP_CONSTANT, b] := by
  simp only [emit_constant]
  rcases hmc : make_constant o st with ⟨b, st1⟩
  have hspec := make_constant_spec o st
  rw [hmc] at hspec
  refine ⟨?_, ?_, ?_, ?_, ⟨b, ?_⟩⟩
  · intro hh
    rw [emit_bytes_he]
    exact hspec.2.1 hh
  · intro hpi
    exact hspec.2.2.1 hpi
  · rw [emit_bytes_locals, hspec.2.2.2.1]
  · rw [emit_bytes_scope, hspec.2.2.2.2]
  · rw [emit_bytes_code, hspec.1]

theorem ExprInv_wrap (st st1 st2 : CState)
    (hmono : st.had_error = true → st1.had_error = true)
    (hpi : pi_inv st → pi_inv st1)
    (hloc : st1.locals = st.locals) (hsc : st1.scope_depth = st.scope_depth)
    (hcond : pi_inv st → st1.had_error = false →
      ∃ new, st1.code = st.code ++ new ∧ seg_delta new = some 1)
    (hne : NoEmit st1 st2) :
    (st.had_error = true → st2.had_error = true) ∧ (pi_inv st → pi_inv st2) ∧
    st2.locals = st.locals ∧ st2.scope_depth = st.scope_depth ∧
    (pi_inv st → st2.had_error = false →
      ∃ new, st2.code = st.code ++ new ∧ seg_delta new = some 1) := by
  refine ⟨?_, ?_, ?_, ?_, ?_⟩
  · intro hh
    exact hne.2.2.2.1 (hmono hh)
  · intro hh
    exact hne.2.2.2.2 (hpi hh)
  · rw [hne.2.1, hloc]
  · rw [hne.2.2.1, hsc]
  · intro hp hfin
    have h1f : st1.had_error = false := bool_mono_false hne.2.2.2.1 hfin
    obtain ⟨new, hcode, hdelta⟩ := hcond hp h1f
    exact ⟨new, by rw [hne.1, hcode], hdelta⟩

theorem ExprInv_emit0_after (st st1 : CState) (b : Nat)
    (hmono : st.had_error = true → st1.had_error = true)
    (hpi : pi_inv st → pi_inv st1)
    (hloc : st1.locals = st.locals) (hsc : st1.scope_depth = st.scope_depth)
    (hcond : pi_inv st → st1.had_error = false →
      ∃ new, st1.code = st.code ++ new ∧ seg_delta new = some 1)
    (hop : op_operands b = 0) (hd : op_delta b = 0) :
    (st.had_error = true → (emit_byte b st1).had_error = true) ∧
    (pi_inv st → pi_inv (emit_byte b st1)) ∧
    (emit_byte b st1).locals = st.locals ∧
    (emit_byte b st1).scope_depth = st.scope_depth ∧
    (pi_inv st → (emit_byte b st1).had_error = false →
      ∃ new, (emit_byte b st1).code = st.code ++ new ∧ seg_delta new = some 1) := by
  refine ⟨?_, ?_, ?_, ?_, ?_⟩
  · intro hh
    rw [emit_byte_he]
    exact hmono hh
  · intro hh
    exact hpi hh
  · rw [emit_byte_locals2, hloc]
  · rw [emit_byte_scope, hsc]
  · intro hp hfin
    rw [emit_byte_he] at hfin
    obtain ⟨new, hcode, hdelta⟩ := hcond hp hfin
    refine ⟨new ++ [b], ?_, ?_⟩
    · rw [emit_byte_code, hcode]
      simp
    · have := seg_delta_append new [b] 1 (op_delta b) hdelta (seg_delta_op0 b hop)
      rw [hd] at this
      simpa using this

theorem ExprInv_emit_constant (st : CState) (o : Obj) :
    (st.had_error = true → (emit_constant o st).had_error = true) ∧
    (pi_inv st → pi_inv (emit_constant o st)) ∧
    (emit_constant o st).locals = st.locals ∧
    (emit_constant o st).scope_depth = st.scope_depth ∧
    (pi_inv st → (emit_constant o st).had_error = false →
      ∃ new, (emit_constant o st).code = st.code ++ new ∧ seg_delta new = some 1) := by
  obtain ⟨h1, h2, h3, h4, b, h5⟩ := emit_constant_spec o st
  refine ⟨h1, h2, h3, h4, ?_⟩
  intro hp hfin
  refine ⟨[OP_CONSTANT, b], h5, ?_⟩
  rw [seg_delta_op1 OP_CONSTANT b (by decide)]
  norm_num [op_delta, OP_CONSTANT, OP_NIL, OP_GET_LOCAL, OP_GET_GLOBAL]

theorem run_prefix_step (fuel : Nat)
    (ihE : ∀ (st : CState), ExprInv st (expression fuel st))
    (ihPP : ∀ (prec : Nat) (st : CState), ExprInv st (parse_precedence fuel prec st))
    (ihNV : ∀ (name : Token) (ca : Bool) (st : CState),
      ExprInv st (named_variable fuel name ca st)) :
    ∀ (pf : PrefixFn) (ca : Bool) (st : CState), (get_rule st.previous.type).pfx = some pf →
      ExprInv st ( run_prefix (fuel + 1) pf ca st) := by
  intro pf ca st hrule st' h
  cases pf with
  | pGrouping =>
    simp only [ run_prefix] at h
    rcases hE : expression fuel st with _ | st1
    · rw [hE] at h
      cases h
    · rw [hE] at h
      injection h with h
      subst h
      have hIE := ihE st st1 hE
      exact ExprInv_wrap st st1 _ hIE.1 hIE.2.1 hIE.2.2.1 hIE.2.2.2.1 hIE.2.2.2.2
        (consume_noemit _ _ _)
  | pUnary =>
    simp only [ run_prefix] at h
    rcases hPP : parse_precedence fuel PREC_UNARY st with _ | st1
    · rw [hPP] at h
      cases h
    · rw [hPP] at h
      have hIP := ihPP PREC_UNARY st st1 hPP
      rcases pfx_unary_cases st.previous.type hrule with ht | ht <;> rw [ht] at h <;>
        simp only [reduceIte] at h <;>
        · injection h with h
          subst h
          exact ExprInv_emit0_after st st1 _ hIP.1 hIP.2.1 hIP.2.2.1 hIP.2.2.2.1
            hIP.2.2.2.2 (by decide) (by decide)
  | pVariable =>
    exact ihNV st.previous ca st st' h
  | pString =>
    simp only [ run_prefix] at h
    injection h with h
    subst h
    exact ExprInv_emit_constant st _
  | pInteger =>
    simp only [ run_prefix] at h
    injection h with h
    subst h
    exact ExprInv_emit_constant st _
  | pReal =>
    simp only [ run_prefix] at h
    injection h with h
    subst h
    exact ExprInv_emit_constant st _
  | pLiteral =>
    simp only [ run_prefix] at h
    rcases pfx_literal_cases st.previous.type hrule with ht | ht | ht <;> rw [ht] at h <;>
      simp only [reduceIte] at h <;>
      · injection h with h
        subst h
        exact ExprInv_emit_constant st _

theorem ZeroInv_emit0_after (st st1 : CState) (b : Nat)
    (hmono : st.had_error = true → st1.had_error = true)
    (hpi : pi_inv st → pi_inv st1)
    (hloc : st1.locals = st.locals) (hsc : st1.scope_depth = st.scope_depth)
    (hcond : pi_inv st → st1.had_error = false →
      ∃ new, st1.code = st.code ++ new ∧ seg_delta new = some 1)
    (hop : op_operands b = 0) (hd : op_delta b = -1) :
    (st.had_error = true → (emit_byte b st1).had_error = true) ∧
    (pi_inv st → pi_inv (emit_byte b st1)) ∧
    (emit_byte b st1).locals = st.locals ∧
    (emit_byte b st1).scope_depth = st.scope_depth ∧
    (pi_inv st → (emit_byte b st1).had_error = false →
      ∃ new, (emit_byte b st1).code = st.code ++ new ∧ seg_delta new = some 0) := by
  refine ⟨?_, ?_, ?_, ?_, ?_⟩
  · intro hh
    rw [emit_byte_he]
    exact hmono hh
  · intro hh
    exact hpi hh
  · rw [emit_byte_locals2, hloc]
  · rw [emit_byte_scope, hsc]
  · intro hp hfin
    rw [emit_byte_he] at hfin
    obtain ⟨new, hcode, hdelta⟩ := hcond hp hfin
    refine ⟨new ++ [b], ?_, ?_⟩
    · rw [emit_byte_code, hcode]
      simp
    · have := seg_delta_append new [b] 1 (op_delta b) hdelta (seg_delta_op0 b hop)
      rw [hd] at this
      simpa using this

theorem ZeroInv_emit00_after (st st1 : CState) (b1 b2 : Nat)
    (hmono : st.had_error = true → st1.had_error = true)
    (hpi : pi_inv st → pi_inv st1)
    (hloc : st1.locals = st.locals) (hsc : st1.scope_depth = st.scope_depth)
    (hcond : pi_inv st → st1.had_error = false →
      ∃ new, st1.code = st.code ++ new ∧ seg_delta new = some 1)
    (hop1 : op_operands b1 = 0) (hop2 : op_operands b2 = 0)
    (hd : op_delta b1 + op_delta b2 = -1) :
    (st.had_error = true → (emit_bytes b1 b2 st1).had_error = true) ∧
    (pi_inv st → pi_inv (emit_bytes b1 b2 st1)) ∧
    (emit_bytes b1 b2 st1).locals = st.locals ∧
    (emit_bytes b1 b2 st1).scope_depth = st.scope_depth ∧
    (pi_inv st → (emit_bytes b1 b2 st1).had_error = false →
      ∃ new, (emit_bytes b1 b2 st1).code = st.code ++ new ∧ seg_delta new = some 0) := by
  refine ⟨?_, ?_, ?_, ?_, ?_⟩
  · intro hh
    rw [emit_bytes_he]
    exact hmono hh
  · intro hh
    exact hpi hh
  · rw [emit_bytes_locals, hloc]
  · rw [emit_bytes_scope, hsc]
  · intro hp hfin
    rw [emit_bytes_he] at hfin
    obtain ⟨new, hcode, hdelta⟩ := hcond hp hfin
    refine ⟨new ++ [b1, b2], ?_, ?_⟩
    · rw [emit_bytes_code, hcode]
      simp
    · have hseg2 : seg_delta [b1, b2] = some (op_delta b1 + op_delta b2) := by
        have := seg_delta_append [b1] [b2] (op_delta b1) (op_delta b2)
          (seg_delta_op0 b1 hop1) (seg_delta_op0 b2 hop2)
        simpa using this
      have := seg_delta_append new [b1, b2] 1 _ hdelta hseg2
      rw [hd] at this
      simpa using this

theorem run_infix_step (fuel : Nat)
    (ihPP : ∀ (prec : Nat) (st : CState), ExprInv st (parse_precedence fuel prec st)) :
    ∀ (inf : InfixFn) (st : CState), (get_rule st.previous.type).ifx = some inf →
      ZeroInv st ( run_infix (fuel + 1) inf st) := by
  intro inf st hrule st' h
  cases inf with
  | iBinary =>
    simp only [ run_infix] at h
    rcases hPP : parse_precedence fuel ((get_rule st.previous.type).prec + 1) st with _ | st1
    · rw [hPP] at h
      cases h
    · rw [hPP] at h
      have hIP := ihPP _ st st1 hPP
      rcases ifx_binary_cases st.previous.type hrule with
        ht | ht | ht | ht | ht | ht | ht | ht | ht | ht | ht | ht <;> rw [ht] at h <;>
        simp only [reduceIte] at h <;>
        · injection h with h
          subst h
          first
          | exact ZeroInv_emit0_after st st1 _ hIP.1 hIP.2.1 hIP.2.2.1 hIP.2.2.2.1
              hIP.2.2.2.2 (by decide) (by decide)
          | exact ZeroInv_emit00_after st st1 _ _ hIP.1 hIP.2.1 hIP.2.2.1 hIP.2.2.2.1
              hIP.2.2.2.2 (by decide) (by decide) (by decide)
  | iAnd =>
    simp only [ run_infix] at h
    rcases hj : emit_jump OP_JUMP_IF_FALSE st with ⟨ej, st1⟩
    rw [hj] at h
    have hjs := emit_jump_snd OP_JUMP_IF_FALSE st
    rw [hj] at hjs
    have hc1 : st1.code = st.code ++ [OP_JUMP_IF_FALSE, 255, 255] := hjs.1
    have ho1 : ej = st.code.length + 1 := hjs.2.1
    have he1 : st1.had_error = st.had_error := hjs.2.2.1
    have hp1 : st1.panic_mode = st.panic_mode := hjs.2.2.2.1
    have hl1 : st1.locals = st.locals := hjs.2.2.2.2.1
    have hs1 : st1.scope_depth = st.scope_depth := hjs.2.2.2.2.2
    rcases hPP : parse_precedence fuel PREC_AND (emit_byte OP_POP st1) with _ | st3
    · rw [hPP] at h
      cases h
    · rw [hPP] at h
      injection h with h
      subst h
      have hIP := ihPP PREC_AND (emit_byte OP_POP st1) st3 hPP
      have hpp : pi_inv st → pi_inv (emit_byte OP_POP st1) := by
        intro hh hx
        rw [emit_byte_he, he1]
        rw [emit_byte_panic, hp1] at hx
        exact hh hx
      refine ⟨?_, ?_, ?_, ?_, ?_⟩
      · intro hh
        apply patch_jump_he_mono
        apply hIP.1
        rw [emit_byte_he, he1]
        exact hh
      · intro hh
        apply patch_jump_pi
        exact hIP.2.1 (hpp hh)
      · rw [patch_jump_locals, hIP.2.2.1, emit_byte_locals2, hl1]
      · rw [patch_jump_scope, hIP.2.2.2.1, emit_byte_scope, hs1]
      · intro hp hfin
        have h3f : st3.had_error = false :=
          bool_mono_false (patch_jump_he_mono ej st3) hfin
        obtain ⟨E, hcode3, hdelta⟩ := hIP.2.2.2.2 (hpp hp) h3f
        have hshape : st3.code = st.code ++ OP_JUMP_IF_FALSE :: 255 :: 255 :: ([OP_POP] ++ E) := by
          rw [hcode3, emit_byte_code, hc1]
          simp
        obtain ⟨a, b, hpatched⟩ := patch_jump_code ej st3 st.code ([OP_POP] ++ E)
          OP_JUMP_IF_FALSE 255 255 hshape ho1
        refine ⟨OP_JUMP_IF_FALSE :: a :: b :: ([OP_POP] ++ E), hpatched, ?_⟩
        have hsa : seg_delta [OP_JUMP_IF_FALSE, a, b] = some 0 := by
          rw [seg_delta_op2 _ _ _ (by decide)]
          norm_num [op_delta, OP_JUMP_IF_FALSE, OP_CONSTANT, OP_NIL, OP_GET_LOCAL,
            OP_GET_GLOBAL, OP_POP, OP_DEFINE_GLOBAL, OP_PRINT, OP_EQUAL, OP_GREATER,
            OP_LESS, OP_ADD, OP_SUBTRACT, OP_MULTIPLY, OP_DIVIDE, OP_MODULUS, OP_POWER]
        have hsb : seg_delta [OP_POP] = some (-1) := by
          rw [seg_delta_op0 _ (by decide)]
          norm_num [op_delta, OP_POP, OP_CONSTANT, OP_NIL, OP_GET_LOCAL, OP_GET_GLOBAL,
            OP_DEFINE_GLOBAL, OP_PRINT]
        have h12 := seg_delta_append [OP_POP] E (-1) 1 hsb hdelta
        have hall := seg_delta_append [OP_JUMP_IF_FALSE, a, b] ([OP_POP] ++ E) 0 (-1 + 1)
          hsa h12
        simpa using hall
  | iOr =>
    simp only [ run_infix] at h
    rcases hj1 : emit_jump OP_JUMP_IF_FALSE st with ⟨ej, st1⟩
    rw [hj1] at h
    have hjs1 := emit_jump_snd OP_JUMP_IF_FALSE st
    rw [hj1] at hjs1
    have hc1 : st1.code = st.code ++ [OP_JUMP_IF_FALSE, 255, 255] := hjs1.1
    have ho1 : ej = st.code.length + 1 := hjs1.2.1
    have he1 : st1.had_error = st.had_error := hjs1.2.2.1
    have hp1 : st1.panic_mode = st.panic_mode := hjs1.2.2.2.1
    have hl1 : st1.locals = st.locals := hjs1.2.2.2.2.1
    have hsc1 : st1.scope_depth = st.scope_depth := hjs1.2.2.2.2.2
    rcases hj2 : emit_jump OP_JUMP st1 with ⟨ej2, st2⟩
    rw [hj2] at h
    have hjs2 := emit_jump_snd OP_JUMP st1
    rw [hj2] at hjs2
    have hc2 : st2.code = st1.code ++ [OP_JUMP, 255, 255] := hjs2.1
    have ho2 : ej2 = st1.code.length + 1 := hjs2.2.1
    have he2 : st2.had_error = st1.had_error := hjs2.2.2.1
    have hp2 : st2.panic_mode = st1.panic_mode := hjs2.2.2.2.1
    have hl2 : st2.locals = st1.locals := hjs2.2.2.2.2.1
    have hsc2 : st2.scope_depth = st1.scope_depth := hjs2.2.2.2.2.2
    rcases hPP : parse_precedence fuel PREC_OR
        (emit_byte OP_POP (patch_jump ej st2)) with _ | st5
    · rw [hPP] at h
      cases h
    · rw [hPP] at h
      injection h with h
      subst h
      have hIP := ihPP PREC_OR (emit_byte OP_POP (patch_jump ej st2)) st5 hPP
      have hpm : st.had_error = true →
          (emit_byte OP_POP (patch_jump ej st2)).had_error = true := by
        intro hh
        rw [emit_byte_he]
        apply patch_jump_he_mono
        rw [he2, he1]
        exact hh
      have hpp : pi_inv st → pi_inv (emit_byte OP_POP (patch_jump ej st2)) := by
        intro hh
        have hpi2 : pi_inv st2 := by
          intro hx
          rw [he2, he1]
          rw [hp2, hp1] at hx
          exact hh hx
        exact patch_jump_pi ej st2 hpi2
      refine ⟨?_, ?_, ?_, ?_, ?_⟩
      · intro hh
        apply patch_jump_he_mono
        exact hIP.1 (hpm hh)
      · intro hh
        apply patch_jump_pi
        exact hIP.2.1 (hpp hh)
      · rw [patch_jump_locals, hIP.2.2.1, emit_byte_locals2, patch_jump_locals, hl2, hl1]
      · rw [patch_jump_scope, hIP.2.2.2.1, emit_byte_scope, patch_jump_scope, hsc2, hsc1]
      · intro hp hfin
        have h5f : st5.had_error = false :=
          bool_mono_false (patch_jump_he_mono ej2 st5) hfin
        obtain ⟨E, hcode5, hdelta⟩ := hIP.2.2.2.2 (hpp hp) h5f
        have hshape2 : st2.code = st.code ++
            OP_JUMP_IF_FALSE :: 255 :: 255 :: [OP_JUMP, 255, 255] := by
          rw [hc2, hc1]
          simp
        obtain ⟨a, b, hpatch1⟩ := patch_jump_code ej st2 st.code [OP_JUMP, 255, 255]
          OP_JUMP_IF_FALSE 255 255 hshape2 ho1
        have hshape5 : st5.code = (st.code ++ [OP_JUMP_IF_FALSE, a, b]) ++
            OP_JUMP :: 255 :: 255 :: ([OP_POP] ++ E) := by
          rw [hcode5, emit_byte_code, hpatch1]
          simp
        have hoff2 : ej2 = (st.code ++ [OP_JUMP_IF_FALSE, a, b]).length + 1 := by
          rw [ho2, hc1]
          simp
        obtain ⟨c, d, hpatch2⟩ := patch_jump_code ej2 st5
          (st.code ++ [OP_JUMP_IF_FALSE, a, b]) ([OP_POP] ++ E) OP_JUMP 255 255
          hshape5 hoff2
        refine ⟨[OP_JUMP_IF_FALSE, a, b] ++ OP_JUMP :: c :: d :: ([OP_POP] ++ E), ?_, ?_⟩
        · rw [hpatch2]
          simp
        · have hsa : seg_delta [OP_JUMP_IF_FALSE, a, b] = some 0 := by
            rw [seg_delta_op2 _ _ _ (by decide)]
            norm_num [op_delta, OP_JUMP_IF_FALSE, OP_CONSTANT, OP_NIL, OP_GET_LOCAL,
              OP_GET_GLOBAL, OP_POP, OP_DEFINE_GLOBAL, OP_PRINT, OP_EQUAL, OP_GREATER,
              OP_LESS, OP_ADD, OP_SUBTRACT, OP_MULTIPLY, OP_DIVIDE, OP_MODULUS, OP_POWER]
          have hsb : seg_delta [OP_POP] = some (-1) := by
            rw [seg_delta_op0 _ (by decide)]
            norm_num [op_delta, OP_POP, OP_CONSTANT, OP_NIL, OP_GET_LOCAL, OP_GET_GLOBAL,
              OP_DEFINE_GLOBAL, OP_PRINT]
          have hsj : seg_delta [OP_JUMP, c, d] = some 0 := by
            rw [seg_delta_op2 _ _ _ (by decide)]
            norm_num [op_delta, OP_JUMP, OP_CONSTANT, OP_NIL, OP_GET_LOCAL,
              OP_GET_GLOBAL, OP_POP, OP_DEFINE_GLOBAL, OP_PRINT, OP_EQUAL, OP_GREATER,
              OP_LESS, OP_ADD, OP_SUBTRACT, OP_MULTIPLY, OP_DIVIDE, OP_MODULUS, OP_POWER]
          have h12 := seg_delta_append [OP_POP] E (-1) 1 hsb hdelta
          have h123 := seg_delta_append [OP_JUMP, c, d] ([OP_POP] ++ E) 0 (-1 + 1) hsj h12
          have hall := seg_delta_append [OP_JUMP_IF_FALSE, a, b]
            ([OP_JUMP, c, d] ++ ([OP_POP] ++ E)) 0 (0 + (-1 + 1)) hsa h123
          have heq : [OP_JUMP_IF_FALSE, a, b] ++ ([OP_JUMP, c, d] ++ ([OP_POP] ++ E)) =
              [OP_JUMP_IF_FALSE, a, b] ++ OP_JUMP :: c :: d :: ([OP_POP] ++ E) := by
            simp
          rw [heq] at hall
          simpa using hall

theorem infix_loop_step (fuel : Nat)
    (ihRI : ∀ (inf : InfixFn) (st : CState), (get_rule st.previous.type).ifx = some inf →
      ZeroInv st ( run_infix fuel inf st))
    (ihIL : ∀ (prec : Nat) (ca : Bool) (st : CState), ZeroInv st (infix_loop fuel prec ca st)) :
    ∀ (prec : Nat) (ca : Bool) (st : CState), ZeroInv st (infix_loop (fuel + 1) prec ca st) := by
  intro prec ca st st' h
  simp only [infix_loop] at h
  split at h
  · split at h
    · exact Option.noConfusion h
    · rename_i inf hri
      split at h
      · exact Option.noConfusion h
      · rename_i st2 hRI
        have hA := advanceC_noemit st
        have hI := ihRI inf (advanceC st) hri st2 hRI
        have hL := ihIL prec ca st2 st' h
        refine ⟨?_, ?_, ?_, ?_, ?_⟩
        · intro hh
          exact hL.1 (hI.1 (hA.2.2.2.1 hh))
        · intro hh
          exact hL.2.1 (hI.2.1 (hA.2.2.2.2 hh))
        · rw [hL.2.2.1, hI.2.2.1, hA.2.1]
        · rw [hL.2.2.2.1, hI.2.2.2.1, hA.2.2.1]
        · intro hp hfin
          have hpi1 := hA.2.2.2.2 hp
          have h2f : st2.had_error = false := bool_mono_false hL.1 hfin
          have hpi2 := hI.2.1 hpi1
          obtain ⟨n1, hc1, hd1⟩ := hI.2.2.2.2 hpi1 h2f
          obtain ⟨n2, hc2, hd2⟩ := hL.2.2.2.2 hpi2 hfin
          refine ⟨n1 ++ n2, ?_, ?_⟩
          · rw [hc2, hc1, hA.1]
            simp
          · have := seg_delta_append n1 n2 0 0 hd1 hd2
            simpa using this
  · injection h with h
    subst h
    exact ⟨fun h => h, fun h => h, rfl, rfl, fun hp hfin => ⟨[], by simp, rfl⟩⟩

theorem parse_precedence_step (fuel : Nat)
    (ihRP : ∀ (pf : PrefixFn) (ca : Bool) (st : CState),
      (get_rule st.previous.type).pfx = some pf → ExprInv st ( run_prefix fuel pf ca st))
    (ihIL : ∀ (prec : Nat) (ca : Bool) (st : CState), ZeroInv st (infix_loop fuel prec ca st))
    (ihE : ∀ (st : CState), ExprInv st (expression fuel st)) :
    ∀ (prec : Nat) (st : CState), ExprInv st (parse_precedence (fuel + 1) prec st) := by
  intro prec st st' h
  simp only [parse_precedence] at h
  split at h
  · injection h with h
    subst h
    have hA := advanceC_noemit st
    refine ⟨?_, ?_, ?_, ?_, ?_⟩
    · intro hh
      exact errorC_he_mono _ _ (hA.2.2.2.1 hh)
    · intro hh
      exact errorC_pi _ _ (hA.2.2.2.2 hh)
    · rw [errorC_locals, hA.2.1]
    · rw [errorC_scope, hA.2.2.1]
    · intro hp hfin
      rw [errorC_he _ _ (hA.2.2.2.2 hp)] at hfin
      cases hfin
  · rename_i pf hpf
    split at h
    · exact Option.noConfusion h
    · rename_i st2 hRP
      split at h
      · exact Option.noConfusion h
      · rename_i st3 hIL
        have hA := advanceC_noemit st
        have hP := ihRP pf _ (advanceC st) hpf st2 hRP
        have hL := ihIL prec _ st2 st3 hIL
        have hmono123 : st.had_error = true → st3.had_error = true := fun hh =>
          hL.1 (hP.1 (hA.2.2.2.1 hh))
        have hpi123 : pi_inv st → pi_inv st3 := fun hh =>
          hL.2.1 (hP.2.1 (hA.2.2.2.2 hh))
        have hloc123 : st3.locals = st.locals := by
          rw [hL.2.2.1, hP.2.2.1, hA.2.1]
        have hsc123 : st3.scope_depth = st.scope_depth := by
          rw [hL.2.2.2.1, hP.2.2.2.1, hA.2.2.1]
        have hcond123 : pi_inv st → st3.had_error = false →
            ∃ new, st3.code = st.code ++ new ∧ seg_delta new = some 1 := by
          intro hp hfin
          have hpi1 := hA.2.2.2.2 hp
          have h2f : st2.had_error = false := bool_mono_false hL.1 hfin
          obtain ⟨n1, hc1, hd1⟩ := hP.2.2.2.2 hpi1 h2f
          obtain ⟨n2, hc2, hd2⟩ := hL.2.2.2.2 (hP.2.1 hpi1) hfin
          refine ⟨n1 ++ n2, ?_, ?_⟩
          · rw [hc2, hc1, hA.1]
            simp
          · have := seg_delta_append n1 n2 1 0 hd1 hd2
            simpa using this
        split at h
        · rcases hm : matchC .tEqual st3 with ⟨m, st4⟩
          rw [hm] at h
          have hne4 : NoEmit st3 st4 := by
            have := matchC_noemit .tEqual st3
            rw [hm] at this
            exact this
          cases m with
          | false =>
            simp only [reduceIte] at h
            injection h with h
            subst h
            exact ExprInv_wrap st st3 st4
              hmono123 hpi123 hloc123 hsc123 hcond123 hne4
          | true =>
            simp only [reduceIte] at h
            have hIE := ihE (errorC "Invalid assignment target." st4) st' h
            refine ⟨?_, ?_, ?_, ?_, ?_⟩
            · intro hh
              exact hIE.1 (errorC_he_mono _ _ (hne4.2.2.2.1 (hmono123 hh)))
            · intro hh
              exact hIE.2.1 (errorC_pi _ _ (hne4.2.2.2.2 (hpi123 hh)))
            · rw [hIE.2.2.1, errorC_locals, hne4.2.1, hloc123]
            · rw [hIE.2.2.2.1, errorC_scope, hne4.2.2.1, hsc123]
            · intro hp hfin
              have hpi4 : pi_inv st4 := hne4.2.2.2.2 (hpi123 hp)
              have hx : (errorC "Invalid assignment target." st4).had_error = true :=
                errorC_he _ _ hpi4
              rw [bool_mono_false hIE.1 hfin] at hx
              cases hx
        · injection h with h
          subst h
          exact ⟨hmono123, hpi123, hloc123, hsc123, hcond123⟩


theorem seg_jif (a b : Nat) : seg_delta [OP_JUMP_IF_FALSE, a, b] = some 0 := by
  rw [seg_delta_op2 _ _ _ (by decide)]
  norm_num [op_delta, OP_JUMP_IF_FALSE, OP_CONSTANT, OP_NIL, OP_GET_LOCAL,
    OP_GET_GLOBAL, OP_POP, OP_DEFINE_GLOBAL, OP_PRINT, OP_EQUAL, OP_GREATER,
    OP_LESS, OP_ADD, OP_SUBTRACT, OP_MULTIPLY, OP_DIVIDE, OP_MODULUS, OP_POWER]

theorem seg_jmp (a b : Nat) : seg_delta [OP_JUMP, a, b] = some 0 := by
  rw [seg_delta_op2 _ _ _ (by decide)]
  norm_num [op_delta, OP_JUMP, OP_CONSTANT, OP_NIL, OP_GET_LOCAL,
    OP_GET_GLOBAL, OP_POP, OP_DEFINE_GLOBAL, OP_PRINT, OP_EQUAL, OP_GREATER,
    OP_LESS, OP_ADD, OP_SUBTRACT, OP_MULTIPLY, OP_DIVIDE, OP_MODULUS, OP_POWER]

theorem seg_loop3 (a b : Nat) : seg_delta [OP_LOOP, a, b] = some 0 := by
  rw [seg_delta_op2 _ _ _ (by decide)]
  norm_num [op_delta, OP_LOOP, OP_CONSTANT, OP_NIL, OP_GET_LOCAL,
    OP_GET_GLOBAL, OP_POP, OP_DEFINE_GLOBAL, OP_PRINT, OP_EQUAL, OP_GREATER,
    OP_LESS, OP_ADD, OP_SUBTRACT, OP_MULTIPLY, OP_DIVIDE, OP_MODULUS, OP_POWER]

theorem seg_pop1 : seg_delta [OP_POP] = some (-1) := by
  rw [seg_delta_op0 _ (by decide)]
  norm_num [op_delta, OP_POP, OP_CONSTANT, OP_NIL, OP_GET_LOCAL, OP_GET_GLOBAL,
    OP_DEFINE_GLOBAL, OP_PRINT]

theorem locals_wf_transport {st st2 : CState} (h : locals_wf st)
    (hl : st2.locals = st.locals) (hs : st2.scope_depth = st.scope_depth) :
    locals_wf st2 := by
  intro l hl2
  rw [hl] at hl2
  rw [hs]
  exact h l hl2

theorem if_statement_step (fuel : Nat)
    (ihE : ∀ (st : CState), ExprInv st (expression fuel st))
    (ihS : ∀ (st : CState), StmtInv st (statement fuel st)) :
    ∀ (st : CState), StmtInv1 st (if_statement (fuel + 1) st) := by
  intro st st' h
  simp only [if_statement] at h
  split at h
  · exact Option.noConfusion h
  · rename_i stE hE
    rcases hj : emit_jump OP_JUMP_IF_FALSE
        (consume .tRightParen "Expect ')' after condition." stE) with ⟨ej, st3⟩
    rw [hj] at h
    split at h
    · exact Option.noConfusion h
    · rename_i stS hS
      rcases hj2 : emit_jump OP_JUMP stS with ⟨ej2, st5⟩
      rw [hj2] at h
      rcases hm : matchC .tElse (emit_byte OP_POP (patch_jump ej st5)) with ⟨m, st8⟩
      rw [hm] at h
      have hne1 : NoEmit st (consume .tLeftParen "Expect '(' after 'if'." st) :=
        consume_noemit _ _ _
      have hIE := ihE _ stE hE
      have hne2 : NoEmit stE (consume .tRightParen "Expect ')' after condition." stE) :=
        consume_noemit _ _ _
      have hjs := emit_jump_snd OP_JUMP_IF_FALSE
        (consume .tRightParen "Expect ')' after condition." stE)
      rw [hj] at hjs
      have hc3 : st3.code = (consume .tRightParen "Expect ')' after condition." stE).code ++
          [OP_JUMP_IF_FALSE, 255, 255] := hjs.1
      have ho1 : ej = (consume .tRightParen "Expect ')' after condition." stE).code.length + 1 :=
        hjs.2.1
      have he3 : st3.had_error =
          (consume .tRightParen "Expect ')' after condition." stE).had_error := hjs.2.2.1
      have hp3 : st3.panic_mode =
          (consume .tRightParen "Expect ')' after condition." stE).panic_mode := hjs.2.2.2.1
      have hl3 : st3.locals = stE.locals := by
        rw [hjs.2.2.2.2.1, hne2.2.1]
      have hs3 : st3.scope_depth = stE.scope_depth := by
        rw [hjs.2.2.2.2.2, hne2.2.2.1]
      have hIS := ihS (emit_byte OP_POP st3) stS hS
      have hjs2 := emit_jump_snd OP_JUMP stS
      rw [hj2] at hjs2
      have hc5 : st5.code = stS.code ++ [OP_JUMP, 255, 255] := hjs2.1
      have ho2 : ej2 = stS.code.length + 1 := hjs2.2.1
      have he5 : st5.had_error = stS.had_error := hjs2.2.2.1
      have hp5 : st5.panic_mode = stS.panic_mode := hjs2.2.2.2.1
      have hl5 : st5.locals = stS.locals := hjs2.2.2.2.2.1
      have hs5 : st5.scope_depth = stS.scope_depth := hjs2.2.2.2.2.2
      have hne8 : NoEmit (emit_byte OP_POP (patch_jump ej st5)) st8 := by
        have := matchC_noemit .tElse (emit_byte OP_POP (patch_jump ej st5))
        rw [hm] at this
        exact this
      have monoE : st.had_error = true → stE.had_error = true := fun hh =>
        hIE.1 (hne1.2.2.2.1 hh)
      have mono4 : st.had_error = true → (emit_byte OP_POP st3).had_error = true := by
        intro hh
        rw [emit_byte_he, he3]
        exact hne2.2.2.2.1 (monoE hh)
      have monoS : st.had_error = true → stS.had_error = true := fun hh => hIS.1 (mono4 hh)
      have monoS7 : stS.had_error = true →
          (emit_byte OP_POP (patch_jump ej st5)).had_error = true := by
        intro hh
        rw [emit_byte_he]
        apply patch_jump_he_mono
        rw [he5]
        exact hh
      have mono8 : st.had_error = true → st8.had_error = true := fun hh =>
        hne8.2.2.2.1 (monoS7 (monoS hh))
      have piE : pi_inv st → pi_inv stE := fun hh => hIE.2.1 (hne1.2.2.2.2 hh)
      have pi4 : pi_inv st → pi_inv (emit_byte OP_POP st3) := by
        intro hh hx
        rw [emit_byte_he, he3]
        rw [emit_byte_panic, hp3] at hx
        exact (hne2.2.2.2.2 (piE hh)) hx
      have piS : pi_inv st → pi_inv stS := fun hh => hIS.2.1 (pi4 hh)
      have pi7 : pi_inv st → pi_inv (emit_byte OP_POP (patch_jump ej st5)) := by
        intro hh hx
        rw [emit_byte_panic] at hx
        rw [emit_byte_he]
        refine (patch_jump_pi ej st5 ?_) hx
        intro hy
        rw [he5]
        rw [hp5] at hy
        exact (piS hh) hy
      have pi8 : pi_inv st → pi_inv st8 := fun hh => hne8.2.2.2.2 (pi7 hh)
      have scE : stE.scope_depth = st.scope_depth := by
        rw [hIE.2.2.2.1, hne1.2.2.1]
      have sc4 : (emit_byte OP_POP st3).scope_depth = st.scope_depth := by
        rw [emit_byte_scope, hs3, scE]
      have scS : stS.scope_depth = st.scope_depth := by
        rw [hIS.2.2.1, sc4]
      have sc8 : st8.scope_depth = st.scope_depth := by
        rw [hne8.2.2.1, emit_byte_scope, patch_jump_scope, hs5, scS]
      have hlE : stE.locals = st.locals := by
        rw [hIE.2.2.1, hne1.2.1]
      have hl4 : (emit_byte OP_POP st3).locals = st.locals := by
        rw [emit_byte_locals2, hl3, hlE]
      cases m with
      | false =>
        simp only [reduceIte] at h
        injection h with h
        subst h
        refine ⟨?_, ?_, ?_, ?_⟩
        · intro hh
          exact patch_jump_he_mono _ _ (mono8 hh)
        · intro hh
          exact patch_jump_pi _ _ (pi8 hh)
        · rw [patch_jump_scope, sc8]
        · intro hp hlwf hfin
          have h8f : st8.had_error = false :=
            bool_mono_false (patch_jump_he_mono ej2 st8) hfin
          have hSf : stS.had_error = false :=
            bool_mono_false (fun hh => hne8.2.2.2.1 (monoS7 hh)) h8f
          have h4f : (emit_byte OP_POP st3).had_error = false :=
            bool_mono_false hIS.1 hSf
          have hEf : stE.had_error = false :=
            bool_mono_false (fun hh => by
              rw [emit_byte_he, he3]
              exact hne2.2.2.2.1 hh) h4f
          obtain ⟨E, hcodeE, hdE⟩ := hIE.2.2.2.2 (hne1.2.2.2.2 hp) hEf
          have hcodeE2 : stE.code = st.code ++ E := by
            rw [hcodeE, hne1.1]
          obtain ⟨hlocS, S, n1, hcodeS, hdS⟩ :=
            hIS.2.2.2 (pi4 hp) (locals_wf_transport hlwf hl4 sc4) hSf
          have hshape5 : st5.code = (st.code ++ E) ++ OP_JUMP_IF_FALSE :: 255 :: 255 ::
              ([OP_POP] ++ S ++ [OP_JUMP, 255, 255]) := by
            rw [hc5, hcodeS, emit_byte_code, hc3, hne2.1, hcodeE2]
            simp
          have ho1' : ej = (st.code ++ E).length + 1 := by
            rw [ho1, hne2.1, hcodeE2]
          obtain ⟨a, b, hpatch1⟩ := patch_jump_code ej st5 (st.code ++ E)
            ([OP_POP] ++ S ++ [OP_JUMP, 255, 255]) OP_JUMP_IF_FALSE 255 255 hshape5 ho1'
          have hcode8 : st8.code = (st.code ++ E) ++ [OP_JUMP_IF_FALSE, a, b] ++
              [OP_POP] ++ S ++ [OP_JUMP, 255, 255] ++ [OP_POP] := by
            rw [hne8.1, emit_byte_code, hpatch1]
            simp
          have hshape8 : st8.code = (st.code ++ E ++ [OP_JUMP_IF_FALSE, a, b] ++
              [OP_POP] ++ S) ++ OP_JUMP :: 255 :: 255 :: [OP_POP] := by
            rw [hcode8]
            simp
          have hoff2 : ej2 = (st.code ++ E ++ [OP_JUMP_IF_FALSE, a, b] ++
              [OP_POP] ++ S).length + 1 := by
            rw [ho2, hcodeS, emit_byte_code, hc3, hne2.1, hcodeE2]
            simp
          obtain ⟨c, d, hpatch2⟩ := patch_jump_code ej2 st8
            (st.code ++ E ++ [OP_JUMP_IF_FALSE, a, b] ++ [OP_POP] ++ S)
            [OP_POP] OP_JUMP 255 255 hshape8 hoff2
          refine ⟨?_, ?_⟩
          · rw [patch_jump_locals, hne8.2.1, emit_byte_locals2, patch_jump_locals, hl5,
              hlocS, hl4]
          · refine ⟨E ++ [OP_JUMP_IF_FALSE, a, b] ++ [OP_POP] ++ S ++
              OP_JUMP :: c :: d :: [OP_POP], n1, ?_, ?_⟩
            · rw [hpatch2]
              simp
            · have h1 := seg_delta_append [OP_JUMP, c, d] [OP_POP] 0 (-1)
                (seg_jmp c d) seg_pop1
              have h2 := seg_delta_append S ([OP_JUMP, c, d] ++ [OP_POP])
                (-(n1 : Int)) (0 + -1) hdS h1
              have h3 := seg_delta_append [OP_POP]
                (S ++ ([OP_JUMP, c, d] ++ [OP_POP])) (-1) (-(n1 : Int) + (0 + -1))
                seg_pop1 h2
              have h4 := seg_delta_append [OP_JUMP_IF_FALSE, a, b]
                ([OP_POP] ++ (S ++ ([OP_JUMP, c, d] ++ [OP_POP]))) 0
                (-1 + (-(n1 : Int) + (0 + -1))) (seg_jif a b) h3
              have h5 := seg_delta_append E
                ([OP_JUMP_IF_FALSE, a, b] ++ ([OP_POP] ++ (S ++ ([OP_JUMP, c, d] ++ [OP_POP]))))
                1 (0 + (-1 + (-(n1 : Int) + (0 + -1)))) hdE h4
              have heq : E ++ ([OP_JUMP_IF_FALSE, a, b] ++
                  ([OP_POP] ++ (S ++ ([OP_JUMP, c, d] ++ [OP_POP])))) =
                  E ++ [OP_JUMP_IF_FALSE, a, b] ++ [OP_POP] ++ S ++
                  OP_JUMP :: c :: d :: [OP_POP] := by
                simp
              rw [heq] at h5
              rw [h5]
              congr 1
              push_cast
              ring
      | true =>
        simp only [reduceIte] at h
        split at h
        · exact Option.noConfusion h
        · rename_i stT hT
          injection h with h
          subst h
          have hIT := ihS st8 stT hT
          refine ⟨?_, ?_, ?_, ?_⟩
          · intro hh
            exact patch_jump_he_mono _ _ (hIT.1 (mono8 hh))
          · intro hh
            exact patch_jump_pi _ _ (hIT.2.1 (pi8 hh))
          · rw [patch_jump_scope, hIT.2.2.1, sc8]
          · intro hp hlwf hfin
            have hTf : stT.had_error = false :=
              bool_mono_false (patch_jump_he_mono ej2 stT) hfin
            have h8f : st8.had_error = false := bool_mono_false hIT.1 hTf
            have hSf : stS.had_error = false :=
              bool_mono_false (fun hh => hne8.2.2.2.1 (monoS7 hh)) h8f
            have h4f : (emit_byte OP_POP st3).had_error = false :=
              bool_mono_false hIS.1 hSf
            have hEf : stE.had_error = false :=
              bool_mono_false (fun hh => by
                rw [emit_byte_he, he3]
                exact hne2.2.2.2.1 hh) h4f
            obtain ⟨E, hcodeE, hdE⟩ := hIE.2.2.2.2 (hne1.2.2.2.2 hp) hEf
            have hcodeE2 : stE.code = st.code ++ E := by
              rw [hcodeE, hne1.1]
            obtain ⟨hlocS, S, n1, hcodeS, hdS⟩ :=
              hIS.2.2.2 (pi4 hp) (locals_wf_transport hlwf hl4 sc4) hSf
            have hl8 : st8.locals = st.locals := by
              rw [hne8.2.1, emit_byte_locals2, patch_jump_locals, hl5, hlocS, hl4]
            obtain ⟨hlocT, T, n2, hcodeT, hdT⟩ :=
              hIT.2.2.2 (pi8 hp) (locals_wf_transport hlwf hl8 sc8) hTf
            have hshape5 : st5.code = (st.code ++ E) ++ OP_JUMP_IF_FALSE :: 255 :: 255 ::
                ([OP_POP] ++ S ++ [OP_JUMP, 255, 255]) := by
              rw [hc5, hcodeS, emit_byte_code, hc3, hne2.1, hcodeE2]
              simp
            have ho1' : ej = (st.code ++ E).length + 1 := by
              rw [ho1, hne2.1, hcodeE2]
            obtain ⟨a, b, hpatch1⟩ := patch_jump_code ej st5 (st.code ++ E)
              ([OP_POP] ++ S ++ [OP_JUMP, 255, 255]) OP_JUMP_IF_FALSE 255 255 hshape5 ho1'
            have hcodeT2 : stT.code = (st.code ++ E ++ [OP_JUMP_IF_FALSE, a, b] ++
                [OP_POP] ++ S) ++ OP_JUMP :: 255 :: 255 :: ([OP_POP] ++ T) := by
              rw [hcodeT, hne8.1, emit_byte_code, hpatch1]
              simp
            have hoff2 : ej2 = (st.code ++ E ++ [OP_JUMP_IF_FALSE, a, b] ++
                [OP_POP] ++ S).length + 1 := by
              rw [ho2, hcodeS, emit_byte_code, hc3, hne2.1, hcodeE2]
              simp
            obtain ⟨c, d, hpatch2⟩ := patch_jump_code ej2 stT
              (st.code ++ E ++ [OP_JUMP_IF_FALSE, a, b] ++ [OP_POP] ++ S)
              ([OP_POP] ++ T) OP_JUMP 255 255 hcodeT2 hoff2
            refine ⟨?_, ?_⟩
            · rw [patch_jump_locals, hlocT, hl8]
            · refine ⟨E ++ [OP_JUMP_IF_FALSE, a, b] ++ [OP_POP] ++ S ++
                OP_JUMP :: c :: d :: ([OP_POP] ++ T), n1 + n2, ?_, ?_⟩
              · rw [hpatch2]
                simp
              · have h0 := seg_delta_append [OP_POP] T (-1) (-(n2 : Int)) seg_pop1 hdT
                have h1 := seg_delta_append [OP_JUMP, c, d] ([OP_POP] ++ T) 0
                  (-1 + -(n2 : Int)) (seg_jmp c d) h0
                have h2 := seg_delta_append S ([OP_JUMP, c, d] ++ ([OP_POP] ++ T))
                  (-(n1 : Int)) (0 + (-1 + -(n2 : Int))) hdS h1
                have h3 := seg_delta_append [OP_POP]
                  (S ++ ([OP_JUMP, c, d] ++ ([OP_POP] ++ T))) (-1)
                  (-(n1 : Int) + (0 + (-1 + -(n2 : Int)))) seg_pop1 h2
                have h4 := seg_delta_append [OP_JUMP_IF_FALSE, a, b]
                  ([OP_POP] ++ (S ++ ([OP_JUMP, c, d] ++ ([OP_POP] ++ T)))) 0
                  (-1 + (-(n1 : Int) + (0 + (-1 + -(n2 : Int))))) (seg_jif a b) h3
                have h5 := seg_delta_append E
                  ([OP_JUMP_IF_FALSE, a, b] ++
                    ([OP_POP] ++ (S ++ ([OP_JUMP, c, d] ++ ([OP_POP] ++ T))))) 1
                  (0 + (-1 + (-(n1 : Int) + (0 + (-1 + -(n2 : Int)))))) hdE h4
                have heq : E ++ ([OP_JUMP_IF_FALSE, a, b] ++
                    ([OP_POP] ++ (S ++ ([OP_JUMP, c, d] ++ ([OP_POP] ++ T))))) =
                    E ++ [OP_JUMP_IF_FALSE, a, b] ++ [OP_POP] ++ S ++
                    OP_JUMP :: c :: d :: ([OP_POP] ++ T) := by
                  simp
                rw [heq] at h5
                rw [h5]
                congr 1
                push_cast
                ring

theorem while_statement_step (fuel : Nat)
    (ihE : ∀ (st : CState), ExprInv st (expression fuel st))
    (ihS : ∀ (st : CState), StmtInv st (statement fuel st)) :
    ∀ (st : CState), StmtInv1 st (while_statement (fuel + 1) st) := by
  intro st st' h
  simp only [while_statement] at h
  split at h
  · exact Option.noConfusion h
  · rename_i stE hE
    rcases hj : emit_jump OP_JUMP_IF_FALSE
        (consume .tRightParen "Expect ')' after condition." stE) with ⟨xj, st3⟩
    rw [hj] at h
    split at h
    · exact Option.noConfusion h
    · rename_i stS hS
      injection h with h
      subst h
      have hne1 : NoEmit st (consume .tLeftParen "Expect '(' after 'while'." st) :=
        consume_noemit _ _ _
      have hIE := ihE _ stE hE
      have hne2 : NoEmit stE (consume .tRightParen "Expect ')' after condition." stE) :=
        consume_noemit _ _ _
      have hjs := emit_jump_snd OP_JUMP_IF_FALSE
        (consume .tRightParen "Expect ')' after condition." stE)
      rw [hj] at hjs
      have hc3 : st3.code = (consume .tRightParen "Expect ')' after condition." stE).code ++
          [OP_JUMP_IF_FALSE, 255, 255] := hjs.1
      have ho1 : xj = (consume .tRightParen "Expect ')' after condition." stE).code.length + 1 :=
        hjs.2.1
      have he3 : st3.had_error =
          (consume .tRightParen "Expect ')' after condition." stE).had_error := hjs.2.2.1
      have hp3 : st3.panic_mode =
          (consume .tRightParen "Expect ')' after condition." stE).panic_mode := hjs.2.2.2.1
      have hl3 : st3.locals = stE.locals := by
        rw [hjs.2.2.2.2.1, hne2.2.1]
      have hs3 : st3.scope_depth = stE.scope_depth := by
        rw [hjs.2.2.2.2.2, hne2.2.2.1]
      have hIS := ihS (emit_byte OP_POP st3) stS hS
      have hEL := emit_loop_spec st.code.length stS
      have monoE : st.had_error = true → stE.had_error = true := fun hh =>
        hIE.1 (hne1.2.2.2.1 hh)
      have mono4 : st.had_error = true → (emit_byte OP_POP st3).had_error = true := by
        intro hh
        rw [emit_byte_he, he3]
        exact hne2.2.2.2.1 (monoE hh)
      have monoS : st.had_error = true → stS.had_error = true := fun hh => hIS.1 (mono4 hh)
      have piE : pi_inv st → pi_inv stE := fun hh => hIE.2.1 (hne1.2.2.2.2 hh)
      have pi4 : pi_inv st → pi_inv (emit_byte OP_POP st3) := by
        intro hh hx
        rw [emit_byte_he, he3]
        rw [emit_byte_panic, hp3] at hx
        exact (hne2.2.2.2.2 (piE hh)) hx
      have piS : pi_inv st → pi_inv stS := fun hh => hIS.2.1 (pi4 hh)
      have scE : stE.scope_depth = st.scope_depth := by
        rw [hIE.2.2.2.1, hne1.2.2.1]
      have sc4 : (emit_byte OP_POP st3).scope_depth = st.scope_depth := by
        rw [emit_byte_scope, hs3, scE]
      have scS : stS.scope_depth = st.scope_depth := by
        rw [hIS.2.2.1, sc4]
      have hlE : stE.locals = st.locals := by
        rw [hIE.2.2.1, hne1.2.1]
      have hl4 : (emit_byte OP_POP st3).locals = st.locals := by
        rw [emit_byte_locals2, hl3, hlE]
      refine ⟨?_, ?_, ?_, ?_⟩
      · intro hh
        rw [emit_byte_he]
        exact patch_jump_he_mono _ _ (hEL.2.1 (monoS hh))
      · intro hh hx
        rw [emit_byte_he]
        rw [emit_byte_panic] at hx
        exact (patch_jump_pi _ _ (hEL.2.2.1 (piS hh))) hx
      · rw [emit_byte_scope, patch_jump_scope, hEL.2.2.2.2, scS]
      · intro hp hlwf hfin
        rw [emit_byte_he] at hfin
        have h5f : (emit_loop st.code.length stS).had_error = false :=
          bool_mono_false (patch_jump_he_mono _ _) hfin
        have hSf : stS.had_error = false := bool_mono_false hEL.2.1 h5f
        have h4f : (emit_byte OP_POP st3).had_error = false :=
          bool_mono_false hIS.1 hSf
        have hEf : stE.had_error = false :=
          bool_mono_false (fun hh => by
            rw [emit_byte_he, he3]
            exact hne2.2.2.2.1 hh) h4f
        obtain ⟨E, hcodeE, hdE⟩ := hIE.2.2.2.2 (hne1.2.2.2.2 hp) hEf
        have hcodeE2 : stE.code = st.code ++ E := by
          rw [hcodeE, hne1.1]
        obtain ⟨hlocS, S, n1, hcodeS, hdS⟩ :=
          hIS.2.2.2 (pi4 hp) (locals_wf_transport hlwf hl4 sc4) hSf
        obtain ⟨a, b, hc5⟩ := hEL.1
        have hshape5 : (emit_loop st.code.length stS).code = (st.code ++ E) ++
            OP_JUMP_IF_FALSE :: 255 :: 255 :: ([OP_POP] ++ S ++ [OP_LOOP, a, b]) := by
          rw [hc5, hcodeS, emit_byte_code, hc3, hne2.1, hcodeE2]
          simp
        have ho1' : xj = (st.code ++ E).length + 1 := by
          rw [ho1, hne2.1, hcodeE2]
        obtain ⟨p, q, hpatch⟩ := patch_jump_code xj (emit_loop st.code.length stS)
          (st.code ++ E) ([OP_POP] ++ S ++ [OP_LOOP, a, b]) OP_JUMP_IF_FALSE 255 255
          hshape5 ho1'
        refine ⟨?_, ?_⟩
        · rw [emit_byte_locals2, patch_jump_locals, hEL.2.2.2.1, hlocS, hl4]
        · refine ⟨E ++ [OP_JUMP_IF_FALSE, p, q] ++ [OP_POP] ++ S ++ [OP_LOOP, a, b] ++
            [OP_POP], n1, ?_, ?_⟩
          · rw [emit_byte_code, hpatch]
            simp
          · have h1 := seg_delta_append [OP_LOOP, a, b] [OP_POP] 0 (-1)
              (seg_loop3 a b) seg_pop1
            have h2 := seg_delta_append S ([OP_LOOP, a, b] ++ [OP_POP])
              (-(n1 : Int)) (0 + -1) hdS h1
            have h3 := seg_delta_append [OP_POP]
              (S ++ ([OP_LOOP, a, b] ++ [OP_POP])) (-1) (-(n1 : Int) + (0 + -1))
              seg_pop1 h2
            have h4 := seg_delta_append [OP_JUMP_IF_FALSE, p, q]
              ([OP_POP] ++ (S ++ ([OP_LOOP, a, b] ++ [OP_POP]))) 0
              (-1 + (-(n1 : Int) + (0 + -1))) (seg_jif p q) h3
            have h5 := seg_delta_append E
              ([OP_JUMP_IF_FALSE, p, q] ++ ([OP_POP] ++ (S ++ ([OP_LOOP, a, b] ++ [OP_POP]))))
              1 (0 + (-1 + (-(n1 : Int) + (0 + -1)))) hdE h4
            have heq : E ++ ([OP_JUMP_IF_FALSE, p, q] ++
                ([OP_POP] ++ (S ++ ([OP_LOOP, a, b] ++ [OP_POP])))) =
                E ++ [OP_JUMP_IF_FALSE, p, q] ++ [OP_POP] ++ S ++ [OP_LOOP, a, b] ++
                [OP_POP] := by
              simp
            rw [heq] at h5
            rw [h5]
            congr 1
            push_cast
            ring

theorem end_scope_pops_flags : ∀ (n : Nat) (st : CState), st.locals.length ≤ n →
    (end_scope_pops st).had_error = st.had_error ∧
    (end_scope_pops st).panic_mode = st.panic_mode ∧
    (end_scope_pops st).scope_depth = st.scope_depth := by
  intro n
  induction n with
  | zero =>
    intro st hlen
    rw [end_scope_pops]
    split
    · rename_i l heq
      have : st.locals = [] := List.length_eq_zero.mp (Nat.le_zero.mp hlen)
      rw [this] at heq
      cases heq
    · exact ⟨rfl, rfl, rfl⟩
  | succ n ih =>
    intro st hlen
    rw [end_scope_pops]
    split
    · rename_i l heq
      split
      · have hne : st.locals ≠ [] := by
          intro hc
          rw [hc] at heq
          cases heq
        have hrec := ih { emit_byte OP_POP st with locals := st.locals.dropLast } (by
          simp only [List.length_dropLast]
          have := List.length_pos.mpr hne
          omega)
        exact ⟨hrec.1, hrec.2.1, hrec.2.2⟩
      · exact ⟨rfl, rfl, rfl⟩
    · exact ⟨rfl, rfl, rfl⟩

theorem StmtInv_after_noemit {st st1 : CState} {r : Option CState}
    (hne : NoEmit st st1) (h : StmtInv st1 r) : StmtInv st r := by
  intro st' hr
  obtain ⟨h1, h2, h3, h4⟩ := h st' hr
  refine ⟨?_, ?_, ?_, ?_⟩
  · intro hh
    exact h1 (hne.2.2.2.1 hh)
  · intro hh
    exact h2 (hne.2.2.2.2 hh)
  · rw [h3, hne.2.2.1]
  · intro hp hlwf hfin
    obtain ⟨hloc, new, nn, hcode, hd⟩ := h4 (hne.2.2.2.2 hp)
      (locals_wf_transport hlwf hne.2.1 hne.2.2.1) hfin
    refine ⟨by rw [hloc, hne.2.1], new, nn, by rw [hcode, hne.1], hd⟩

theorem DeclInv_after_noemit {st st1 : CState} {r : Option CState}
    (hne : NoEmit st st1) (h : DeclInv st1 r) : DeclInv st r := by
  intro st' hr
  obtain ⟨h1, h2, h3, h4⟩ := h st' hr
  refine ⟨?_, ?_, ?_, ?_⟩
  · intro hh
    exact h1 (hne.2.2.2.1 hh)
  · intro hh
    exact h2 (hne.2.2.2.2 hh)
  · rw [h3, hne.2.2.1]
  · intro hp hlwf hfin
    obtain ⟨new, added, nn, hcode, hloc, hdep, hd⟩ := h4 (hne.2.2.2.2 hp)
      (locals_wf_transport hlwf hne.2.1 hne.2.2.1) hfin
    refine ⟨new, added, nn, by rw [hcode, hne.1], by rw [hloc, hne.2.1], ?_, hd⟩
    intro l hl
    rw [← hne.2.2.1]
    exact hdep l hl

theorem DeclInv_comp {st st1 : CState} {r : Option CState}
    (h1 : DeclInv st (some st1)) (h2 : DeclInv st1 r) : DeclInv st r := by
  intro st' hr
  obtain ⟨a1, a2, a3, a4⟩ := h1 st1 rfl
  obtain ⟨b1, b2, b3, b4⟩ := h2 st' hr
  refine ⟨fun hh => b1 (a1 hh), fun hh => b2 (a2 hh), by rw [b3, a3], ?_⟩
  intro hp hlwf hfin
  have h1f : st1.had_error = false := bool_mono_false b1 hfin
  obtain ⟨n1, ad1, k1, hc1, hl1, hdep1, hd1⟩ := a4 hp hlwf h1f
  have hlwf1 : locals_wf st1 := by
    intro l hl
    rw [hl1] at hl
    rw [a3]
    rcases List.mem_append.mp hl with hl | hl
    · exact hlwf l hl
    · rw [hdep1 l hl]
  obtain ⟨n2, ad2, k2, hc2, hl2, hdep2, hd2⟩ := b4 (a2 hp) hlwf1 hfin
  refine ⟨n1 ++ n2, ad1 ++ ad2, k1 + k2, ?_, ?_, ?_, ?_⟩
  · rw [hc2, hc1]
    simp
  · rw [hl2, hl1]
    simp
  · intro l hl
    rcases List.mem_append.mp hl with hl | hl
    · exact hdep1 l hl
    · rw [hdep2 l hl, a3]
  · have := seg_delta_append n1 n2 _ _ hd1 hd2
    rw [this]
    congr 1
    push_cast [List.length_append]
    ring

theorem DeclInv_noemit_result {st st1 : CState} (hne : NoEmit st st1) :
    (st.had_error = true → st1.had_error = true) ∧
    (pi_inv st → pi_inv st1) ∧
    st1.scope_depth = st.scope_depth ∧
    (pi_inv st → locals_wf st → st1.had_error = false →
      ∃ new added n, st1.code = st.code ++ new ∧
        st1.locals = st.locals ++ added ∧
        (∀ l ∈ added, l.depth = st.scope_depth) ∧
        seg_delta new = some ((added.length : Int) - (n : Nat))) := by
  refine ⟨hne.2.2.2.1, hne.2.2.2.2, hne.2.2.1, ?_⟩
  intro hp hlwf hfin
  refine ⟨[], [], 0, by rw [hne.1]; simp, by rw [hne.2.1]; simp, by simp, ?_⟩
  show seg_delta [] = _
  norm_num [seg_delta, seg_delta_fuel]

theorem brace_block_step (fuel : Nat)
    (ihD : ∀ (st : CState), DeclInv st (declaration fuel st))
    (ihBB : ∀ (st : CState), DeclInv st (brace_block fuel st)) :
    ∀ (st : CState), DeclInv st (brace_block (fuel + 1) st) := by
  intro st st' h
  simp only [brace_block] at h
  split at h
  · split at h
    · exact Option.noConfusion h
    · rename_i st1 hD
      exact DeclInv_comp (fun st2 h2 => ihD st st2 (hD.trans h2)) (ihBB st1) st' h
  · injection h with h
    subst h
    exact DeclInv_noemit_result (consume_noemit _ _ _)

theorem do_block_step (fuel : Nat)
    (ihD : ∀ (st : CState), DeclInv st (declaration fuel st))
    (ihDB : ∀ (st : CState), DeclInv st (do_block fuel st)) :
    ∀ (st : CState), DeclInv st (do_block (fuel + 1) st) := by
  intro st st' h
  simp only [do_block] at h
  split at h
  · split at h
    · exact Option.noConfusion h
    · rename_i st1 hD
      exact DeclInv_comp (fun st2 h2 => ihD st st2 (hD.trans h2)) (ihDB st1) st' h
  · injection h with h
    subst h
    exact DeclInv_noemit_result (consume_noemit _ _ _)

theorem var_declaration_step (fuel : Nat)
    (ihE : ∀ (st : CState), ExprInv st (expression fuel st)) :
    ∀ (st : CState), DeclInv st (var_declaration (fuel + 1) st) := by
  intro st st' h
  simp only [var_declaration] at h
  by_cases hsc : (consume .tIdentifier "Expect variable name." st).scope_depth = 0
  · rw [if_pos hsc] at h
    rcases hic : identifier_constant (consume .tIdentifier "Expect variable name." st).previous
        (consume .tIdentifier "Expect variable name." st) with ⟨g, st2⟩
    rw [hic] at h
    rcases hm : matchC .tEqual st2 with ⟨m, st3⟩
    rw [hm] at h
    split at h
    · exact Option.noConfusion h
    · rename_i st4 hif4
      have hne1 : NoEmit st (consume .tIdentifier "Expect variable name." st) :=
        consume_noemit _ _ _
      have hne2 : NoEmit st st2 := by
        have := identifier_constant_noemit
          (consume .tIdentifier "Expect variable name." st).previous
          (consume .tIdentifier "Expect variable name." st)
        rw [hic] at this
        exact NoEmit_trans hne1 this
      have hne3 : NoEmit st st3 := by
        have := matchC_noemit .tEqual st2
        rw [hm] at this
        exact NoEmit_trans hne2 this
      have hEx : (st3.had_error = true → st4.had_error = true) ∧
          (pi_inv st3 → pi_inv st4) ∧ st4.locals = st3.locals ∧
          st4.scope_depth = st3.scope_depth ∧
          (pi_inv st3 → st4.had_error = false →
            ∃ new, st4.code = st3.code ++ new ∧ seg_delta new = some 1) := by
        cases m with
        | true =>
          simp only [reduceIte] at hif4
          exact ihE st3 st4 hif4
        | false =>
          simp only [reduceIte] at hif4
          injection hif4 with hif4
          subst hif4
          refine ⟨fun hh => hh, fun hh => hh, rfl, rfl, ?_⟩
          intro hp hfin
          refine ⟨[OP_NIL], rfl, ?_⟩
          rw [seg_delta_op0 _ (by decide)]
          norm_num [op_delta, OP_NIL, OP_CONSTANT, OP_GET_LOCAL, OP_GET_GLOBAL]
      have hsc5 : (consume .tSemicolon "Expect ';' after variable declaration." st4).scope_depth
          = 0 := by
        rw [consume_scope, hEx.2.2.2.1, hne3.2.2.1, ← hne1.2.2.1]
        exact hsc
      rw [if_pos hsc5] at h
      injection h with h
      subst h
      have hne5 : NoEmit st4 (consume .tSemicolon "Expect ';' after variable declaration." st4) :=
        consume_noemit _ _ _
      refine ⟨?_, ?_, ?_, ?_⟩
      · intro hh
        rw [emit_bytes_he]
        exact hne5.2.2.2.1 (hEx.1 (hne3.2.2.2.1 hh))
      · intro hh
        exact hne5.2.2.2.2 (hEx.2.1 (hne3.2.2.2.2 hh))
      · rw [emit_bytes_scope, hne5.2.2.1, hEx.2.2.2.1, hne3.2.2.1]
      · intro hp hlwf hfin
        rw [emit_bytes_he] at hfin
        have h4f : st4.had_error = false := bool_mono_false hne5.2.2.2.1 hfin
        obtain ⟨E, hcodeE, hdE⟩ := hEx.2.2.2.2 (hne3.2.2.2.2 hp) h4f
        refine ⟨E ++ [OP_DEFINE_GLOBAL, g], [], 0, ?_, ?_, by simp, ?_⟩
        · rw [emit_bytes_code, hne5.1, hcodeE, hne3.1]
          simp
        · rw [emit_bytes_locals, hne5.2.1, hEx.2.2.1, hne3.2.1]
          simp
        · have := seg_delta_append E [OP_DEFINE_GLOBAL, g] 1 (op_delta OP_DEFINE_GLOBAL)
            hdE (seg_delta_op1 _ _ (by decide))
          have hd : op_delta OP_DEFINE_GLOBAL = -1 := by decide
          rw [hd] at this
          rw [this]
          norm_num
  · rw [if_neg hsc] at h
    rcases hm : matchC .tEqual (declare_variable (consume .tIdentifier "Expect variable name." st))
        with ⟨m, st3⟩
    rw [hm] at h
    split at h
    · exact Option.noConfusion h
    · rename_i st4 hif4
      have hne1 : NoEmit st (consume .tIdentifier "Expect variable name." st) :=
        consume_noemit _ _ _
      have hDV := declare_variable_basic (consume .tIdentifier "Expect variable name." st)
      have hne3 : NoEmit (declare_variable (consume .tIdentifier "Expect variable name." st))
          st3 := by
        have := matchC_noemit .tEqual
          (declare_variable (consume .tIdentifier "Expect variable name." st))
        rw [hm] at this
        exact this
      have hEx : (st3.had_error = true → st4.had_error = true) ∧
          (pi_inv st3 → pi_inv st4) ∧ st4.locals = st3.locals ∧
          st4.scope_depth = st3.scope_depth ∧
          (pi_inv st3 → st4.had_error = false →
            ∃ new, st4.code = st3.code ++ new ∧ seg_delta new = some 1) := by
        cases m with
        | true =>
          simp only [reduceIte] at hif4
          exact ihE st3 st4 hif4
        | false =>
          simp only [reduceIte] at hif4
          injection hif4 with hif4
          subst hif4
          refine ⟨fun hh => hh, fun hh => hh, rfl, rfl, ?_⟩
          intro hp hfin
          refine ⟨[OP_NIL], rfl, ?_⟩
          rw [seg_delta_op0 _ (by decide)]
          norm_num [op_delta, OP_NIL, OP_CONSTANT, OP_GET_LOCAL, OP_GET_GLOBAL]
      have hsc5 : ¬ (consume .tSemicolon "Expect ';' after variable declaration." st4).scope_depth
          = 0 := by
        rw [consume_scope, hEx.2.2.2.1, hne3.2.2.1, hDV.2.1]
        exact hsc
      rw [if_neg hsc5] at h
      injection h with h
      subst h
      have hne5 : NoEmit st4 (consume .tSemicolon "Expect ';' after variable declaration." st4) :=
        consume_noemit _ _ _
      refine ⟨?_, ?_, ?_, ?_⟩
      · intro hh
        rw [(mark_initialized_fields _).2.1]
        exact hne5.2.2.2.1 (hEx.1 (hne3.2.2.2.1 (hDV.2.2.1 (hne1.2.2.2.1 hh))))
      · intro hh hx
        rw [(mark_initialized_fields _).2.1]
        rw [(mark_initialized_fields _).2.2.1] at hx
        exact (hne5.2.2.2.2 (hEx.2.1 (hne3.2.2.2.2 (hDV.2.2.2 (hne1.2.2.2.2 hh))))) hx
      · rw [(mark_initialized_fields _).2.2.2, hne5.2.2.1, hEx.2.2.2.1, hne3.2.2.1,
          hDV.2.1, hne1.2.2.1]
      · intro hp hlwf hfin
        rw [(mark_initialized_fields _).2.1] at hfin
        have h4f : st4.had_error = false := bool_mono_false hne5.2.2.2.1 hfin
        have h3f : st3.had_error = false := bool_mono_false hEx.1 h4f
        have hDVf : (declare_variable (consume .tIdentifier "Expect variable name." st)).had_error
            = false := bool_mono_false hne3.2.2.2.1 h3f
        have hpi1 : pi_inv (consume .tIdentifier "Expect variable name." st) :=
          hne1.2.2.2.2 hp
        have hDVloc := declare_variable_locals _ hpi1 hDVf (by
          rw [hne1.2.2.1]
          intro hc
          rw [← hne1.2.2.1] at hc
          exact hsc hc)
        obtain ⟨E, hcodeE, hdE⟩ := hEx.2.2.2.2 (hne3.2.2.2.2 (hDV.2.2.2 hpi1)) h4f
        have hloc5 : (consume .tSemicolon "Expect ';' after variable declaration." st4).locals =
            st.locals ++ [⟨(consume .tIdentifier "Expect variable name." st).previous, -1⟩] := by
          rw [hne5.2.1, hEx.2.2.1, hne3.2.1, hDVloc, hne1.2.1]
        have hmark := mark_initialized_locals
          (consume .tSemicolon "Expect ';' after variable declaration." st4) st.locals
          ⟨(consume .tIdentifier "Expect variable name." st).previous, -1⟩ hloc5
        refine ⟨E,
          [⟨(consume .tIdentifier "Expect variable name." st).previous, st.scope_depth⟩],
          0, ?_, ?_, ?_, ?_⟩
        · rw [(mark_initialized_fields _).1, hne5.1, hcodeE, hne3.1, hDV.1, hne1.1]
        · rw [hmark]
          have : (consume .tSemicolon "Expect ';' after variable declaration." st4).scope_depth
              = st.scope_depth := by
            rw [hne5.2.2.1, hEx.2.2.2.1, hne3.2.2.1, hDV.2.1, hne1.2.2.1]
          rw [this]
        · intro l hl
          simp at hl
          rw [hl]
        · rw [hdE]
          norm_num

theorem end_scope_flags (st : CState) :
    (end_scope st).had_error = st.had_error ∧ (end_scope st).panic_mode = st.panic_mode ∧
    (end_scope st).scope_depth = st.scope_depth - 1 := by
  unfold end_scope
  have := end_scope_pops_flags
    ({ st with scope_depth := st.scope_depth - 1 } : CState).locals.length
    { st with scope_depth := st.scope_depth - 1 } (Nat.le_refl _)
  exact ⟨this.1, this.2.1, this.2.2⟩

theorem StmtInv_block {st st4 stB : CState} (hne : NoEmit st st4)
    (hIB : DeclInv (begin_scope st4) (some stB)) :
    (st.had_error = true → (end_scope stB).had_error = true) ∧
    (pi_inv st → pi_inv (end_scope stB)) ∧
    (end_scope stB).scope_depth = st.scope_depth ∧
    (pi_inv st → locals_wf st → (end_scope stB).had_error = false →
      (end_scope stB).locals = st.locals ∧
      ∃ (new : List Nat) (n : Nat), (end_scope stB).code = st.code ++ new ∧
        seg_delta new = some (-(n : Int))) := by
  obtain ⟨b1, b2, b3, b4⟩ := hIB stB rfl
  have hbs : (begin_scope st4).scope_depth = st4.scope_depth + 1 := rfl
  refine ⟨?_, ?_, ?_, ?_⟩
  · intro hh
    rw [(end_scope_flags stB).1]
    exact b1 (hne.2.2.2.1 hh)
  · intro hh hx
    rw [(end_scope_flags stB).1]
    rw [(end_scope_flags stB).2.1] at hx
    exact (b2 (hne.2.2.2.2 hh)) hx
  · rw [(end_scope_flags stB).2.2, b3, hbs, hne.2.2.1]
    ring
  · intro hp hlwf hfin
    rw [(end_scope_flags stB).1] at hfin
    have hlwf4 : locals_wf (begin_scope st4) := by
      intro l hl
      show l.depth ≤ st4.scope_depth + 1
      have hd4 : l.depth ≤ st4.scope_depth :=
        (locals_wf_transport hlwf hne.2.1 hne.2.2.1) l hl
      omega
    obtain ⟨new, added, n, hcB, hlB, hdepB, hdB⟩ := b4 (hne.2.2.2.2 hp) hlwf4 hfin
    have hes := end_scope_spec stB st4.locals added
      (by rw [hlB]; rfl)
      (by
        intro l hl
        rw [hdepB l hl, hbs, b3, hbs]
        omega)
      (by
        intro l hl
        rw [b3, hbs]
        have hd4 : l.depth ≤ st4.scope_depth :=
          (locals_wf_transport hlwf hne.2.1 hne.2.2.1) l hl
        omega)
    refine ⟨by rw [hes.1, hne.2.1], new ++ List.replicate added.length OP_POP, n, ?_, ?_⟩
    · rw [hes.2.1, hcB]
      show (begin_scope st4).code ++ new ++ _ = _
      rw [show (begin_scope st4).code = st4.code from rfl, hne.1]
      simp
    · have := seg_delta_append new (List.replicate added.length OP_POP)
        _ _ hdB (seg_delta_pops added.length)
      rw [this]
      congr 1
      ring

set_option maxHeartbeats 1000000 in
theorem statement_step (fuel : Nat)
    (ihIF : ∀ (st : CState), StmtInv1 st (if_statement fuel st))
    (ihPR : ∀ (st : CState), StmtInv0 st (print_statement fuel st))
    (ihWH : ∀ (st : CState), StmtInv1 st (while_statement fuel st))
    (ihBB : ∀ (st : CState), DeclInv st (brace_block fuel st))
    (ihDB : ∀ (st : CState), DeclInv st (do_block fuel st))
    (ihES : ∀ (st : CState), StmtInv0 st (expression_statement fuel st)) :
    ∀ (st : CState), StmtInv st (statement (fuel + 1) st) := by
  intro st st' h
  simp only [statement] at h
  rcases hm1 : matchC .tIf st with ⟨m1, st1⟩
  rw [hm1] at h
  have hne1 : NoEmit st st1 := by
    have := matchC_noemit .tIf st
    rw [hm1] at this
    exact this
  cases m1 with
  | true =>
    simp only [reduceIte] at h
    exact StmtInv_after_noemit hne1 (StmtInv1_weaken (ihIF st1)) st' h
  | false =>
    simp only [reduceIte] at h
    rcases hm2 : matchC .tPrint st1 with ⟨m2, st2⟩
    rw [hm2] at h
    have hne2 : NoEmit st st2 := by
      have := matchC_noemit .tPrint st1
      rw [hm2] at this
      exact NoEmit_trans hne1 this
    cases m2 with
    | true =>
      simp only [reduceIte] at h
      exact StmtInv_after_noemit hne2 (StmtInv0_weaken (ihPR st2)) st' h
    | false =>
      simp only [reduceIte] at h
      rcases hm3 : matchC .tWhile st2 with ⟨m3, st3⟩
      rw [hm3] at h
      have hne3 : NoEmit st st3 := by
        have := matchC_noemit .tWhile st2
        rw [hm3] at this
        exact NoEmit_trans hne2 this
      cases m3 with
      | true =>
        simp only [reduceIte] at h
        exact StmtInv_after_noemit hne3 (StmtInv1_weaken (ihWH st3)) st' h
      | false =>
        simp only [reduceIte] at h
        rcases hm4 : matchC .tLeftBrace st3 with ⟨m4, st4⟩
        rw [hm4] at h
        have hne4 : NoEmit st st4 := by
          have := matchC_noemit .tLeftBrace st3
          rw [hm4] at this
          exact NoEmit_trans hne3 this
        cases m4 with
        | true =>
          simp only [reduceIte] at h
          rcases hBB : brace_block fuel (begin_scope st4) with _ | stB
          · rw [hBB] at h
            exact Option.noConfusion h
          · rw [hBB] at h
            injection h with h
            subst h
            exact StmtInv_block hne4 (fun st2 h2 => ihBB (begin_scope st4) st2 (hBB.trans h2))
        | false =>
          simp only [reduceIte] at h
          rcases hm5 : matchC .tDo st4 with ⟨m5, st5⟩
          rw [hm5] at h
          have hne5 : NoEmit st st5 := by
            have := matchC_noemit .tDo st4
            rw [hm5] at this
            exact NoEmit_trans hne4 this
          cases m5 with
          | true =>
            simp only [reduceIte] at h
            rcases hDB : do_block fuel (begin_scope st5) with _ | stB
            · rw [hDB] at h
              exact Option.noConfusion h
            · rw [hDB] at h
              injection h with h
              subst h
              exact StmtInv_block hne5 (fun st2 h2 => ihDB (begin_scope st5) st2 (hDB.trans h2))
          | false =>
            simp only [reduceIte] at h
            exact StmtInv_after_noemit hne5 (StmtInv0_weaken (ihES st5)) st' h

theorem declaration_step (fuel : Nat)
    (ihVD : ∀ (st : CState), DeclInv st (var_declaration fuel st))
    (ihS : ∀ (st : CState), StmtInv st (statement fuel st)) :
    ∀ (st : CState), DeclInv st (declaration (fuel + 1) st) := by
  intro st st' h
  simp only [declaration] at h
  rcases hm : matchC .tVar st with ⟨m, st1⟩
  rw [hm] at h
  have hne1 : NoEmit st st1 := by
    have := matchC_noemit .tVar st
    rw [hm] at this
    exact this
  split at h
  · exact Option.noConfusion h
  · rename_i st2 hif2
    have hMid : (st1.had_error = true → st2.had_error = true) ∧
        (pi_inv st1 → pi_inv st2) ∧ st2.scope_depth = st1.scope_depth ∧
        (pi_inv st1 → locals_wf st1 → st2.had_error = false →
          ∃ new added n, st2.code = st1.code ++ new ∧
            st2.locals = st1.locals ++ added ∧
            (∀ l ∈ added, l.depth = st1.scope_depth) ∧
            seg_delta new = some ((added.length : Int) - (n : Nat))) := by
      cases m with
      | true =>
        simp only [reduceIte] at hif2
        exact ihVD st1 st2 hif2
      | false =>
        simp only [reduceIte] at hif2
        obtain ⟨s1, s2, s3, s4⟩ := ihS st1 st2 hif2
        refine ⟨s1, s2, s3, ?_⟩
        intro hp hlwf hfin
        obtain ⟨hloc, new, nn, hcode, hd⟩ := s4 hp hlwf hfin
        refine ⟨new, [], nn, hcode, by rw [hloc]; simp, by simp, ?_⟩
        rw [hd]
        norm_num
    split at h
    · rename_i hpm
      have hsync := synchronize_spec fuel st2 st' h
      refine ⟨?_, ?_, ?_, ?_⟩
      · intro hh
        exact hsync.2.2.2.1 (hMid.1 (hne1.2.2.2.1 hh))
      · intro hh
        exact fun hx => hsync.2.2.2.2 hx
      · rw [hsync.2.2.1, hMid.2.2.1, hne1.2.2.1]
      · intro hp hlwf hfin
        have h2t : st2.had_error = true := by
          have hpi2 : pi_inv st2 := hMid.2.1 (hne1.2.2.2.2 hp)
          exact hpi2 hpm
        rw [hsync.2.2.2.1 h2t] at hfin
        cases hfin
    · injection h with h
      subst h
      refine ⟨?_, ?_, ?_, ?_⟩
      · intro hh
        exact hMid.1 (hne1.2.2.2.1 hh)
      · intro hh
        exact hMid.2.1 (hne1.2.2.2.2 hh)
      · rw [hMid.2.2.1, hne1.2.2.1]
      · intro hp hlwf hfin
        obtain ⟨new, added, nn, hcode, hloc, hdep, hd⟩ := hMid.2.2.2 (hne1.2.2.2.2 hp)
          (locals_wf_transport hlwf hne1.2.1 hne1.2.2.1) hfin
        refine ⟨new, added, nn, by rw [hcode, hne1.1], by rw [hloc, hne1.2.1], ?_, hd⟩
        intro l hl
        rw [hdep l hl, hne1.2.2.1]

/-- The bundled invariant of the mutually recursive compiler functions, by
induction on the shared fuel. -/
theorem compiler_inv : ∀ (fuel : Nat),
    (∀ (prec : Nat) (st : CState), ExprInv st (parse_precedence fuel prec st)) ∧
    (∀ (prec : Nat) (ca : Bool) (st : CState), ZeroInv st (infix_loop fuel prec ca st)) ∧
    (∀ (pf : PrefixFn) (ca : Bool) (st : CState), (get_rule st.previous.type).pfx = some pf →
      ExprInv st ( run_prefix fuel pf ca st)) ∧
    (∀ (inf : InfixFn) (st : CState), (get_rule st.previous.type).ifx = some inf →
      ZeroInv st ( run_infix fuel inf st)) ∧
    (∀ (st : CState), ExprInv st (expression fuel st)) ∧
    (∀ (name : Token) (ca : Bool) (st : CState), ExprInv st (named_variable fuel name ca st)) ∧
    (∀ (st : CState), StmtInv st (statement fuel st)) ∧
    (∀ (st : CState), DeclInv st (declaration fuel st)) ∧
    (∀ (st : CState), DeclInv st (brace_block fuel st)) ∧
    (∀ (st : CState), DeclInv st (do_block fuel st)) ∧
    (∀ (st : CState), DeclInv st (var_declaration fuel st)) ∧
    (∀ (st : CState), StmtInv0 st (expression_statement fuel st)) ∧
    (∀ (st : CState), StmtInv1 st (if_statement fuel st)) ∧
    (∀ (st : CState), StmtInv1 st (while_statement fuel st)) ∧
    (∀ (st : CState), StmtInv0 st (print_statement fuel st)) := by
  intro fuel
  induction fuel with
  | zero =>
    refine ⟨?_, ?_, ?_, ?_, ?_, ?_, ?_, ?_, ?_, ?_, ?_, ?_, ?_, ?_, ?_⟩
    · intro prec st st' h
      exact Option.noConfusion h
    · intro prec ca st st' h
      exact Option.noConfusion h
    · intro pf ca st hr st' h
      exact Option.noConfusion h
    · intro inf st hr st' h
      exact Option.noConfusion h
    · intro st st' h
      exact Option.noConfusion h
    · intro name ca st st' h
      exact Option.noConfusion h
    · intro st st' h
      exact Option.noConfusion h
    · intro st st' h
      exact Option.noConfusion h
    · intro st st' h
      exact Option.noConfusion h
    · intro st st' h
      exact Option.noConfusion h
    · intro st st' h
      exact Option.noConfusion h
    · intro st st' h
      exact Option.noConfusion h
    · intro st st' h
      exact Option.noConfusion h
    · intro st st' h
      exact Option.noConfusion h
    · intro st st' h
      exact Option.noConfusion h
  | succ fuel ih =>
    obtain ⟨hPP, hIL, hRP, hRI, hE, hNV, hS, hD, hBB, hDB, hVD, hES, hIF, hWH, hPR⟩ := ih
    exact ⟨parse_precedence_step fuel hRP hIL hE,
      infix_loop_step fuel hRI hIL,
      run_prefix_step fuel hE hPP hNV,
      run_infix_step fuel hPP,
      expression_step fuel hPP,
      named_variable_step fuel hE,
      statement_step fuel hIF hPR hWH hBB hDB hES,
      declaration_step fuel hVD hS,
      brace_block_step fuel hD hBB,
      do_block_step fuel hD hDB,
      var_declaration_step fuel hE,
      expression_statement_step fuel hE,
      if_statement_step fuel hE hS,
      while_statement_step fuel hE hS,
      print_statement_step fuel hE⟩

theorem declaration_inv (fuel : Nat) (st : CState) : DeclInv st (declaration fuel st) :=
  (compiler_inv fuel).2.2.2.2.2.2.2.1 st

theorem statement_inv (fuel : Nat) (st : CState) : StmtInv st (statement fuel st) :=
  (compiler_inv fuel).2.2.2.2.2.2.1 st

theorem expression_inv (fuel : Nat) (st : CState) : ExprInv st (expression fuel st) :=
  (compiler_inv fuel).2.2.2.2.1 st

theorem expression_statement_inv (fuel : Nat) (st : CState) :
    StmtInv0 st (expression_statement fuel st) :=
  (compiler_inv fuel).2.2.2.2.2.2.2.2.2.2.2.1 st

theorem if_statement_inv (fuel : Nat) (st : CState) :
    StmtInv1 st (if_statement fuel st) :=
  (compiler_inv fuel).2.2.2.2.2.2.2.2.2.2.2.2.1 st

theorem while_statement_inv (fuel : Nat) (st : CState) :
    StmtInv1 st (while_statement fuel st) :=
  (compiler_inv fuel).2.2.2.2.2.2.2.2.2.2.2.2.2.1 st

theorem print_statement_inv (fuel : Nat) (st : CState) :
    StmtInv0 st (print_statement fuel st) :=
  (compiler_inv fuel).2.2.2.2.2.2.2.2.2.2.2.2.2.2 st

theorem decls_loop_inv : ∀ (fuel : Nat) (st : CState), DeclInv st (decls_loop fuel st) := by
  intro fuel
  induction fuel with
  | zero =>
    intro st st' h
    exact Option.noConfusion h
  | succ fuel ih =>
    intro st st' h
    simp only [decls_loop] at h
    split at h
    · exact Option.noConfusion h
    · rename_i st1 hD
      have h1 : DeclInv st (some st1) := fun s hs => declaration_inv fuel st s (hD.trans hs)
      split at h
      · exact h1 st' h
      · exact DeclInv_comp h1 (ih st1) st' h

theorem compile_result_had_error (fuel : Nat) (tokens : List Token) (b : Bool) (st : CState)
    (h : compile fuel tokens = some (b, st)) : b = !st.had_error := by
  simp only [compile] at h
  rcases hm : matchC .tEof (advanceC (init_cstate tokens)) with ⟨m, st1⟩
  rw [hm] at h
  rcases hd : (if m = true then some st1 else decls_loop fuel st1) with _ | st2
  · rw [hd] at h
    simp at h
  · rw [hd] at h
    simp at h
    rw [← h.2, h.1, Bool.not_not]

/-- The token stream of the program `1;` primed the way `compile` does. -/
def st_c6w : CState :=
  advanceC (init_cstate [⟨.tInteger, some "1", 1, 1⟩, ⟨.tSemicolon, none, 1, 2⟩,
    ⟨.tEof, none, 1, 3⟩])

def st_c6w2 : CState :=
  (statement 40 st_c6w).getD (init_cstate [])

/-- The token stream of the program `if (1) 2;`. -/
def c6_tokens : List Token :=
  [⟨.tIf, none, 1, 1⟩, ⟨.tLeftParen, none, 1, 4⟩, ⟨.tInteger, some "1", 1, 5⟩,
   ⟨.tRightParen, none, 1, 6⟩, ⟨.tInteger, some "2", 1, 8⟩, ⟨.tSemicolon, none, 1, 9⟩,
   ⟨.tEof, none, 1, 10⟩]

/-- The bytecode `compile` emits for the statement `if (1) 2;` (everything
before the final `OP_RETURN`). -/
def c6_stmt_code : List Nat :=
  [OP_CONSTANT, 0, OP_JUMP_IF_FALSE, 0, 7, OP_POP, OP_CONSTANT, 1, OP_POP,
   OP_JUMP, 0, 1, OP_POP]

set_option maxHeartbeats 1000000 in
/-- C6 counterexample: the program `if (1) 2;` compiles without error, yet
the bytecode emitted for its single statement (everything before the final
`OP_RETURN`) has net stack effect `-1` under the spec's per-opcode
stack-effect table, not `0`: the `if` construct emits an `OP_POP` on both
sides of the `OP_JUMP`, and statically both pops are counted although only
one executes at runtime. -/
theorem c6_counterexample :
    (compile 50 c6_tokens).map (fun p => (p.1, p.2.code)) =
      some (true, c6_stmt_code ++ [OP_RETURN]) ∧
    seg_delta c6_stmt_code = some (-1) ∧
    (-1 : Int) ≠ 0 := by
  refine ⟨by decide, by decide, by decide⟩

set_option maxHeartbeats 2000000 in
/-- C6 amended: per the spec's per-opcode stack-effect table, the code a
statement emits when it compiles without error (from a non-panicked state
with well-scoped locals) has net static effect `-n` for some natural
number `n`, not always `0`.  The deficit comes only from `if` and `while`:
an expression statement and a print statement emit code with net effect
exactly `0`, while each `if` statement and each `while` statement emits
code with net effect `-1 - n` (strictly negative) — its own contribution
is exactly `-1`, because the `OP_POP` in both branches of its
`OP_JUMP_IF_FALSE` is counted statically though only one executes, and
`-n` is the deficit inherited from its substatements.  An expression's
emitted code has net effect `+1` as the spec says.  At runtime the stack
is nevertheless balanced: executing the chunk compiled from the
counterexample program `if (1) 2;` halts at the final `OP_RETURN` with
the operand stack empty. -/
theorem c6_amended :
    (∀ (fuel : Nat) (st st' : CState), statement fuel st = some st' →
      pi_inv st → locals_wf st → st'.had_error = false →
      ∃ (new : List Nat) (n : Nat), st'.code = st.code ++ new ∧
        seg_delta new = some (-(n : Int))) ∧
    (∀ (fuel : Nat) (st st' : CState), expression_statement fuel st = some st' →
      pi_inv st → locals_wf st → st'.had_error = false →
      ∃ (new : List Nat), st'.code = st.code ++ new ∧ seg_delta new = some 0) ∧
    (∀ (fuel : Nat) (st st' : CState), print_statement fuel st = some st' →
      pi_inv st → locals_wf st → st'.had_error = false →
      ∃ (new : List Nat), st'.code = st.code ++ new ∧ seg_delta new = some 0) ∧
    (∀ (fuel : Nat) (st st' : CState), if_statement fuel st = some st' →
      pi_inv st → locals_wf st → st'.had_error = false →
      ∃ (new : List Nat) (n : Nat), st'.code = st.code ++ new ∧
        seg_delta new = some (-1 - (n : Int))) ∧
    (∀ (fuel : Nat) (st st' : CState), while_statement fuel st = some st' →
      pi_inv st → locals_wf st → st'.had_error = false →
      ∃ (new : List Nat) (n : Nat), st'.code = st.code ++ new ∧
        seg_delta new = some (-1 - (n : Int))) ∧
    (∀ (fuel : Nat) (st st' : CState), expression fuel st = some st' →
      pi_inv st → st'.had_error = false →
      ∃ new, st'.code = st.code ++ new ∧ seg_delta new = some 1) ∧
    ((compile 50 c6_tokens).map (fun p =>
      (vm_run 20 ⟨⟨p.2.code, p.2.lines, p.2.constants⟩, 0, [], table_init, "", ""⟩).map
        (fun q => (q.1, q.2.stack))) = some (some (.iOk, []))) := by
  refine ⟨?_, ?_, ?_, ?_, ?_, ?_, ?_⟩
  · intro fuel st st' h hp hlwf hfin
    exact ((statement_inv fuel st st' h).2.2.2 hp hlwf hfin).2
  · intro fuel st st' h hp hlwf hfin
    exact ((expression_statement_inv fuel st st' h).2.2.2 hp hlwf hfin).2
  · intro fuel st st' h hp hlwf hfin
    exact ((print_statement_inv fuel st st' h).2.2.2 hp hlwf hfin).2
  · intro fuel st st' h hp hlwf hfin
    exact ((if_statement_inv fuel st st' h).2.2.2 hp hlwf hfin).2
  · intro fuel st st' h hp hlwf hfin
    exact ((while_statement_inv fuel st st' h).2.2.2 hp hlwf hfin).2
  · intro fuel st st' h hp hfin
    exact (expression_inv fuel st st' h).2.2.2.2 hp hfin
  · decide

set_option maxHeartbeats 1000000 in
/-- C6 witness: the amended statement applied to the expression statement
`1;`, whose emitted code `OP_CONSTANT 0; OP_POP` has net effect `-0`. -/
theorem c6_witness :
    statement 40 st_c6w = some st_c6w2 ∧
    ∃ (new : List Nat) (n : Nat), st_c6w2.code = st_c6w.code ++ new ∧
      seg_delta new = some (-(n : Int)) :=
  ⟨by decide, c6_amended.1 40 st_c6w st_c6w2 (by decide)
    (fun h => absurd h (by decide))
    (by
      intro l hl
      rw [show st_c6w.locals = [] from rfl] at hl
      exact absurd hl (List.not_mem_nil l)) (by decide)⟩

def st_pool_full : CState :=
  { init_cstate [] with constants := List.replicate 256 (.integer 0) }

/-- C8: adding a constant to a chunk whose pool already holds 256
constants is a compile error: `make_constant` reports
"Too many constants in one chunk." and returns index 0; every index
`make_constant` returns fits in one byte; `compile` returns `true` exactly
when `had_error` is false at the end, and `had_error`, once set (as the
error sets it), stays set through the declaration loop — so `compile`
returns `false`. -/
theorem c8_theorem :
    (∀ (o : Obj) (st : CState), 255 < st.constants.length → st.panic_mode = false →
      (make_constant o st).1 = 0 ∧
      (make_constant o st).2.had_error = true ∧
      (make_constant o st).2.errs = st.errs ++ ["Too many constants in one chunk."]) ∧
    (∀ (o : Obj) (st : CState), (make_constant o st).1 ≤ 255) ∧
    (∀ (fuel : Nat) (tokens : List Token) (b : Bool) (st : CState),
      compile fuel tokens = some (b, st) → b = !st.had_error) ∧
    (∀ (fuel : Nat) (st st' : CState), decls_loop fuel st = some st' →
      st.had_error = true → st'.had_error = true) := by
  refine ⟨?_, ?_, compile_result_had_error, ?_⟩
  · intro o st hlen hpm
    simp [make_constant, add_constant, errorC, hpm, Nat.lt_of_succ_le hlen]
  · intro o st
    simp only [make_constant, add_constant]
    by_cases hgt : st.constants.length > 255
    · rw [if_pos hgt]
      norm_num
    · rw [if_neg hgt]
      omega
  · intro fuel st st' h hh
    exact ((decls_loop_inv fuel st) st' h).1 hh

/-- C8 witness: `make_constant` applied at a concrete pool of 256
constants reports the error. -/
theorem c8_witness :
    (make_constant (.integer 7) st_pool_full).1 = 0 ∧
    (make_constant (.integer 7) st_pool_full).2.had_error = true ∧
    (make_constant (.integer 7) st_pool_full).2.errs =
      st_pool_full.errs ++ ["Too many constants in one chunk."] :=
  c8_theorem.1 (.integer 7) st_pool_full (by decide) (by decide)
end Cube
